import Mathlib

/-!
# Verification of the Inspectra-Gadget data-processing pipeline

Shallow embedding of the filter pipeline of the Inspectra-Gadget repository
(`filters.py` and the `apply_all_filters` / `processed_to_raw` machinery of
`main.py`) and proofs about it.

Modelling conventions:

* numpy arrays of floats are modelled over `ℚ`; a cell of an array is a pair
  `(value, masked)` so that `numpy.ma` masked arrays can be represented
  (a plain array is one whose `masked` flags are all `false`).
* Rational arithmetic is performed by the executable wrappers in namespace
  `QOps` below (built on `Rat.divInt`), so that every concrete computation
  reduces inside the kernel.
* A python "data" list is `DataV`: either two 1-D arrays `[x, z]`
  (`len(data) == 2`) or three 2-D arrays `[x, y, z]` (`len(data) == 3`),
  exactly the two shapes the source discriminates with `len(data)`.
* Fallible python code (`float(...)`/`int(...)` parses, `KeyError`,
  `IndexError`, shape errors raised by numpy) is modelled with `Option`:
  `none` is an exception escaping the filter function.  A failing filter is
  modelled atomically: the partially-updated state that a mid-function
  exception would leave behind is discarded by the caller in the source as
  well, and no property stated here observes it.
* Division by zero yields `0` where numpy would produce `inf`/`nan`;
  no property stated here depends on such values.
* In-place numpy mutation (`+=`, `*=`, `/=`, `-=`, slice assignment) versus
  rebinding of a list slot to a freshly allocated array is modelled
  explicitly by a store (heap) model further below.
-/

/-! ## Executable rational arithmetic

`Rat.add`/`Rat.mul`/`Rat.inv` are `@[irreducible]` in this toolchain, so we
define equivalent executable operations on top of `Rat.divInt` (which is
reducible and normalizing).  These are the arithmetic primitives of the
whole embedding. -/

namespace QOps

def qadd (a b : ℚ) : ℚ := Rat.divInt (a.num * b.den + b.num * a.den) (a.den * b.den)

def qsub (a b : ℚ) : ℚ := Rat.divInt (a.num * b.den - b.num * a.den) (a.den * b.den)

def qmul (a b : ℚ) : ℚ := Rat.divInt (a.num * b.num) (a.den * b.den)

/-- Division `a / b`, with the `b = 0 → 0` convention (numpy would give `inf`/`nan`). -/
def qdiv (a b : ℚ) : ℚ := Rat.divInt (a.num * b.den) (b.num * a.den)

def qneg (a : ℚ) : ℚ := Rat.divInt (-a.num) a.den

def qabs (a : ℚ) : ℚ := Rat.divInt a.num.natAbs a.den

def qlt (a b : ℚ) : Bool := Rat.blt a b

def qle (a b : ℚ) : Bool := !Rat.blt b a

def intQ (n : ℤ) : ℚ := Rat.divInt n 1

def natQ (n : ℕ) : ℚ := Rat.divInt n 1

/-- Ten to the integer power `e`. -/
def pow10 (e : ℤ) : ℚ :=
  if 0 ≤ e then Rat.divInt ((10 : ℕ) ^ e.toNat) 1 else Rat.divInt 1 ((10 : ℕ) ^ (-e).toNat)

def qmin (a b : ℚ) : ℚ := if qlt b a then b else a

def qmax (a b : ℚ) : ℚ := if qlt a b then b else a

def listMin? : List ℚ → Option ℚ
  | [] => none
  | x :: xs => some (xs.foldl qmin x)

def listMax? : List ℚ → Option ℚ
  | [] => none
  | x :: xs => some (xs.foldl qmax x)

/-- Python `int(q)` for a float `q`: truncation toward zero. -/
def truncQ (q : ℚ) : ℤ := q.num.tdiv q.den

end QOps

open QOps

/-! ## Python number parsing

`float(s)` and `int(s)` on the setting strings.  The model accepts the core
decimal grammar (sign, digits, decimal point, exponent); python extras such
as surrounding whitespace, underscore grouping and `inf`/`nan` literals are
not modelled — no property stated here uses such strings. -/

namespace PyStr

def digitVal (c : Char) : ℕ := c.toNat - '0'.toNat

def digitsVal (cs : List Char) : ℕ :=
  cs.foldl (fun acc c => 10 * acc + digitVal c) 0

def allDigits (cs : List Char) : Bool :=
  cs.all Char.isDigit && !cs.isEmpty

/-- Split a char list at the first `'e'`/`'E'`, if any. -/
def splitExp : List Char → List Char × Option (List Char)
  | [] => ([], none)
  | c :: cs =>
    if c = 'e' ∨ c = 'E' then ([], some cs)
    else
      let (m, e) := splitExp cs
      (c :: m, e)

/-- Split a char list at the first `'.'`, if any. -/
def splitDot : List Char → List Char × Option (List Char)
  | [] => ([], none)
  | c :: cs =>
    if c = '.' then ([], some cs)
    else
      let (m, e) := splitDot cs
      (c :: m, e)

/-- Strip one optional leading sign, returning the sign as `1` or `-1`. -/
def stripSign : List Char → ℤ × List Char
  | [] => (1, [])
  | c :: cs =>
    if c = '-' then (-1, cs)
    else if c = '+' then (1, cs)
    else (1, c :: cs)

/-- The mantissa part: `digits`, `digits.`, `digits.digits` or `.digits`,
as the pair (numerator, number of fractional digits). -/
def parseMantissa? (cs : List Char) : Option (ℕ × ℕ) :=
  let (ip, fp) := splitDot cs
  match fp with
  | none => if allDigits ip then some (digitsVal ip, 0) else none
  | some f =>
    if ip.isEmpty ∧ f.isEmpty then none
    else if (ip.isEmpty || allDigits ip) && (f.isEmpty || allDigits f) then
      some (digitsVal (ip ++ f), f.length)
    else none

def parseExpPart? (cs : List Char) : Option ℤ :=
  let (sg, ds) := stripSign cs
  if allDigits ds then some (sg * digitsVal ds) else none

/-- Model of python `float(s)`. -/
def parseFloat? (s : String) : Option ℚ := do
  let (sg, body) := stripSign s.data
  let (mant, ex) := splitExp body
  let (m, scale) ← parseMantissa? mant
  let e ← match ex with
          | none => pure (0 : ℤ)
          | some ecs => parseExpPart? ecs
  return qmul (intQ (sg * m)) (pow10 (e - scale))

/-- Model of python `int(s)`. -/
def parseInt? (s : String) : Option ℤ :=
  let (sg, ds) := stripSign s.data
  if allDigits ds then some (sg * digitsVal ds) else none

end PyStr

section ParserChecks

example : PyStr.parseFloat? "0.0258128" = some (Rat.divInt 16133 625000) := by decide
example : PyStr.parseFloat? "e^2/h" = none := by decide
example : PyStr.parseFloat? "abc" = none := by decide
example : PyStr.parseFloat? "-1.5e2" = some (-150 : ℚ) := by decide
example : PyStr.parseFloat? "1" = some 1 := by decide
example : PyStr.parseFloat? "3" = some 3 := by decide
example : PyStr.parseInt? "3" = some 3 := by decide
example : PyStr.parseInt? "-2" = some (-2) := by decide
example : PyStr.parseInt? "3.5" = none := by decide
example : qdiv 1 0 = 0 := by decide
example : qadd (Rat.divInt 1 2) (Rat.divInt 1 2) = 1 := by decide
example : QOps.truncQ (Rat.divInt (-7) 2) = -3 := by decide

end ParserChecks

/-! ## Arrays and data tuples -/

/-- One cell of a (possibly masked) numpy array: value and mask flag. -/
abbrev Cell := ℚ × Bool

/-- A 1-D array. -/
abbrev Vec := List Cell

/-- A 2-D array, as its list of rows. -/
abbrev Mat := List Vec

/-- A plain (unmasked) 1-D array from values. -/
def plainV (qs : List ℚ) : Vec := qs.map (fun q => (q, false))

/-- A plain (unmasked) 2-D array from values. -/
def plainM (qss : List (List ℚ)) : Mat := qss.map plainV

/-- The values of a 1-D array (mask ignored, as numpy `.data`). -/
def valsV (v : Vec) : List ℚ := v.map (·.1)

/-- The values of a 2-D array. -/
def valsM (m : Mat) : List (List ℚ) := m.map valsV

/-- The values of the unmasked cells, in order (`numpy.ma` `compressed()`). -/
def unmaskedV (v : Vec) : List ℚ := (v.filter (fun c => !c.2)).map (·.1)

def unmaskedM (m : Mat) : List ℚ := (m.map unmaskedV).flatten

/-- Model of `np.min` over a possibly-masked 1-D array: minimum of the unmasked
values.  `none` models the exception on an empty array; the behaviour of
`np.min` on a fully-masked nonempty array (it returns `masked`) is also
modelled as `none` — no property stated here touches that corner. -/
def vecMin? (v : Vec) : Option ℚ := listMin? (unmaskedV v)

def vecMax? (v : Vec) : Option ℚ := listMax? (unmaskedV v)

def matMin? (m : Mat) : Option ℚ := listMin? (unmaskedM m)

def matMax? (m : Mat) : Option ℚ := listMax? (unmaskedM m)

/-- The row-length profile of a 2-D array; two arrays have the same numpy
shape iff their profiles are equal (for the rectangular arrays numpy
actually produces, this is `(rows, cols)`). -/
def shapeOfL (m : List (List α)) : List ℕ := m.map List.length

/-- Rectangularity: every row has the length of the first row. -/
def rectB (m : List (List α)) : Bool := m.all (fun r => r.length == (m.headD []).length)

/-- A python "data" list: `[x, z]` (two 1-D arrays) or `[x, y, z]`
(three 2-D arrays). -/
inductive DataV where
  | d1 (x z : Vec)
  | d2 (x y z : Mat)
  deriving DecidableEq, Repr

/-- Python `len(data)`. -/
def DataV.arity : DataV → ℕ
  | .d1 _ _ => 2
  | .d2 _ _ _ => 3

/-- No cell of the tuple is masked. -/
def DataV.noMaskB : DataV → Bool
  | .d1 x z => (x.all (fun c => !c.2)) && (z.all (fun c => !c.2))
  | .d2 x y z => (x.all (·.all (fun c => !c.2))) && (y.all (·.all (fun c => !c.2)))
                   && (z.all (·.all (fun c => !c.2)))

/-- Mutually consistent shapes: equal lengths in the 2-array case, equal
row-length profiles in the 3-array case. -/
def DataV.consistentB : DataV → Bool
  | .d1 x z => x.length == z.length
  | .d2 x y z => (shapeOfL x == shapeOfL y) && (shapeOfL y == shapeOfL z)

/-- All 2-D arrays of the tuple rectangular (trivial in the 1-D case);
numpy arrays are rectangular by construction. -/
def DataV.rectAllB : DataV → Bool
  | .d1 _ _ => true
  | .d2 x y z => rectB x && rectB y && rectB z

/-! ## Python slicing and related numpy helpers -/

/-- Normalization of one python slice endpoint for a sequence of length
`n`: negative indices count from the end, the result is clamped to
`[0, n]`. -/
def pyIdx (n : ℕ) (i : ℤ) : ℕ := if i < 0 then (n + i).toNat else min i.toNat n

/-- Python `xs[a:b]`. -/
def pySlice (xs : List α) (a b : ℤ) : List α :=
  let a' := pyIdx xs.length a
  let b' := pyIdx xs.length b
  (xs.drop a').take (b' - a')

/-- Python `xs[a:]`. -/
def pySliceFrom (xs : List α) (a : ℤ) : List α := xs.drop (pyIdx xs.length a)

/-- Python `xs[:b]`. -/
def pySliceTo (xs : List α) (b : ℤ) : List α := xs.take (pyIdx xs.length b)

/-- Python `xs[i]` with negative-index wraparound (`none` = `IndexError`). -/
def pyGet? (xs : List α) (i : ℤ) : Option α :=
  if i < 0 then
    if h : (xs.length + i).toNat < xs.length then some (xs.get ⟨(xs.length + i).toNat, h⟩) else none
  else
    if h : i.toNat < xs.length then some (xs.get ⟨i.toNat, h⟩) else none

/-- Model of `np.linspace a b n` (with endpoint, as in the source). -/
def linspaceQ (a b : ℚ) (n : ℕ) : List ℚ :=
  if n = 1 then [a]
  else (List.range n).map (fun i => qadd a (qdiv (qmul (qsub b a) (natQ i)) (natQ (n - 1))))

/-- Column `0` of a 2-D array, `none` when some row is empty
(`IndexError` on `m[:,0]`). -/
def col0? (m : Mat) : Option (List ℚ) := m.mapM (fun row => (row.head?).map (·.1))

/-- Row `0` of a 2-D array, `none` when there is none (`IndexError` on
`m[0,:]`). -/
def row0? (m : Mat) : Option (List ℚ) := (m.head?).map valsV

/-- Iterate a fallible step `k` times (a python `for _ in range(k)` whose
body may raise). -/
def iterOpt (k : ℕ) (f : α → Option α) (a : α) : Option α :=
  match k with
  | 0 => some a
  | k + 1 => (f a).bind (iterOpt k f)

/-! ## Gradient models

Model of `np.gradient` (default `edge_order=1`): one-sided first-order
differences at the two edges, and the second-order three-point formula for
non-uniform spacing in the interior (numpy's coefficients
`a = -hs/(hd*(hd+hs))`, `b = (hs-hd)/(hd*hs)`, `c = hd/(hs*(hd+hs))` with
`hd = x[i]-x[i-1]`, `hs = x[i+1]-x[i]`). -/

def gradCompute (xs fs : List ℚ) : List ℚ :=
  let n := fs.length
  (List.range n).map (fun i =>
    if i = 0 then
      qdiv (qsub (fs.getD 1 0) (fs.getD 0 0)) (qsub (xs.getD 1 0) (xs.getD 0 0))
    else if i = n - 1 then
      qdiv (qsub (fs.getD (n-1) 0) (fs.getD (n-2) 0)) (qsub (xs.getD (n-1) 0) (xs.getD (n-2) 0))
    else
      let hd := qsub (xs.getD i 0) (xs.getD (i-1) 0)
      let hs := qsub (xs.getD (i+1) 0) (xs.getD i 0)
      let a := qdiv (qneg hs) (qmul hd (qadd hd hs))
      let b := qdiv (qsub hs hd) (qmul hd hs)
      let c := qdiv hd (qmul hs (qadd hd hs))
      qadd (qadd (qmul a (fs.getD (i-1) 0)) (qmul b (fs.getD i 0))) (qmul c (fs.getD (i+1) 0)))

/-- Model of `np.gradient(f, x)` on 1-D arrays; `none` models the numpy
exceptions for fewer than two samples or a coordinate-length mismatch. -/
def gradientNU? (xs fs : List ℚ) : Option (List ℚ) :=
  if fs.length < 2 ∨ xs.length ≠ fs.length then none else some (gradCompute xs fs)

/-- Model of `np.gradient(z, xc, axis=0)` on a 2-D array: each column is
differentiated with respect to `xc`.  Implemented row-wise with the same
edge/interior formulas as `gradCompute`. -/
def gradientAxis0? (xc : List ℚ) (z : List (List ℚ)) : Option (List (List ℚ)) :=
  let n := z.length
  if n < 2 ∨ xc.length ≠ n then none else some (
    (List.range n).map (fun i =>
      if i = 0 then
        List.zipWith (fun f0 f1 => qdiv (qsub f1 f0) (qsub (xc.getD 1 0) (xc.getD 0 0)))
          (z.getD 0 []) (z.getD 1 [])
      else if i = n - 1 then
        List.zipWith (fun f0 f1 => qdiv (qsub f1 f0) (qsub (xc.getD (n-1) 0) (xc.getD (n-2) 0)))
          (z.getD (n-2) []) (z.getD (n-1) [])
      else
        let hd := qsub (xc.getD i 0) (xc.getD (i-1) 0)
        let hs := qsub (xc.getD (i+1) 0) (xc.getD i 0)
        let a := qdiv (qneg hs) (qmul hd (qadd hd hs))
        let b := qdiv (qsub hs hd) (qmul hd hs)
        let c := qdiv hd (qmul hs (qadd hd hs))
        List.zipWith (fun (p : ℚ × ℚ) fn => qadd (qadd (qmul a p.1) (qmul b p.2)) (qmul c fn))
          ((z.getD (i-1) []).zip (z.getD i [])) (z.getD (i+1) [])))

/-- Model of `np.gradient(z, yc, axis=1)` on a 2-D array: each row is
differentiated with respect to `yc`. -/
def gradientAxis1? (yc : List ℚ) (z : List (List ℚ)) : Option (List (List ℚ)) :=
  if yc.length < 2 ∨ ¬ (z.all (fun r => r.length = yc.length)) then none
  else some (z.map (gradCompute yc))

/-- Model of `np.gradient(f)` with unit spacing on a 1-D array. -/
def gradUnit? (fs : List ℚ) : Option (List ℚ) :=
  let n := fs.length
  if n < 2 then none else some (
    (List.range n).map (fun i =>
      if i = 0 then qsub (fs.getD 1 0) (fs.getD 0 0)
      else if i = n - 1 then qsub (fs.getD (n-1) 0) (fs.getD (n-2) 0)
      else qdiv (qsub (fs.getD (i+1) 0) (fs.getD (i-1) 0)) 2))

/-- Model of `np.gradient(m, axis=1)` (unit spacing), row-wise. -/
def gradUnitAxis1? (m : List (List ℚ)) : Option (List (List ℚ)) :=
  m.mapM gradUnit?

/-- Model of `np.gradient(m, axis=0)` (unit spacing), column-wise. -/
def gradUnitAxis0? (m : List (List ℚ)) : Option (List (List ℚ)) :=
  let n := m.length
  if n < 2 then none else some (
    (List.range n).map (fun i =>
      if i = 0 then List.zipWith (fun f0 f1 => qsub f1 f0) (m.getD 0 []) (m.getD 1 [])
      else if i = n - 1 then
        List.zipWith (fun f0 f1 => qsub f1 f0) (m.getD (n-2) []) (m.getD (n-1) [])
      else
        List.zipWith (fun fp fn => qdiv (qsub fn fp) 2) (m.getD (i-1) []) (m.getD (i+1) [])))

/-- Elementwise division of 2-D value arrays (`a /= b`); numpy requires
matching shapes, `zipWith` truncation only differs on ragged inputs numpy
cannot represent. -/
def matDivE (a b : List (List ℚ)) : List (List ℚ) :=
  List.zipWith (List.zipWith qdiv) a b

/-- Elementwise division of 1-D value arrays. -/
def vecDivE (a b : List ℚ) : List ℚ := List.zipWith qdiv a b

/-! ## The filter functions (module `filters.py`) -/

/-- One filter instance, python dict with keys `'Name'`, `'Method'`,
`'Setting 1'`, `'Setting 2'`, `'Checked'` (a Qt check state, `0` or `2`;
the source tests it with python truthiness). -/
structure FilterSettings where
  name : String
  method : String
  setting1 : String
  setting2 : String
  checked : Int
  deriving DecidableEq, Repr

/-- Elementwise add of a constant to a 1-D array (`v += c`); the mask is
kept and the arithmetic is applied to the underlying data — no property
stated here depends on values under a mask. -/
def vecAddC (v : Vec) (q : ℚ) : Vec := v.map (fun c => (qadd c.1 q, c.2))

def matAddC (m : Mat) (q : ℚ) : Mat := m.map (fun r => vecAddC r q)

def vecMulC (v : Vec) (q : ℚ) : Vec := v.map (fun c => (qmul c.1 q, c.2))

def matMulC (m : Mat) (q : ℚ) : Mat := m.map (fun r => vecMulC r q)

def vecDivC (v : Vec) (q : ℚ) : Vec := v.map (fun c => (qdiv c.1 q, c.2))

def matDivC (m : Mat) (q : ℚ) : Mat := m.map (fun r => vecDivC r q)

/-- Model of `np.ma.masked_array(v, mask)` for equal lengths: the new mask
is or-ed into the existing one. -/
def maskWithV (v : Vec) (mask : List Bool) : Vec :=
  List.zipWith (fun (c : Cell) b => (c.1, c.2 || b)) v mask

def maskWithM (m : Mat) (mask : List (List Bool)) : Mat :=
  List.zipWith maskWithV m mask

/-- Model of `np.ma.compress_rowcols(·, axis=0)`: drop every row that
contains a masked cell. -/
def compressRows (m : Mat) : Mat := m.filter (fun row => !row.any (·.2))

/-- Model of `np.ma.compress_rowcols(·, axis=1)`: drop every column that
contains a masked cell. -/
def compressCols (m : Mat) : Mat :=
  let bad := fun j => m.any (fun row => (row.getD j ((0 : ℚ), false)).2)
  m.map (fun row => ((List.range row.length).filter (fun j => !bad j)).map
    (fun j => row.getD j ((0 : ℚ), false)))

/-- Index of the first minimum of `|q - p|` (model of
`np.argmin(np.abs(qs - p))`); `none` on an empty array. -/
def argminAbs? (qs : List ℚ) (p : ℚ) : Option ℕ :=
  match qs with
  | [] => none
  | q :: rest =>
    some ((rest.foldl (fun (acc : ℕ × ℚ × ℕ) v =>
      let d := qabs (qsub v p)
      if qlt d acc.2.1 then (acc.2.2 + 1, d, acc.2.2 + 1) else (acc.1, acc.2.1, acc.2.2 + 1))
      (0, qabs (qsub q p), 0)).1)

namespace filters

/-- Model of `filters.derivative`, 2-D loop bodies
`data[-1] = np.gradient(data[-1], data[0][:,0], axis=0)` (`times_x` times)
then `data[-1] = np.gradient(data[-1], data[1][0,:], axis=1)`
(`times_y` times). -/
def derivative2 (x y z : Mat) (tx ty : ℤ) : Option Mat := do
  let z1 ← iterOpt tx.toNat (fun zz => do
      let xc ← col0? x
      (gradientAxis0? xc (valsM zz)).map plainM) z
  iterOpt ty.toNat (fun zz => do
      let yc ← row0? y
      (gradientAxis1? yc (valsM zz)).map plainM) z1

/-- Model of `filters.derivative`.  In the 1-D case only `times_y` drives
the loop, as in the source. -/
def derivative (data : DataV) (method times_x times_y : String) : Option DataV := do
  let tx ← PyStr.parseInt? times_x
  let ty ← PyStr.parseInt? times_y
  match data with
  | .d2 x y z => (derivative2 x y z tx ty).map (.d2 x y ·)
  | .d1 x z =>
    (iterOpt ty.toNat (fun zz => (gradientNU? (valsV x) (valsV zz)).map plainV) z).map (.d1 x ·)

/-- Model of the scipy smoothing kernels used by `filters.smooth`
(`gaussian_filter`, `median_filter`, `gaussian_filter1d`): identity on the
values (no property stated in this development depends on smoothed values;
the scipy filters preserve shape, and so does this model).  They operate on
the underlying data of a masked array, so the result is unmasked. -/
def smoothModelM (m : Mat) : Mat := plainM (valsM m)

def smoothModelV (v : Vec) : Vec := plainV (valsV v)

/-- Model of `filters.smooth`.  For an unknown method the widths stay
unparsed strings, whose python truthiness is nonemptiness; a truthy width
then reaches the `filters[method]` lookup and raises `KeyError`.  For
`'Median'` with exactly one truthy width the source looks up
`filters1d['Median']`, which also raises `KeyError`. -/
def smooth (data : DataV) (method width_x width_y : String) : Option DataV :=
  match method with
  | "Gaussian" => do
    let wx ← PyStr.parseFloat? width_x
    let wy ← PyStr.parseFloat? width_y
    match data with
    | .d2 x y z =>
      if wx ≠ 0 then some (.d2 x y (smoothModelM z))
      else if wy ≠ 0 then some (.d2 x y (smoothModelM z))
      else some (.d2 x y z)
    | .d1 x z => if wy ≠ 0 then some (.d1 x (smoothModelV z)) else some (.d1 x z)
  | "Median" => do
    let wxf ← PyStr.parseFloat? width_x
    let wyf ← PyStr.parseFloat? width_y
    let wx : ℤ := ⌈wxf⌉ + 1
    let wy : ℤ := ⌈wyf⌉ + 1
    match data with
    | .d2 x y z =>
      if wx ≠ 0 then
        if wy ≠ 0 then some (.d2 x y (smoothModelM z))
        else none
      else if wy ≠ 0 then none
      else some (.d2 x y z)
    | .d1 x z => if wy ≠ 0 then none else some (.d1 x z)
  | _ =>
    match data with
    | .d2 x y z =>
      if width_x ≠ "" then none
      else if width_y ≠ "" then none
      else some (.d2 x y z)
    | .d1 x z => if width_y ≠ "" then none else some (.d1 x z)

/-- Model of `scipy.signal.savgol_filter`: identity on the values (no
property stated in this development depends on the smoothed values); shape
preserved, result unmasked. -/
def savgolModelM (m : Mat) : Mat := plainM (valsM m)

def savgolModelV (v : Vec) : Vec := plainV (valsV v)

/-- Model of `filters.sav_gol`.  The axis is only evaluated (and hence an
unknown axis letter only raises) in the 2-D branch, as in the source; the
derivative order is `int(method[-1])`. -/
def sav_gol (data : DataV) (method window_length polyorder : String) : Option DataV := do
  let p ← PyStr.parseInt? polyorder
  let w0 ← PyStr.parseInt? window_length
  let w1 := if w0 < p then p + 1 else w0
  let _w2 := if w1 % 2 = 0 then w1 + 1 else w1
  let deriv ← (match method.data.getLast? with
    | some c => if c.isDigit then some (PyStr.digitVal c) else none
    | none => none)
  match data with
  | .d2 x y z => do
    let _ax ← (if method.contains 'Y' then some 1 else if method.contains 'X' then some 0
               else none)
    let z1 := savgolModelM z
    if method = "Y deriv 1" ∨ method = "Y deriv 2" then do
      let g ← gradUnitAxis1? (valsM y)
      let z2 := plainM (matDivE (valsM z1) g)
      if method = "Y deriv 2" then do
        let g' ← gradUnitAxis1? (valsM y)
        some (.d2 x y (plainM (matDivE (valsM z2) g')))
      else some (.d2 x y z2)
    else if method = "X deriv 1" ∨ method = "X deriv 2" then do
      let g ← gradUnitAxis0? (valsM x)
      let z2 := plainM (matDivE (valsM z1) g)
      if method = "X deriv 2" then do
        let g' ← gradUnitAxis0? (valsM x)
        some (.d2 x y (plainM (matDivE (valsM z2) g')))
      else some (.d2 x y z2)
    else some (.d2 x y z1)
  | .d1 x z => do
    let z1 := savgolModelV z
    if deriv > 0 then do
      let g ← gradUnit? (valsV x)
      let z2 := plainV (vecDivE (valsV z1) g)
      if deriv = 2 then do
        let g' ← gradUnit? (valsV x)
        some (.d1 x (plainV (vecDivE (valsV z2) g')))
      else some (.d1 x z2)
    else some (.d1 x z1)

/-- The crop mask of `filters.crop_x`/`crop_y` on a 2-D coordinate array;
`none` for an unknown method, where the source's `mask` variable is never
assigned and its use raises `NameError`. -/
def cropMask2 (method : String) (lo hi mn mx : ℚ) (m : Mat) : Option (List (List Bool)) :=
  if method = "Absolute" then
    some (m.map (·.map (fun c => qlt c.1 lo || qlt hi c.1)))
  else if method = "Relative" then
    some (m.map (·.map (fun c =>
      (qle mn c.1 && qle c.1 (qadd mn (qabs lo))) || (qle c.1 mx && qle (qsub mx (qabs hi)) c.1))))
  else none

/-- The crop mask on a 1-D coordinate array. -/
def cropMask1 (method : String) (lo hi mn mx : ℚ) (v : Vec) : Option (List Bool) :=
  if method = "Absolute" then
    some (v.map (fun c => qlt c.1 lo || qlt hi c.1))
  else if method = "Relative" then
    some (v.map (fun c =>
      (qle mn c.1 && qle c.1 (qadd mn (qabs lo))) || (qle c.1 mx && qle (qsub mx (qabs hi)) c.1)))
  else none

/-- Model of `filters.crop_x`.  In the 2-D case the rows containing masked
samples are dropped from all three arrays (`compress_rowcols`, axis 0); in
the 1-D case both arrays are only wrapped as masked arrays, keeping their
length.  When the range condition fails the data is returned unchanged. -/
def crop_x (data : DataV) (method left right : String) : Option DataV :=
  match data with
  | .d2 x y z => do
    let mn ← matMin? x
    let mx ← matMax? x
    let l ← PyStr.parseFloat? left
    let r ← PyStr.parseFloat? right
    if qlt l r && qlt l mx && qlt mn r then do
      let mask ← cropMask2 method l r mn mx x
      if (shapeOfL y == shapeOfL x) && (shapeOfL z == shapeOfL x) then
        some (.d2 (compressRows (maskWithM x mask)) (compressRows (maskWithM y mask))
                  (compressRows (maskWithM z mask)))
      else none
    else some (.d2 x y z)
  | .d1 x z => do
    let mn ← vecMin? x
    let mx ← vecMax? x
    let l ← PyStr.parseFloat? left
    let r ← PyStr.parseFloat? right
    if qlt l r && qlt l mx && qlt mn r then do
      let mask ← cropMask1 method l r mn mx x
      if z.length == x.length then
        some (.d1 (maskWithV x mask) (maskWithV z mask))
      else none
    else some (.d1 x z)

/-- Model of `filters.crop_y`: the 2-D analogue of `crop_x` along columns
(`compress_rowcols`, axis 1); 1-D data is returned unchanged without even
parsing the settings, as in the source. -/
def crop_y (data : DataV) (method bottom top : String) : Option DataV :=
  match data with
  | .d2 x y z => do
    let mn ← matMin? y
    let mx ← matMax? y
    let b ← PyStr.parseFloat? bottom
    let t ← PyStr.parseFloat? top
    if qlt b t && qlt b mx && qlt mn t then do
      let mask ← cropMask2 method b t mn mx y
      if (shapeOfL x == shapeOfL y) && (shapeOfL z == shapeOfL y) then
        some (.d2 (compressCols (maskWithM x mask)) (compressCols (maskWithM y mask))
                  (compressCols (maskWithM z mask)))
      else none
    else some (.d2 x y z)
  | .d1 x z => some (.d1 x z)

/-- Model of `filters.roll_x`:
`data[2][:,position:] = np.roll(data[2][:,position:], shift=amount, axis=0)`,
an in-place slice assignment rolling the tail columns downwards across
rows.  1-D data is returned unchanged. -/
def roll_x (data : DataV) (method position amount : String) : Option DataV :=
  match data with
  | .d2 x y z => do
    let a ← PyStr.parseInt? amount
    let p ← PyStr.parseInt? position
    let n := z.length
    some (.d2 x y (z.enum.map (fun (ir : ℕ × Vec) =>
      let pn := pyIdx ir.2.length p
      ir.2.enum.map (fun (jc : ℕ × Cell) =>
        if jc.1 < pn then jc.2
        else (z.getD (((ir.1 : ℤ) - a) % (n : ℤ)).toNat []).getD jc.1 jc.2))))
  | .d1 x z => some (.d1 x z)

/-- Model of `filters.roll_y`:
`data[2][position:,:] = np.roll(data[2][position:,:], shift=amount, axis=1)`,
rolling each tail row within itself.  1-D data is returned unchanged. -/
def roll_y (data : DataV) (method position amount : String) : Option DataV :=
  match data with
  | .d2 x y z => do
    let a ← PyStr.parseInt? amount
    let p ← PyStr.parseInt? position
    let pn := pyIdx z.length p
    some (.d2 x y (z.enum.map (fun (ir : ℕ × Vec) =>
      if ir.1 < pn then ir.2
      else ir.2.enum.map (fun (jc : ℕ × Cell) =>
        ir.2.getD (((jc.1 : ℤ) - a) % (ir.2.length : ℤ)).toNat jc.2))))
  | .d1 x z => some (.d1 x z)

/-- Model of `filters.cut_x`: `part1 = z[:left]`, `part2 = z[left:left+width]`,
`part3 = z[left+width:]`, result `vstack((part1, part3, part2))` — the cut
slab is moved behind the rest.  Coordinate arrays untouched; 1-D data is
returned unchanged. -/
def cut_x (data : DataV) (method left width : String) : Option DataV :=
  match data with
  | .d2 x y z => do
    let l ← PyStr.parseInt? left
    let w ← PyStr.parseInt? width
    some (.d2 x y (pySliceTo z l ++ pySliceFrom z (l + w) ++ pySlice z l (l + w)))
  | .d1 x z => some (.d1 x z)

/-- Model of `filters.cut_y`: the same per row (`hstack`). -/
def cut_y (data : DataV) (method bottom width : String) : Option DataV :=
  match data with
  | .d2 x y z => do
    let b ← PyStr.parseInt? bottom
    let w ← PyStr.parseInt? width
    some (.d2 x y (z.map (fun row =>
      pySliceTo row b ++ pySliceFrom row (b + w) ++ pySlice row b (b + w))))
  | .d1 x z => some (.d1 x z)

/-- Model of `filters.swap_xy`: `data[0], data[1] = data[1], data[0]`. -/
def swap_xy (data : DataV) (method setting1 setting2 : String) : Option DataV :=
  match data with
  | .d2 x y z => some (.d2 y x z)
  | .d1 x z => some (.d1 z x)

/-- Model of `filters.flip`.  `np.fliplr` requires a 2-D array, so
`'Up Down'` on 1-D data raises; an unrecognized method leaves the data
unchanged. -/
def flip (data : DataV) (method setting1 setting2 : String) : Option DataV :=
  if method = "Up Down" then
    match data with
    | .d2 x y z => some (.d2 x y (z.map List.reverse))
    | .d1 _ _ => none
  else if method = "Left Right" then
    match data with
    | .d2 x y z => some (.d2 x y z.reverse)
    | .d1 x z => some (.d1 x z.reverse)
  else some data

/-- Model of `filters.normalize`.  For an unknown method the source's
`norm_value` is never assigned and its use raises `NameError`. -/
def normalize (data : DataV) (method point_x point_y : String) : Option DataV :=
  match data with
  | .d2 x y z => do
    let nv ← (match method with
      | "Maximum" => matMax? z
      | "Minimum" => matMin? z
      | "Point" => do
        let px ← PyStr.parseFloat? point_x
        let py ← PyStr.parseFloat? point_y
        let xc ← col0? x
        let yr ← row0? y
        let xi ← argminAbs? xc px
        let yi ← argminAbs? yr py
        (z.getD xi []).get? yi |>.map (·.1)
      | _ => none)
    some (.d2 x y (matDivC z nv))
  | .d1 x z => do
    let nv ← (match method with
      | "Maximum" => vecMax? z
      | "Minimum" => vecMin? z
      | "Point" => do
        let px ← PyStr.parseFloat? point_x
        let xi ← argminAbs? (valsV x) px
        (z.get? xi).map (·.1)
      | _ => none)
    some (.d1 x (vecDivC z nv))

/-- Adding a parsed constant to `data[0]` (`data[0] += c`, in place). -/
def offSlot0 (data : DataV) (c : ℚ) : DataV :=
  match data with
  | .d1 x z => .d1 (vecAddC x c) z
  | .d2 x y z => .d2 (matAddC x c) y z

/-- Adding a parsed constant to `data[1]` (in the 1-D case `data[1]` is the
dependent array). -/
def offSlot1 (data : DataV) (c : ℚ) : DataV :=
  match data with
  | .d1 x z => .d1 x (vecAddC z c)
  | .d2 x y z => .d2 x (matAddC y c) z

/-- Adding a parsed constant to `data[2]` (only reached for 3-array data). -/
def offSlot2 (data : DataV) (c : ℚ) : DataV :=
  match data with
  | .d1 x z => .d1 x z
  | .d2 x y z => .d2 x y (matAddC z c)

/-- Model of `filters.offset`: three independent `if`s; the parse of
`setting1` only happens inside a taken branch, and the `'Z'` branch is
additionally guarded by `len(data) == 3`. -/
def offset (data : DataV) (method setting1 setting2 : String) : Option DataV := do
  let da ← (if method = "X" then (PyStr.parseFloat? setting1).map (offSlot0 data)
            else some data)
  let db ← (if method = "Y" then (PyStr.parseFloat? setting1).map (offSlot1 da)
            else some da)
  if method = "Z" ∧ db.arity = 3 then (PyStr.parseFloat? setting1).map (offSlot2 db)
  else some db

/-- Model of `filters.absolute`. -/
def absolute (data : DataV) (method setting1 setting2 : String) : Option DataV :=
  match data with
  | .d2 x y z => some (.d2 x y (z.map (·.map (fun c => (qabs c.1, c.2)))))
  | .d1 x z => some (.d1 x (z.map (fun c => (qabs c.1, c.2))))

/-- The `axis = {'X': 0, 'Y': 1, 'Z': 2}` lookup (`none` = `KeyError`). -/
def axisIdx? (m : String) : Option ℕ :=
  if m = "X" then some 0 else if m = "Y" then some 1 else if m = "Z" then some 2 else none

/-- Model of `filters.mulitply` (the source's spelling): scale the array
chosen by the axis dictionary in place.  In the 1-D case the guard
`axis[method] < 2` skips the scaling (and the parse) for `'Z'`. -/
def mulitply (data : DataV) (method setting1 setting2 : String) : Option DataV := do
  let ax ← axisIdx? method
  match data with
  | .d2 x y z => do
    let c ← PyStr.parseFloat? setting1
    some (if ax = 0 then .d2 (matMulC x c) y z
          else if ax = 1 then .d2 x (matMulC y c) z
          else .d2 x y (matMulC z c))
  | .d1 x z =>
    if ax < 2 then do
      let c ← PyStr.parseFloat? setting1
      some (if ax = 0 then .d1 (vecMulC x c) z else .d1 x (vecMulC z c))
    else some (.d1 x z)

/-- Model of `filters.logarithm` with the `log10` values modelled by the
identity (only the masking behaviour of `np.ma.log10` — masking nonpositive
arguments — matters to any property stated here). -/
def logarithm (data : DataV) (method setting1 setting2 : String) : Option DataV :=
  if method = "Mask" then
    match data with
    | .d2 x y z => some (.d2 x y (z.map (·.map (fun c => (c.1, c.2 || qle c.1 0)))))
    | .d1 x z => some (.d1 x (z.map (fun c => (c.1, c.2 || qle c.1 0))))
  else if method = "Shift" then
    match data with
    | .d2 x y z => do
      let mn ← matMin? z
      if qle mn 0 then
        some (.d2 x y (z.map (·.map (fun c =>
          (qsub c.1 mn, c.2 || qle (qsub c.1 mn) 0)))))
      else some (.d2 x y (z.map (·.map (fun c => (c.1, c.2 || qle c.1 0)))))
    | .d1 x z => do
      let mn ← vecMin? z
      if qle mn 0 then
        some (.d1 x (z.map (fun c => (qsub c.1 mn, c.2 || qle (qsub c.1 mn) 0))))
      else some (.d1 x (z.map (fun c => (c.1, c.2 || qle c.1 0))))
  else if method = "Abs" then
    match data with
    | .d2 x y z => some (.d2 x y (z.map (·.map (fun c => (qabs c.1, c.2 || qle (qabs c.1) 0)))))
    | .d1 x z => some (.d1 x (z.map (fun c => (qabs c.1, c.2 || qle (qabs c.1) 0))))
  else some data

/-- Model of `filters.band_cut` with the FFT band-zeroing modelled by the
identity on the dependent array (the discrete Fourier transform is
irrational, and no property stated in this development depends on band-cut
values; the shape-preservation and the parse/branch structure are what the
pipeline-level properties use).  The index parses happen only inside a
taken branch, as in the source. -/
def band_cut (data : DataV) (method index1 index2 : String) : Option DataV :=
  match data with
  | .d2 x y z =>
    if method = "X" ∨ method = "Y" then do
      let _i1 ← PyStr.parseInt? index1
      let _i2 ← PyStr.parseInt? index2
      some (.d2 x y z)
    else some (.d2 x y z)
  | .d1 x z => do
    let _i1 ← PyStr.parseInt? index1
    let _i2 ← PyStr.parseInt? index2
    some (.d1 x z)

/-- Piecewise-linear interpolation through the given sample points
(model of scipy's 1-D interpolant; the `cubic`/`quintic` spline kinds are
modelled by the same rule — no property stated in this development depends
on interpolated values). -/
def interp1Model : List ℚ → List ℚ → ℚ → ℚ
  | x0 :: x1 :: xs, y0 :: y1 :: ys, t =>
    if qle t x0 then y0
    else if qle t x1 then qadd y0 (qdiv (qmul (qsub y1 y0) (qsub t x0)) (qsub x1 x0))
    else interp1Model (x1 :: xs) (y1 :: ys) t
  | _ :: _, y0 :: _, _ => y0
  | _, _, _ => 0

/-- Bilinear model of `scipy.interpolate.interp2d` evaluation. -/
def interp2Model (x0 y0 : List ℚ) (z : List (List ℚ)) (xi yj : ℚ) : ℚ :=
  let col := (List.range y0.length).map
    (fun j => interp1Model x0 (z.map (fun r => r.getD j 0)) xi)
  interp1Model y0 col yj

/-- Model of `filters.interpolate`: a regular `n_x × n_y` grid spanning the
coordinate extrema (`np.linspace` + `np.meshgrid(yp, xp)`), with the
dependent array re-evaluated on the grid.  An unknown interpolation kind
raises inside scipy; a negative grid size raises inside `np.linspace`. -/
def interpolate (data : DataV) (method n_x n_y : String) : Option DataV :=
  if method = "linear" ∨ method = "cubic" ∨ method = "quintic" then
    match data with
    | .d2 x y z => do
      let xc ← col0? x
      let yr ← row0? y
      let nx ← PyStr.parseInt? n_x
      let ny ← PyStr.parseInt? n_y
      if nx < 0 ∨ ny < 0 then none
      else do
        let mnx ← matMin? x
        let mxx ← matMax? x
        let mny ← matMin? y
        let mxy ← matMax? y
        let xp := linspaceQ mnx mxx nx.toNat
        let yp := linspaceQ mny mxy ny.toNat
        some (.d2 (plainM (xp.map (fun xv => yp.map (fun _ => xv))))
                  (plainM (xp.map (fun _ => yp)))
                  (plainM (xp.map (fun xv => yp.map (interp2Model xc yr (valsM z) xv)))))
    | .d1 x z => do
      let nx ← PyStr.parseInt? n_x
      if nx < 0 then none
      else do
        let mn ← vecMin? x
        let mx ← vecMax? x
        let xp := linspaceQ mn mx nx.toNat
        some (.d1 (plainV xp) (plainV (xp.map (interp1Model (valsV x) (valsV z)))))
  else none

/-- Model of `filters.slope`: `data[-1] += a_x*data[0] + a_y*data[1]`
(in place); the 1-D branch parses only `a_y` and adds `a_y*data[0]`. -/
def slope (data : DataV) (method a_x a_y : String) : Option DataV :=
  match data with
  | .d2 x y z => do
    let ax ← PyStr.parseFloat? a_x
    let ay ← PyStr.parseFloat? a_y
    some (.d2 x y (List.zipWith (fun (zr : Vec) (p : Vec × Vec) =>
      List.zipWith (fun (zc : Cell) (q : Cell × Cell) =>
        (qadd zc.1 (qadd (qmul ax q.1.1) (qmul ay q.2.1)), zc.2)) zr (p.1.zip p.2))
      z (x.zip y)))
  | .d1 x z => do
    let ay ← PyStr.parseFloat? a_y
    some (.d1 x (List.zipWith (fun (zc : Cell) (xc : Cell) =>
      (qadd zc.1 (qmul ay xc.1), zc.2)) z x))

/-- Model of `filters.subtract_trace`: subtract the trace at
`int(float(index))` (a column for `'Horizontal'`, a row for `'Vertical'`,
with python negative-index semantics) from the dependent array, in place.
1-D data is returned unchanged without parsing. -/
def subtract_trace (data : DataV) (method index setting2 : String) : Option DataV :=
  match data with
  | .d2 x y z => do
    let qf ← PyStr.parseFloat? index
    let idx := QOps.truncQ qf
    if method = "Horizontal" then
      (z.mapM (fun row => (pyGet? row idx).map
        (fun t => row.map (fun c => (qsub c.1 t.1, c.2))))).map (.d2 x y ·)
    else if method = "Vertical" then
      (pyGet? z idx).map (fun trow => .d2 x y (z.map (fun row =>
        List.zipWith (fun (c : Cell) (t : Cell) => (qsub c.1 t.1, c.2)) row trow)))
    else some (.d2 x y z)
  | .d1 x z => some (.d1 x z)

/-- Model of `filters.divide`: like `mulitply` with division. -/
def divide (data : DataV) (method setting1 setting2 : String) : Option DataV := do
  let ax ← axisIdx? method
  match data with
  | .d2 x y z => do
    let c ← PyStr.parseFloat? setting1
    some (if ax = 0 then .d2 (matDivC x c) y z
          else if ax = 1 then .d2 x (matDivC y c) z
          else .d2 x y (matDivC z c))
  | .d1 x z =>
    if ax < 2 then do
      let c ← PyStr.parseFloat? setting1
      some (if ax = 0 then .d1 (vecDivC x c) z else .d1 x (vecDivC z c))
    else some (.d1 x z)

/-- Model of `filters.apply`: dispatch on the filter name through the
`filter_functions` dictionary (`none` = `KeyError` for an unknown name)
and apply it to the data with the method and the two settings. -/
def apply (data : DataV) (fs : FilterSettings) : Option DataV :=
  match fs.name with
  | "Derivative" => derivative data fs.method fs.setting1 fs.setting2
  | "Smoothen" => smooth data fs.method fs.setting1 fs.setting2
  | "Sav-Gol" => sav_gol data fs.method fs.setting1 fs.setting2
  | "Crop X" => crop_x data fs.method fs.setting1 fs.setting2
  | "Crop Y" => crop_y data fs.method fs.setting1 fs.setting2
  | "Roll X" => roll_x data fs.method fs.setting1 fs.setting2
  | "Roll Y" => roll_y data fs.method fs.setting1 fs.setting2
  | "Cut X" => cut_x data fs.method fs.setting1 fs.setting2
  | "Cut Y" => cut_y data fs.method fs.setting1 fs.setting2
  | "Swap XY" => swap_xy data fs.method fs.setting1 fs.setting2
  | "Flip" => flip data fs.method fs.setting1 fs.setting2
  | "Normalize" => normalize data fs.method fs.setting1 fs.setting2
  | "Offset" => offset data fs.method fs.setting1 fs.setting2
  | "Absolute" => absolute data fs.method fs.setting1 fs.setting2
  | "Multiply" => mulitply data fs.method fs.setting1 fs.setting2
  | "Slope" => slope data fs.method fs.setting1 fs.setting2
  | "Logarithm" => logarithm data fs.method fs.setting1 fs.setting2
  | "Band cut" => band_cut data fs.method fs.setting1 fs.setting2
  | "Interp" => interpolate data fs.method fs.setting1 fs.setting2
  | "Subtract" => subtract_trace data fs.method fs.setting1 fs.setting2
  | "Divide" => divide data fs.method fs.setting1 fs.setting2
  | _ => none

end filters

/-! ## The store model

Python lists hold references to numpy arrays; `filters.py` updates some of
them in place (`+=`, `*=`, `/=`, `-=` and slice assignment) and rebinds
others to freshly computed arrays.  We model the heap as a list of arrays
(`Store`), a reference as an index into it, and a `data` list as a python
list of references.  Each filter's write-back behaviour is classified from
its source statements by `wbMode` below.  A slot that is rebound by an
assignment is modelled as a fresh allocation holding the new value (a
rebinding to a numpy view, as in `flip`, is also modelled as a fresh
value-equal array; no property stated here observes aliasing between two
processed slots).  A slot whose assignment statement did not execute may
still be reallocated with its unchanged value, which is indistinguishable
except for object identity; in-place updates are modelled exactly as stores
to the referenced array. -/

/-- A numpy array on the heap. -/
inductive Arr where
  | v (xs : Vec)
  | m (xss : Mat)
  deriving DecidableEq, Repr

abbrev Store := List Arr

/-- Dereference (out-of-range reads return a default; the pipeline theorems
only ever read valid references). -/
def readA (s : Store) (r : ℕ) : Arr := s.getD r (.v [])

/-- Overwrite the array behind a reference (an in-place numpy update). -/
def writeA (s : Store) (r : ℕ) (a : Arr) : Store := s.set r a

/-- Allocate a fresh array, returning its reference. -/
def allocA (s : Store) (a : Arr) : Store × ℕ := (s ++ [a], s.length)

/-- Allocate several arrays in order. -/
def allocList (s : Store) (arrs : List Arr) : Store × List ℕ :=
  (s ++ arrs, (List.range arrs.length).map (s.length + ·))

def Arr.toV : Arr → Vec
  | .v xs => xs
  | .m _ => []

def Arr.toM : Arr → Mat
  | .m xss => xss
  | .v _ => []

/-- Read a python `data` list of references back into a value tuple.
References must point to arrays of the dimensionality the list length
promises; other stores are not produced by the pipeline. -/
def readD (s : Store) (rs : List ℕ) : DataV :=
  match rs with
  | [a, b] => .d1 (readA s a).toV (readA s b).toV
  | [a, b, c] => .d2 (readA s a).toM (readA s b).toM (readA s c).toM
  | _ => .d1 [] []

/-- The arrays of a value tuple, in slot order. -/
def dataArrs : DataV → List Arr
  | .d1 x z => [.v x, .v z]
  | .d2 x y z => [.m x, .m y, .m z]

/-- The array at a slot. -/
def arrAt (dv : DataV) (i : ℕ) : Arr := (dataArrs dv).getD i (.v [])

/-- Write-back behaviour of one filter application, classified from the
filter's source statements. -/
inductive WB where
  | noWrite
  /-- `data[0], data[1] = data[1], data[0]` : pure reference swap. -/
  | swapRefs
  /-- In-place update of slot `i` (`+=`/`*=`/`/=`/`-=`/slice assignment). -/
  | slotInPlace (i : ℕ)
  /-- In-place update of `data[-1]`. -/
  | lastInPlace
  /-- `data[-1] = <new array>` : rebind the last slot to a fresh array. -/
  | lastFresh
  /-- Every slot rebound to a fresh array. -/
  | allFresh
  deriving DecidableEq, Repr

/-- The write-back mode of each filter, from its source statements
(`arity` is `len(data)`):

* `Derivative`, `Smoothen`, `Sav-Gol`, `Flip`, `Normalize`, `Absolute`,
  `Band cut` rebind `data[-1]` (`Flip` may rebind to a view; see the note
  on the store model);
* `Logarithm` rebinds `data[-1]` for its three methods and has no statement
  otherwise;
* `Crop X` rebinds every slot; `Crop Y` and `Interp` rebind every slot in
  the 3-array case (`Crop Y` has no statement on 1-D data, `Interp` rebinds
  both slots there too);
* `Cut X`/`Cut Y` rebind `data[-1]` in the 3-array case only;
* `Roll X`/`Roll Y` slice-assign into `data[2]` in the 3-array case only;
* `Swap XY` swaps the references;
* `Offset` adds in place to the slot selected by the method (no statement
  for `'Z'` on 1-D data); `Multiply`/`Divide` update the slot selected by
  the axis dictionary in place (skipped for `'Z'` on 1-D data);
* `Slope` adds to `data[-1]` in place; `Subtract` updates `data[-1]` in
  place for its two methods and has no statement otherwise. -/
def wbMode (name method : String) (arity : ℕ) : WB :=
  match name with
  | "Derivative" => .lastFresh
  | "Smoothen" => .lastFresh
  | "Sav-Gol" => .lastFresh
  | "Crop X" => .allFresh
  | "Crop Y" => if arity = 3 then .allFresh else .noWrite
  | "Roll X" => if arity = 3 then .lastInPlace else .noWrite
  | "Roll Y" => if arity = 3 then .lastInPlace else .noWrite
  | "Cut X" => if arity = 3 then .lastFresh else .noWrite
  | "Cut Y" => if arity = 3 then .lastFresh else .noWrite
  | "Swap XY" => .swapRefs
  | "Flip" => .lastFresh
  | "Normalize" => .lastFresh
  | "Offset" =>
    if method = "X" then .slotInPlace 0
    else if method = "Y" then .slotInPlace 1
    else if method = "Z" ∧ arity = 3 then .slotInPlace 2
    else .noWrite
  | "Absolute" => .lastFresh
  | "Multiply" =>
    if method = "X" then .slotInPlace 0
    else if method = "Y" then .slotInPlace 1
    else if method = "Z" ∧ arity = 3 then .slotInPlace 2
    else .noWrite
  | "Slope" => .lastInPlace
  | "Logarithm" =>
    if method = "Mask" ∨ method = "Shift" ∨ method = "Abs" then .lastFresh else .noWrite
  | "Band cut" => .lastFresh
  | "Interp" => .allFresh
  | "Subtract" =>
    if arity = 3 ∧ (method = "Horizontal" ∨ method = "Vertical") then .lastInPlace
    else .noWrite
  | "Divide" =>
    if method = "X" then .slotInPlace 0
    else if method = "Y" then .slotInPlace 1
    else if method = "Z" ∧ arity = 3 then .slotInPlace 2
    else .noWrite
  | _ => .noWrite

/-- Swap the first two references (`data[0], data[1] = data[1], data[0]`). -/
def swapList : List ℕ → List ℕ
  | a :: b :: rest => b :: a :: rest
  | rs => rs

/-- Perform the write-back of a filter's result tuple `dv'` into the store. -/
def runWB (s : Store) (rs : List ℕ) (mode : WB) (dv' : DataV) : Store × List ℕ :=
  match mode with
  | .noWrite => (s, rs)
  | .swapRefs => (s, swapList rs)
  | .slotInPlace i => (writeA s (rs.getD i 0) (arrAt dv' i), rs)
  | .lastInPlace => (writeA s (rs.getD (rs.length - 1) 0) (arrAt dv' (rs.length - 1)), rs)
  | .lastFresh =>
    let (s', r) := allocA s (arrAt dv' (rs.length - 1))
    (s', rs.set (rs.length - 1) r)
  | .allFresh => allocList s (dataArrs dv')

/-- Store-level filter application: read the tuple, apply the (value-level)
filter, and write the result back according to the filter's write-back
mode.  `none` is the filter's exception propagating to the caller. -/
def applyS (s : Store) (rs : List ℕ) (f : FilterSettings) : Option (Store × List ℕ) :=
  (filters.apply (readD s rs) f).map (runWB s rs (wbMode f.name f.method rs.length))

/-! ## The pipeline (class `Data` in `main.py`) -/

/-- Model of `Data.processed_to_raw`:
`self.processed_data = [np.copy(self.raw_data[i]) for i in self.columns]` —
every selected raw array is copied into a fresh allocation.  (The model
takes the selected raw references directly, standing for
`[self.raw_data[i] for i in self.columns]`.) -/
def processed_to_raw (s : Store) (raw : List ℕ) : Store × List ℕ :=
  allocList s (raw.map (readA s))

/-- The filter loop of `Data.apply_all_filters`:
`for _, filter_settings in enumerate(self.filters): if filter_settings['Checked']: self.processed_data = filters.apply(self.processed_data, filter_settings)`.
On an exception (`none`) the store reached so far is returned with no
resulting data list, as the exception propagates out of the loop. -/
def runFiltersS : Store → List ℕ → List FilterSettings → Store × Option (List ℕ)
  | s, rs, [] => (s, some rs)
  | s, rs, f :: fs =>
    if f.checked ≠ 0 then
      match applyS s rs f with
      | none => (s, none)
      | some (s', rs') => runFiltersS s' rs' fs
    else runFiltersS s rs fs

/-- Model of `Data.apply_all_filters` for a data item without metadata
(`self.meta_data` falsy): `processed_to_raw` followed by the filter loop.
The metadata branch (rc-filter correction, unit conversion, four-terminal
processing) is skipped by the source in that case; it only rebinds
processed slots to freshly computed arrays built from `/` and `np.copy`,
never updating an array in place. -/
def apply_all_filters (s : Store) (raw : List ℕ) (fs : List FilterSettings) :
    Store × Option (List ℕ) :=
  let (s1, rs) := processed_to_raw s raw
  runFiltersS s1 rs fs

/-- The value readout of a pipeline run. -/
def run_value (s : Store) (raw : List ℕ) (fs : List FilterSettings) : Option DataV :=
  (apply_all_filters s raw fs).2.map (readD (apply_all_filters s raw fs).1)

/-- Modelled from the spec's words (for the refinement claim about
`apply_all_filters`): a left fold over the filter instances in list order,
starting from a copy of the raw tuple, applying the transform of each
instance whose enabled flag is true and keeping the working tuple unchanged
for disabled instances. -/
def specStep (acc : Option DataV) (f : FilterSettings) : Option DataV :=
  acc.bind (fun d => if f.checked ≠ 0 then filters.apply d f else some d)

def run_spec (dv : DataV) (fs : List FilterSettings) : Option DataV :=
  fs.foldl specStep (some dv)

/-! ## Store lemmas -/

theorem readA_append_left {s t : Store} {r : ℕ} (h : r < s.length) :
    readA (s ++ t) r = readA s r := by
  simp [readA, List.getD_eq_getElem?_getD, List.getElem?_append, h]

theorem readA_append_right {s t : Store} {r : ℕ} (h : s.length ≤ r) :
    readA (s ++ t) r = readA t (r - s.length) := by
  simp [readA, List.getD_eq_getElem?_getD, List.getElem?_append, Nat.not_lt.mpr h]

theorem readA_writeA_self {s : Store} {r : ℕ} {a : Arr} (h : r < s.length) :
    readA (writeA s r a) r = a := by
  simp [readA, writeA, List.getD_eq_getElem?_getD, List.getElem?_set_self h]

theorem readA_writeA_ne {s : Store} {r r' : ℕ} {a : Arr} (h : r' ≠ r) :
    readA (writeA s r' a) r = readA s r := by
  simp [readA, writeA, List.getD_eq_getElem?_getD, List.getElem?_set_ne h]

theorem length_writeA (s : Store) (r : ℕ) (a : Arr) :
    (writeA s r a).length = s.length := by
  simp [writeA]

/-! ## Write-back correctness -/

/-- The value-level effect of `swap_xy`. -/
def swapDV : DataV → DataV
  | .d1 x z => .d1 z x
  | .d2 x y z => .d2 y x z

/-- What a filter's value-level result must satisfy for its write-back mode
to reconstruct it in the store: unwritten slots must be unchanged. -/
def WBok (dv dv' : DataV) : WB → Prop
  | .noWrite => dv' = dv
  | .swapRefs => dv' = swapDV dv
  | .slotInPlace i => dv'.arity = dv.arity ∧ ∀ j, j ≠ i → arrAt dv' j = arrAt dv j
  | .lastInPlace => dv'.arity = dv.arity ∧ ∀ j, j ≠ dv.arity - 1 → arrAt dv' j = arrAt dv j
  | .lastFresh => dv'.arity = dv.arity ∧ ∀ j, j ≠ dv.arity - 1 → arrAt dv' j = arrAt dv j
  | .allFresh => dv'.arity = dv.arity

theorem WBok_d1_last {x z z' : Vec} (m : WB)
    (hm : m = WB.lastFresh ∨ m = WB.lastInPlace) :
    WBok (.d1 x z) (.d1 x z') m := by
  rcases hm with rfl | rfl <;>
    exact ⟨rfl, by
      intro j hj
      match j, hj with
      | 0, _ => rfl
      | (k+2), _ => rfl
      | 1, hj => exact absurd rfl hj⟩

theorem WBok_d2_last {x y z z' : Mat} (m : WB)
    (hm : m = WB.lastFresh ∨ m = WB.lastInPlace) :
    WBok (.d2 x y z) (.d2 x y z') m := by
  rcases hm with rfl | rfl <;>
    exact ⟨rfl, by
      intro j hj
      match j, hj with
      | 0, _ => rfl
      | 1, _ => rfl
      | (k+3), _ => rfl
      | 2, hj => exact absurd rfl hj⟩

theorem WBok_d1_slot0 {x x' z : Vec} : WBok (.d1 x z) (.d1 x' z) (.slotInPlace 0) := by
  refine ⟨rfl, ?_⟩
  intro j hj
  match j, hj with
  | 1, _ => rfl
  | (k+2), _ => rfl
  | 0, hj => exact absurd rfl hj

theorem WBok_d1_slot1 {x z z' : Vec} : WBok (.d1 x z) (.d1 x z') (.slotInPlace 1) := by
  refine ⟨rfl, ?_⟩
  intro j hj
  match j, hj with
  | 0, _ => rfl
  | (k+2), _ => rfl
  | 1, hj => exact absurd rfl hj

theorem WBok_d2_slot0 {x x' y z : Mat} : WBok (.d2 x y z) (.d2 x' y z) (.slotInPlace 0) := by
  refine ⟨rfl, ?_⟩
  intro j hj
  match j, hj with
  | 1, _ => rfl
  | 2, _ => rfl
  | (k+3), _ => rfl
  | 0, hj => exact absurd rfl hj

theorem WBok_d2_slot1 {x y y' z : Mat} : WBok (.d2 x y z) (.d2 x y' z) (.slotInPlace 1) := by
  refine ⟨rfl, ?_⟩
  intro j hj
  match j, hj with
  | 0, _ => rfl
  | 2, _ => rfl
  | (k+3), _ => rfl
  | 1, hj => exact absurd rfl hj

theorem WBok_d2_slot2 {x y z z' : Mat} : WBok (.d2 x y z) (.d2 x y z') (.slotInPlace 2) := by
  refine ⟨rfl, ?_⟩
  intro j hj
  match j, hj with
  | 0, _ => rfl
  | 1, _ => rfl
  | (k+3), _ => rfl
  | 2, hj => exact absurd rfl hj


/-- Validity, distinctness and frame bookkeeping of a write-back, bundled. -/
structure WBpost (s : Store) (rs : List ℕ) (dv' : DataV) (out : Store × List ℕ) : Prop where
  read_eq : readD out.1 out.2 = dv'
  len_eq : out.2.length = rs.length
  valid : ∀ r ∈ out.2, r < out.1.length
  nodup : out.2.Nodup
  grow : s.length ≤ out.1.length
  frame : ∀ r, r < s.length → r ∉ rs → readA out.1 r = readA s r
  sub : ∀ r ∈ out.2, r ∈ rs ∨ s.length ≤ r

/-- Store reconstruction after a write-back, 2-reference case: assuming the
value result respects the write-back mode, reading the written store back
yields exactly the value result; references stay valid and distinct, and
the rest of the store is untouched. -/
theorem runWB_spec_two (s : Store) (a b : ℕ) (mode : WB) (dv' : DataV)
    (ha : a < s.length) (hb : b < s.length) (hab : a ≠ b)
    (hslot : ∀ i, mode = WB.slotInPlace i → i < 2)
    (hok : WBok (readD s [a, b]) dv' mode) :
    WBpost s [a, b] dv' (runWB s [a, b] mode dv') := by
  have memab : ∀ r : ℕ, r ∈ [a, b] → r = a ∨ r = b := by intro r h; simpa using h
  cases mode with
  | noWrite =>
    obtain rfl : dv' = readD s [a, b] := hok
    refine ⟨rfl, rfl, ?_, ?_, Nat.le_refl _, fun r _ _ => rfl, fun r hr => Or.inl hr⟩
    · intro r hr
      rcases memab r hr with rfl | rfl <;> assumption
    · show List.Nodup [a, b]
      simp [hab]
  | swapRefs =>
    obtain rfl : dv' = swapDV (readD s [a, b]) := hok
    refine ⟨rfl, rfl, ?_, ?_, Nat.le_refl _, fun r _ _ => rfl, ?_⟩
    · intro r hr
      rcases (by simpa using (show r ∈ [b, a] from hr) : r = b ∨ r = a) with rfl | rfl <;>
        assumption
    · show List.Nodup [b, a]
      simp [Ne.symm hab]
    · intro r hr
      rcases (by simpa using (show r ∈ [b, a] from hr) : r = b ∨ r = a) with rfl | rfl <;> simp
  | slotInPlace i =>
    have hi : i < 2 := hslot i rfl
    obtain ⟨har, hagree⟩ := hok
    cases dv' with
    | d2 X Y Z => simp [DataV.arity, readD] at har
    | d1 X Z =>
      interval_cases i
      · have hz : Arr.v Z = Arr.v (readA s b).toV := hagree 1 (by decide)
        have hz' : Z = (readA s b).toV := by injection hz
        refine ⟨?_, rfl, ?_, ?_, ?_, ?_, fun r hr => Or.inl hr⟩
        · show DataV.d1 (readA (writeA s a (Arr.v X)) a).toV
              (readA (writeA s a (Arr.v X)) b).toV = DataV.d1 X Z
          rw [readA_writeA_self ha, readA_writeA_ne hab, hz']
          rfl
        · intro r hr
          show r < (writeA s a (Arr.v X)).length
          rw [length_writeA]
          rcases memab r hr with rfl | rfl <;> assumption
        · show List.Nodup [a, b]
          simp [hab]
        · show s.length ≤ (writeA s a (Arr.v X)).length
          rw [length_writeA]
        · intro r hr hnr
          have hne : a ≠ r := by
            intro h
            exact hnr (by rw [← h]; exact List.mem_cons_self _ _)
          exact readA_writeA_ne hne
      · have hx : Arr.v X = Arr.v (readA s a).toV := hagree 0 (by decide)
        have hx' : X = (readA s a).toV := by injection hx
        refine ⟨?_, rfl, ?_, ?_, ?_, ?_, fun r hr => Or.inl hr⟩
        · show DataV.d1 (readA (writeA s b (Arr.v Z)) a).toV
              (readA (writeA s b (Arr.v Z)) b).toV = DataV.d1 X Z
          rw [readA_writeA_self hb, readA_writeA_ne (Ne.symm hab), hx']
          rfl
        · intro r hr
          show r < (writeA s b (Arr.v Z)).length
          rw [length_writeA]
          rcases memab r hr with rfl | rfl <;> assumption
        · show List.Nodup [a, b]
          simp [hab]
        · show s.length ≤ (writeA s b (Arr.v Z)).length
          rw [length_writeA]
        · intro r hr hnr
          have hne : b ≠ r := by
            intro h
            exact hnr (by rw [← h]; simp)
          exact readA_writeA_ne hne
  | lastInPlace =>
    obtain ⟨har, hagree⟩ := hok
    cases dv' with
    | d2 X Y Z => simp [DataV.arity, readD] at har
    | d1 X Z =>
      have hx : Arr.v X = Arr.v (readA s a).toV := hagree 0 (show (0 : ℕ) ≠ 1 by decide)
      have hx' : X = (readA s a).toV := by injection hx
      refine ⟨?_, rfl, ?_, ?_, ?_, ?_, fun r hr => Or.inl hr⟩
      · show DataV.d1 (readA (writeA s b (Arr.v Z)) a).toV
            (readA (writeA s b (Arr.v Z)) b).toV = DataV.d1 X Z
        rw [readA_writeA_self hb, readA_writeA_ne (Ne.symm hab), hx']
        rfl
      · intro r hr
        show r < (writeA s b (Arr.v Z)).length
        rw [length_writeA]
        rcases memab r hr with rfl | rfl <;> assumption
      · show List.Nodup [a, b]
        simp [hab]
      · show s.length ≤ (writeA s b (Arr.v Z)).length
        rw [length_writeA]
      · intro r hr hnr
        have hne : b ≠ r := by
          intro h
          exact hnr (by rw [← h]; simp)
        exact readA_writeA_ne hne
  | lastFresh =>
    obtain ⟨har, hagree⟩ := hok
    cases dv' with
    | d2 X Y Z => simp [DataV.arity, readD] at har
    | d1 X Z =>
      have hx : Arr.v X = Arr.v (readA s a).toV := hagree 0 (show (0 : ℕ) ≠ 1 by decide)
      have hx' : X = (readA s a).toV := by injection hx
      have hsub : s.length - s.length = 0 := Nat.sub_self _
      refine ⟨?_, rfl, ?_, ?_, ?_, ?_, ?_⟩
      · show DataV.d1 (readA (s ++ [Arr.v Z]) a).toV
            (readA (s ++ [Arr.v Z]) s.length).toV = DataV.d1 X Z
        rw [readA_append_left ha, readA_append_right (Nat.le_refl _), hsub, hx']
        rfl
      · intro r hr
        show r < (s ++ [Arr.v Z]).length
        have hlen : (s ++ [Arr.v Z]).length = s.length + 1 := by simp
        rw [hlen]
        rcases (by simpa using (show r ∈ [a, s.length] from hr) : r = a ∨ r = s.length)
          with rfl | rfl <;> omega
      · show List.Nodup [a, s.length]
        simp [Nat.ne_of_lt ha]
      · show s.length ≤ (s ++ [Arr.v Z]).length
        simp
      · intro r hr _
        exact readA_append_left hr
      · intro r hr
        rcases (by simpa using (show r ∈ [a, s.length] from hr) : r = a ∨ r = s.length)
          with rfl | rfl
        · exact Or.inl (by simp)
        · exact Or.inr (Nat.le_refl _)
  | allFresh =>
    cases dv' with
    | d2 X Y Z => simp [WBok, DataV.arity, readD] at hok
    | d1 X Z =>
      have h2 : s.length + 1 - s.length = 1 := by omega
      refine ⟨?_, rfl, ?_, ?_, ?_, ?_, ?_⟩
      · show DataV.d1 (readA (s ++ [Arr.v X, Arr.v Z]) (s.length + 0)).toV
            (readA (s ++ [Arr.v X, Arr.v Z]) (s.length + 1)).toV = DataV.d1 X Z
        rw [readA_append_right (Nat.le_add_right _ _), readA_append_right (Nat.le_add_right _ _)]
        rw [Nat.add_sub_cancel_left, Nat.add_sub_cancel_left]
        rfl
      · intro r hr
        show r < (s ++ [Arr.v X, Arr.v Z]).length
        have hlen : (s ++ [Arr.v X, Arr.v Z]).length = s.length + 2 := by simp
        rw [hlen]
        rcases (by simpa using (show r ∈ [s.length + 0, s.length + 1] from hr) :
          r = s.length + 0 ∨ r = s.length + 1) with rfl | rfl <;> omega
      · show List.Nodup [s.length + 0, s.length + 1]
        simp
      · show s.length ≤ (s ++ [Arr.v X, Arr.v Z]).length
        simp
      · intro r hr _
        exact readA_append_left hr
      · intro r hr
        rcases (by simpa using (show r ∈ [s.length + 0, s.length + 1] from hr) :
          r = s.length + 0 ∨ r = s.length + 1) with rfl | rfl
        · exact Or.inr (by omega)
        · exact Or.inr (by omega)

/-- Store reconstruction after a write-back, 3-reference case. -/
theorem runWB_spec_three (s : Store) (a b c : ℕ) (mode : WB) (dv' : DataV)
    (ha : a < s.length) (hb : b < s.length) (hc : c < s.length)
    (hab : a ≠ b) (hac : a ≠ c) (hbc : b ≠ c)
    (hslot : ∀ i, mode = WB.slotInPlace i → i < 3)
    (hok : WBok (readD s [a, b, c]) dv' mode) :
    WBpost s [a, b, c] dv' (runWB s [a, b, c] mode dv') := by
  have memabc : ∀ r : ℕ, r ∈ [a, b, c] → r = a ∨ r = b ∨ r = c := by intro r h; simpa using h
  cases mode with
  | noWrite =>
    obtain rfl : dv' = readD s [a, b, c] := hok
    refine ⟨rfl, rfl, ?_, ?_, Nat.le_refl _, fun r _ _ => rfl, fun r hr => Or.inl hr⟩
    · intro r hr
      rcases memabc r hr with rfl | rfl | rfl <;> assumption
    · show List.Nodup [a, b, c]
      simp [hab, hac, hbc]
  | swapRefs =>
    obtain rfl : dv' = swapDV (readD s [a, b, c]) := hok
    refine ⟨rfl, rfl, ?_, ?_, Nat.le_refl _, fun r _ _ => rfl, ?_⟩
    · intro r hr
      rcases (by simpa using (show r ∈ [b, a, c] from hr) : r = b ∨ r = a ∨ r = c)
        with rfl | rfl | rfl <;> assumption
    · show List.Nodup [b, a, c]
      simp [Ne.symm hab, hac, hbc]
    · intro r hr
      rcases (by simpa using (show r ∈ [b, a, c] from hr) : r = b ∨ r = a ∨ r = c)
        with rfl | rfl | rfl <;> simp
  | slotInPlace i =>
    obtain ⟨har, hagree⟩ := hok
    cases dv' with
    | d1 X Z => simp [DataV.arity, readD] at har
    | d2 X Y Z =>
      have hi : i < 3 := hslot i rfl
      interval_cases i
      · have h1 : Arr.m Y = Arr.m (readA s b).toM := hagree 1 (by decide)
        have h2 : Arr.m Z = Arr.m (readA s c).toM := hagree 2 (by decide)
        have h1' : Y = (readA s b).toM := by injection h1
        have h2' : Z = (readA s c).toM := by injection h2
        refine ⟨?_, rfl, ?_, ?_, ?_, ?_, fun r hr => Or.inl hr⟩
        · show DataV.d2 (readA (writeA s a (Arr.m X)) a).toM
              (readA (writeA s a (Arr.m X)) b).toM
              (readA (writeA s a (Arr.m X)) c).toM = DataV.d2 X Y Z
          rw [readA_writeA_self ha, readA_writeA_ne hab, readA_writeA_ne hac, h1', h2']
          rfl
        · intro r hr
          show r < (writeA s a (Arr.m X)).length
          rw [length_writeA]
          rcases memabc r hr with rfl | rfl | rfl <;> assumption
        · show List.Nodup [a, b, c]
          simp [hab, hac, hbc]
        · show s.length ≤ (writeA s a (Arr.m X)).length
          rw [length_writeA]
        · intro r hr hnr
          have hne : a ≠ r := by
            intro h
            exact hnr (by rw [← h]; simp)
          exact readA_writeA_ne hne
      · have h0 : Arr.m X = Arr.m (readA s a).toM := hagree 0 (by decide)
        have h2 : Arr.m Z = Arr.m (readA s c).toM := hagree 2 (by decide)
        have h0' : X = (readA s a).toM := by injection h0
        have h2' : Z = (readA s c).toM := by injection h2
        refine ⟨?_, rfl, ?_, ?_, ?_, ?_, fun r hr => Or.inl hr⟩
        · show DataV.d2 (readA (writeA s b (Arr.m Y)) a).toM
              (readA (writeA s b (Arr.m Y)) b).toM
              (readA (writeA s b (Arr.m Y)) c).toM = DataV.d2 X Y Z
          rw [readA_writeA_self hb, readA_writeA_ne (Ne.symm hab), readA_writeA_ne hbc,
            h0', h2']
          rfl
        · intro r hr
          show r < (writeA s b (Arr.m Y)).length
          rw [length_writeA]
          rcases memabc r hr with rfl | rfl | rfl <;> assumption
        · show List.Nodup [a, b, c]
          simp [hab, hac, hbc]
        · show s.length ≤ (writeA s b (Arr.m Y)).length
          rw [length_writeA]
        · intro r hr hnr
          have hne : b ≠ r := by
            intro h
            exact hnr (by rw [← h]; simp)
          exact readA_writeA_ne hne
      · have h0 : Arr.m X = Arr.m (readA s a).toM := hagree 0 (by decide)
        have h1 : Arr.m Y = Arr.m (readA s b).toM := hagree 1 (by decide)
        have h0' : X = (readA s a).toM := by injection h0
        have h1' : Y = (readA s b).toM := by injection h1
        refine ⟨?_, rfl, ?_, ?_, ?_, ?_, fun r hr => Or.inl hr⟩
        · show DataV.d2 (readA (writeA s c (Arr.m Z)) a).toM
              (readA (writeA s c (Arr.m Z)) b).toM
              (readA (writeA s c (Arr.m Z)) c).toM = DataV.d2 X Y Z
          rw [readA_writeA_self hc, readA_writeA_ne (Ne.symm hac),
            readA_writeA_ne (Ne.symm hbc), h0', h1']
          rfl
        · intro r hr
          show r < (writeA s c (Arr.m Z)).length
          rw [length_writeA]
          rcases memabc r hr with rfl | rfl | rfl <;> assumption
        · show List.Nodup [a, b, c]
          simp [hab, hac, hbc]
        · show s.length ≤ (writeA s c (Arr.m Z)).length
          rw [length_writeA]
        · intro r hr hnr
          have hne : c ≠ r := by
            intro h
            exact hnr (by rw [← h]; simp)
          exact readA_writeA_ne hne
  | lastInPlace =>
    obtain ⟨har, hagree⟩ := hok
    cases dv' with
    | d1 X Z => simp [DataV.arity, readD] at har
    | d2 X Y Z =>
      have h0 : Arr.m X = Arr.m (readA s a).toM := hagree 0 (show (0 : ℕ) ≠ 2 by decide)
      have h1 : Arr.m Y = Arr.m (readA s b).toM := hagree 1 (show (1 : ℕ) ≠ 2 by decide)
      have h0' : X = (readA s a).toM := by injection h0
      have h1' : Y = (readA s b).toM := by injection h1
      refine ⟨?_, rfl, ?_, ?_, ?_, ?_, fun r hr => Or.inl hr⟩
      · show DataV.d2 (readA (writeA s c (Arr.m Z)) a).toM
            (readA (writeA s c (Arr.m Z)) b).toM
            (readA (writeA s c (Arr.m Z)) c).toM = DataV.d2 X Y Z
        rw [readA_writeA_self hc, readA_writeA_ne (Ne.symm hac),
          readA_writeA_ne (Ne.symm hbc), h0', h1']
        rfl
      · intro r hr
        show r < (writeA s c (Arr.m Z)).length
        rw [length_writeA]
        rcases memabc r hr with rfl | rfl | rfl <;> assumption
      · show List.Nodup [a, b, c]
        simp [hab, hac, hbc]
      · show s.length ≤ (writeA s c (Arr.m Z)).length
        rw [length_writeA]
      · intro r hr hnr
        have hne : c ≠ r := by
          intro h
          exact hnr (by rw [← h]; simp)
        exact readA_writeA_ne hne
  | lastFresh =>
    obtain ⟨har, hagree⟩ := hok
    cases dv' with
    | d1 X Z => simp [DataV.arity, readD] at har
    | d2 X Y Z =>
      have h0 : Arr.m X = Arr.m (readA s a).toM := hagree 0 (show (0 : ℕ) ≠ 2 by decide)
      have h1 : Arr.m Y = Arr.m (readA s b).toM := hagree 1 (show (1 : ℕ) ≠ 2 by decide)
      have h0' : X = (readA s a).toM := by injection h0
      have h1' : Y = (readA s b).toM := by injection h1
      have hsub : s.length - s.length = 0 := Nat.sub_self _
      refine ⟨?_, rfl, ?_, ?_, ?_, ?_, ?_⟩
      · show DataV.d2 (readA (s ++ [Arr.m Z]) a).toM (readA (s ++ [Arr.m Z]) b).toM
            (readA (s ++ [Arr.m Z]) s.length).toM = DataV.d2 X Y Z
        rw [readA_append_left ha, readA_append_left hb,
          readA_append_right (Nat.le_refl _), hsub, h0', h1']
        rfl
      · intro r hr
        show r < (s ++ [Arr.m Z]).length
        have hlen : (s ++ [Arr.m Z]).length = s.length + 1 := by simp
        rw [hlen]
        rcases (by simpa using (show r ∈ [a, b, s.length] from hr) :
          r = a ∨ r = b ∨ r = s.length) with rfl | rfl | rfl <;> omega
      · show List.Nodup [a, b, s.length]
        simp [hab, Nat.ne_of_lt ha, Nat.ne_of_lt hb]
      · show s.length ≤ (s ++ [Arr.m Z]).length
        simp
      · intro r hr _
        exact readA_append_left hr
      · intro r hr
        rcases (by simpa using (show r ∈ [a, b, s.length] from hr) :
          r = a ∨ r = b ∨ r = s.length) with rfl | rfl | rfl
        · exact Or.inl (by simp)
        · exact Or.inl (by simp)
        · exact Or.inr (Nat.le_refl _)
  | allFresh =>
    cases dv' with
    | d1 X Z => simp [WBok, DataV.arity, readD] at hok
    | d2 X Y Z =>
      refine ⟨?_, rfl, ?_, ?_, ?_, ?_, ?_⟩
      · show DataV.d2 (readA (s ++ [Arr.m X, Arr.m Y, Arr.m Z]) (s.length + 0)).toM
            (readA (s ++ [Arr.m X, Arr.m Y, Arr.m Z]) (s.length + 1)).toM
            (readA (s ++ [Arr.m X, Arr.m Y, Arr.m Z]) (s.length + 2)).toM = DataV.d2 X Y Z
        rw [readA_append_right (Nat.le_add_right _ _), readA_append_right (Nat.le_add_right _ _),
          readA_append_right (Nat.le_add_right _ _)]
        rw [Nat.add_sub_cancel_left, Nat.add_sub_cancel_left, Nat.add_sub_cancel_left]
        rfl
      · intro r hr
        show r < (s ++ [Arr.m X, Arr.m Y, Arr.m Z]).length
        have hlen : (s ++ [Arr.m X, Arr.m Y, Arr.m Z]).length = s.length + 3 := by simp
        rw [hlen]
        rcases (by simpa using (show r ∈ [s.length + 0, s.length + 1, s.length + 2] from hr) :
          r = s.length + 0 ∨ r = s.length + 1 ∨ r = s.length + 2) with rfl | rfl | rfl <;> omega
      · show List.Nodup [s.length + 0, s.length + 1, s.length + 2]
        simp
      · show s.length ≤ (s ++ [Arr.m X, Arr.m Y, Arr.m Z]).length
        simp
      · intro r hr _
        exact readA_append_left hr
      · intro r hr
        rcases (by simpa using (show r ∈ [s.length + 0, s.length + 1, s.length + 2] from hr) :
          r = s.length + 0 ∨ r = s.length + 1 ∨ r = s.length + 2) with rfl | rfl | rfl <;>
          exact Or.inr (by omega)

/-! ## Per-filter write-back facts -/

theorem derivative_wb (dv : DataV) (m s1 s2 : String) (dv' : DataV)
    (h : filters.derivative dv m s1 s2 = some dv') :
    WBok dv dv' (wbMode "Derivative" m dv.arity) := by
  cases dv with
  | d1 x z =>
    show WBok _ _ WB.lastFresh
    simp only [filters.derivative, bind, Option.bind_eq_some, Option.map_eq_some'] at h
    obtain ⟨tx, _, ty, _, z', _, rfl⟩ := h
    exact WBok_d1_last _ (Or.inl rfl)
  | d2 x y z =>
    show WBok _ _ WB.lastFresh
    simp only [filters.derivative, bind, Option.bind_eq_some, Option.map_eq_some'] at h
    obtain ⟨tx, _, ty, _, z', _, rfl⟩ := h
    exact WBok_d2_last _ (Or.inl rfl)

theorem smooth_wb (dv : DataV) (m s1 s2 : String) (dv' : DataV)
    (h : filters.smooth dv m s1 s2 = some dv') :
    WBok dv dv' (wbMode "Smoothen" m dv.arity) := by
  show WBok _ _ WB.lastFresh
  cases dv with
  | d1 x z =>
    have hz : ∃ z', dv' = DataV.d1 x z' := by
      unfold filters.smooth at h
      split at h <;>
        try simp only [bind, Option.bind_eq_some] at h
      case _ =>
        obtain ⟨wx, _, wy, _, h⟩ := h
        split at h <;>
          first
            | (simp_all; done)
            | exact ⟨_, (Option.some.inj h).symm⟩
            | (split at h <;>
                first
                  | (simp_all; done)
                  | exact ⟨_, (Option.some.inj h).symm⟩
                  | (split at h <;>
                      first
                        | (simp_all; done)
                        | exact ⟨_, (Option.some.inj h).symm⟩
                        | (split at h <;>
                            first
                              | (simp_all; done)
                              | exact ⟨_, (Option.some.inj h).symm⟩
                              | (simp at h; done)
                          )
                        | (simp at h; done)
                    )
                  | (simp at h; done)
              )
            | (simp at h; done)
      case _ =>
        obtain ⟨wx, _, wy, _, h⟩ := h
        split at h <;>
          first
            | (simp_all; done)
            | exact ⟨_, (Option.some.inj h).symm⟩
            | (split at h <;>
                first
                  | (simp_all; done)
                  | exact ⟨_, (Option.some.inj h).symm⟩
                  | (split at h <;>
                      first
                        | (simp_all; done)
                        | exact ⟨_, (Option.some.inj h).symm⟩
                        | (split at h <;>
                            first
                              | (simp_all; done)
                              | exact ⟨_, (Option.some.inj h).symm⟩
                              | (simp at h; done)
                          )
                        | (simp at h; done)
                    )
                  | (simp at h; done)
              )
            | (simp at h; done)
      case _ =>
        split at h <;>
          first
            | (simp_all; done)
            | exact ⟨_, (Option.some.inj h).symm⟩
            | (split at h <;>
                first
                  | (simp_all; done)
                  | exact ⟨_, (Option.some.inj h).symm⟩
                  | (split at h <;>
                      first
                        | (simp_all; done)
                        | exact ⟨_, (Option.some.inj h).symm⟩
                        | (split at h <;>
                            first
                              | (simp_all; done)
                              | exact ⟨_, (Option.some.inj h).symm⟩
                              | (simp at h; done)
                          )
                        | (simp at h; done)
                    )
                  | (simp at h; done)
              )
            | (simp at h; done)
    obtain ⟨z', rfl⟩ := hz
    exact WBok_d1_last _ (Or.inl rfl)
  | d2 x y z =>
    have hz : ∃ z', dv' = DataV.d2 x y z' := by
      unfold filters.smooth at h
      split at h <;>
        try simp only [bind, Option.bind_eq_some] at h
      case _ =>
        obtain ⟨wx, _, wy, _, h⟩ := h
        split at h <;>
          first
            | (simp_all; done)
            | exact ⟨_, (Option.some.inj h).symm⟩
            | (split at h <;>
                first
                  | (simp_all; done)
                  | exact ⟨_, (Option.some.inj h).symm⟩
                  | (split at h <;>
                      first
                        | (simp_all; done)
                        | exact ⟨_, (Option.some.inj h).symm⟩
                        | (split at h <;>
                            first
                              | (simp_all; done)
                              | exact ⟨_, (Option.some.inj h).symm⟩
                              | (simp at h; done)
                          )
                        | (simp at h; done)
                    )
                  | (simp at h; done)
              )
            | (simp at h; done)
      case _ =>
        obtain ⟨wx, _, wy, _, h⟩ := h
        split at h <;>
          first
            | (simp_all; done)
            | exact ⟨_, (Option.some.inj h).symm⟩
            | (split at h <;>
                first
                  | (simp_all; done)
                  | exact ⟨_, (Option.some.inj h).symm⟩
                  | (split at h <;>
                      first
                        | (simp_all; done)
                        | exact ⟨_, (Option.some.inj h).symm⟩
                        | (split at h <;>
                            first
                              | (simp_all; done)
                              | exact ⟨_, (Option.some.inj h).symm⟩
                              | (simp at h; done)
                          )
                        | (simp at h; done)
                    )
                  | (simp at h; done)
              )
            | (simp at h; done)
      case _ =>
        split at h <;>
          first
            | (simp_all; done)
            | exact ⟨_, (Option.some.inj h).symm⟩
            | (split at h <;>
                first
                  | (simp_all; done)
                  | exact ⟨_, (Option.some.inj h).symm⟩
                  | (split at h <;>
                      first
                        | (simp_all; done)
                        | exact ⟨_, (Option.some.inj h).symm⟩
                        | (split at h <;>
                            first
                              | (simp_all; done)
                              | exact ⟨_, (Option.some.inj h).symm⟩
                              | (simp at h; done)
                          )
                        | (simp at h; done)
                    )
                  | (simp at h; done)
              )
            | (simp at h; done)
    obtain ⟨z', rfl⟩ := hz
    exact WBok_d2_last _ (Or.inl rfl)

set_option maxHeartbeats 2000000 in
theorem sav_gol_wb (dv : DataV) (m s1 s2 : String) (dv' : DataV)
    (h : filters.sav_gol dv m s1 s2 = some dv') :
    WBok dv dv' (wbMode "Sav-Gol" m dv.arity) := by
  show WBok _ _ WB.lastFresh
  cases dv with
  | d1 x z =>
    have hz : ∃ z', dv' = DataV.d1 x z' := by
      unfold filters.sav_gol at h
      repeat' first
        | exact (Option.some.inj h).symm
        | exact h.symm
        | exact ⟨_, (Option.some.inj h).symm⟩
        | exact ⟨_, h.symm⟩
        | exact ⟨_, _, (Option.some.inj h).symm⟩
        | exact ⟨_, _, h.symm⟩
        | exact ⟨_, _, _, (Option.some.inj h).symm⟩
        | exact ⟨_, _, _, h.symm⟩
        | obtain ⟨w, hw, h⟩ := h
        | simp only [bind, pure, Option.bind_eq_some, Option.map_eq_some'] at h
        | split at h
        | (simp at h; done)
        | (simp_all; done)
    obtain ⟨z', rfl⟩ := hz
    exact WBok_d1_last _ (Or.inl rfl)
  | d2 x y z =>
    have hz : ∃ z', dv' = DataV.d2 x y z' := by
      unfold filters.sav_gol at h
      repeat' first
        | exact (Option.some.inj h).symm
        | exact h.symm
        | exact ⟨_, (Option.some.inj h).symm⟩
        | exact ⟨_, h.symm⟩
        | exact ⟨_, _, (Option.some.inj h).symm⟩
        | exact ⟨_, _, h.symm⟩
        | exact ⟨_, _, _, (Option.some.inj h).symm⟩
        | exact ⟨_, _, _, h.symm⟩
        | obtain ⟨w, hw, h⟩ := h
        | simp only [bind, pure, Option.bind_eq_some, Option.map_eq_some'] at h
        | split at h
        | (simp at h; done)
        | (simp_all; done)
    obtain ⟨z', rfl⟩ := hz
    exact WBok_d2_last _ (Or.inl rfl)

theorem crop_x_wb (dv : DataV) (m s1 s2 : String) (dv' : DataV)
    (h : filters.crop_x dv m s1 s2 = some dv') :
    WBok dv dv' (wbMode "Crop X" m dv.arity) := by
  show WBok _ _ WB.allFresh
  cases dv with
  | d1 x z =>
    have hz : ∃ X Z, dv' = DataV.d1 X Z := by
      unfold filters.crop_x at h
      repeat' first
        | exact (Option.some.inj h).symm
        | exact h.symm
        | exact ⟨_, (Option.some.inj h).symm⟩
        | exact ⟨_, h.symm⟩
        | exact ⟨_, _, (Option.some.inj h).symm⟩
        | exact ⟨_, _, h.symm⟩
        | exact ⟨_, _, _, (Option.some.inj h).symm⟩
        | exact ⟨_, _, _, h.symm⟩
        | obtain ⟨w, hw, h⟩ := h
        | simp only [bind, pure, Option.bind_eq_some, Option.map_eq_some'] at h
        | split at h
        | (simp at h; done)
        | (simp_all; done)
    obtain ⟨X, Z, rfl⟩ := hz
    exact rfl
  | d2 x y z =>
    have hz : ∃ X Y Z, dv' = DataV.d2 X Y Z := by
      unfold filters.crop_x at h
      repeat' first
        | exact (Option.some.inj h).symm
        | exact h.symm
        | exact ⟨_, (Option.some.inj h).symm⟩
        | exact ⟨_, h.symm⟩
        | exact ⟨_, _, (Option.some.inj h).symm⟩
        | exact ⟨_, _, h.symm⟩
        | exact ⟨_, _, _, (Option.some.inj h).symm⟩
        | exact ⟨_, _, _, h.symm⟩
        | obtain ⟨w, hw, h⟩ := h
        | simp only [bind, pure, Option.bind_eq_some, Option.map_eq_some'] at h
        | split at h
        | (simp at h; done)
        | (simp_all; done)
    obtain ⟨X, Y, Z, rfl⟩ := hz
    exact rfl

theorem crop_y_wb (dv : DataV) (m s1 s2 : String) (dv' : DataV)
    (h : filters.crop_y dv m s1 s2 = some dv') :
    WBok dv dv' (wbMode "Crop Y" m dv.arity) := by
  cases dv with
  | d1 x z =>
    show WBok _ _ WB.noWrite
    have hz : dv' = DataV.d1 x z := by
      unfold filters.crop_y at h
      repeat' first
        | exact (Option.some.inj h).symm
        | exact h.symm
        | exact ⟨_, (Option.some.inj h).symm⟩
        | exact ⟨_, h.symm⟩
        | exact ⟨_, _, (Option.some.inj h).symm⟩
        | exact ⟨_, _, h.symm⟩
        | exact ⟨_, _, _, (Option.some.inj h).symm⟩
        | exact ⟨_, _, _, h.symm⟩
        | obtain ⟨w, hw, h⟩ := h
        | simp only [bind, pure, Option.bind_eq_some, Option.map_eq_some'] at h
        | split at h
        | (simp at h; done)
        | (simp_all; done)
    exact hz
  | d2 x y z =>
    show WBok _ _ WB.allFresh
    have hz : ∃ X Y Z, dv' = DataV.d2 X Y Z := by
      unfold filters.crop_y at h
      repeat' first
        | exact (Option.some.inj h).symm
        | exact h.symm
        | exact ⟨_, (Option.some.inj h).symm⟩
        | exact ⟨_, h.symm⟩
        | exact ⟨_, _, (Option.some.inj h).symm⟩
        | exact ⟨_, _, h.symm⟩
        | exact ⟨_, _, _, (Option.some.inj h).symm⟩
        | exact ⟨_, _, _, h.symm⟩
        | obtain ⟨w, hw, h⟩ := h
        | simp only [bind, pure, Option.bind_eq_some, Option.map_eq_some'] at h
        | split at h
        | (simp at h; done)
        | (simp_all; done)
    obtain ⟨X, Y, Z, rfl⟩ := hz
    exact rfl

theorem roll_x_wb (dv : DataV) (m s1 s2 : String) (dv' : DataV)
    (h : filters.roll_x dv m s1 s2 = some dv') :
    WBok dv dv' (wbMode "Roll X" m dv.arity) := by
  cases dv with
  | d1 x z =>
    show WBok _ _ WB.noWrite
    have hz : dv' = DataV.d1 x z := by
      unfold filters.roll_x at h
      repeat' first
        | exact (Option.some.inj h).symm
        | exact h.symm
        | exact ⟨_, (Option.some.inj h).symm⟩
        | exact ⟨_, h.symm⟩
        | exact ⟨_, _, (Option.some.inj h).symm⟩
        | exact ⟨_, _, h.symm⟩
        | exact ⟨_, _, _, (Option.some.inj h).symm⟩
        | exact ⟨_, _, _, h.symm⟩
        | obtain ⟨w, hw, h⟩ := h
        | simp only [bind, pure, Option.bind_eq_some, Option.map_eq_some'] at h
        | split at h
        | (simp at h; done)
        | (simp_all; done)
    exact hz
  | d2 x y z =>
    show WBok _ _ WB.lastInPlace
    have hz : ∃ z', dv' = DataV.d2 x y z' := by
      unfold filters.roll_x at h
      repeat' first
        | exact (Option.some.inj h).symm
        | exact h.symm
        | exact ⟨_, (Option.some.inj h).symm⟩
        | exact ⟨_, h.symm⟩
        | exact ⟨_, _, (Option.some.inj h).symm⟩
        | exact ⟨_, _, h.symm⟩
        | exact ⟨_, _, _, (Option.some.inj h).symm⟩
        | exact ⟨_, _, _, h.symm⟩
        | obtain ⟨w, hw, h⟩ := h
        | simp only [bind, pure, Option.bind_eq_some, Option.map_eq_some'] at h
        | split at h
        | (simp at h; done)
        | (simp_all; done)
    obtain ⟨z', rfl⟩ := hz
    exact WBok_d2_last _ (Or.inr rfl)

theorem roll_y_wb (dv : DataV) (m s1 s2 : String) (dv' : DataV)
    (h : filters.roll_y dv m s1 s2 = some dv') :
    WBok dv dv' (wbMode "Roll Y" m dv.arity) := by
  cases dv with
  | d1 x z =>
    show WBok _ _ WB.noWrite
    have hz : dv' = DataV.d1 x z := by
      unfold filters.roll_y at h
      repeat' first
        | exact (Option.some.inj h).symm
        | exact h.symm
        | exact ⟨_, (Option.some.inj h).symm⟩
        | exact ⟨_, h.symm⟩
        | exact ⟨_, _, (Option.some.inj h).symm⟩
        | exact ⟨_, _, h.symm⟩
        | exact ⟨_, _, _, (Option.some.inj h).symm⟩
        | exact ⟨_, _, _, h.symm⟩
        | obtain ⟨w, hw, h⟩ := h
        | simp only [bind, pure, Option.bind_eq_some, Option.map_eq_some'] at h
        | split at h
        | (simp at h; done)
        | (simp_all; done)
    exact hz
  | d2 x y z =>
    show WBok _ _ WB.lastInPlace
    have hz : ∃ z', dv' = DataV.d2 x y z' := by
      unfold filters.roll_y at h
      repeat' first
        | exact (Option.some.inj h).symm
        | exact h.symm
        | exact ⟨_, (Option.some.inj h).symm⟩
        | exact ⟨_, h.symm⟩
        | exact ⟨_, _, (Option.some.inj h).symm⟩
        | exact ⟨_, _, h.symm⟩
        | exact ⟨_, _, _, (Option.some.inj h).symm⟩
        | exact ⟨_, _, _, h.symm⟩
        | obtain ⟨w, hw, h⟩ := h
        | simp only [bind, pure, Option.bind_eq_some, Option.map_eq_some'] at h
        | split at h
        | (simp at h; done)
        | (simp_all; done)
    obtain ⟨z', rfl⟩ := hz
    exact WBok_d2_last _ (Or.inr rfl)

theorem cut_x_wb (dv : DataV) (m s1 s2 : String) (dv' : DataV)
    (h : filters.cut_x dv m s1 s2 = some dv') :
    WBok dv dv' (wbMode "Cut X" m dv.arity) := by
  cases dv with
  | d1 x z =>
    show WBok _ _ WB.noWrite
    have hz : dv' = DataV.d1 x z := by
      unfold filters.cut_x at h
      repeat' first
        | exact (Option.some.inj h).symm
        | exact h.symm
        | exact ⟨_, (Option.some.inj h).symm⟩
        | exact ⟨_, h.symm⟩
        | exact ⟨_, _, (Option.some.inj h).symm⟩
        | exact ⟨_, _, h.symm⟩
        | exact ⟨_, _, _, (Option.some.inj h).symm⟩
        | exact ⟨_, _, _, h.symm⟩
        | obtain ⟨w, hw, h⟩ := h
        | simp only [bind, pure, Option.bind_eq_some, Option.map_eq_some'] at h
        | split at h
        | (simp at h; done)
        | (simp_all; done)
    exact hz
  | d2 x y z =>
    show WBok _ _ WB.lastFresh
    have hz : ∃ z', dv' = DataV.d2 x y z' := by
      unfold filters.cut_x at h
      repeat' first
        | exact (Option.some.inj h).symm
        | exact h.symm
        | exact ⟨_, (Option.some.inj h).symm⟩
        | exact ⟨_, h.symm⟩
        | exact ⟨_, _, (Option.some.inj h).symm⟩
        | exact ⟨_, _, h.symm⟩
        | exact ⟨_, _, _, (Option.some.inj h).symm⟩
        | exact ⟨_, _, _, h.symm⟩
        | obtain ⟨w, hw, h⟩ := h
        | simp only [bind, pure, Option.bind_eq_some, Option.map_eq_some'] at h
        | split at h
        | (simp at h; done)
        | (simp_all; done)
    obtain ⟨z', rfl⟩ := hz
    exact WBok_d2_last _ (Or.inl rfl)

theorem cut_y_wb (dv : DataV) (m s1 s2 : String) (dv' : DataV)
    (h : filters.cut_y dv m s1 s2 = some dv') :
    WBok dv dv' (wbMode "Cut Y" m dv.arity) := by
  cases dv with
  | d1 x z =>
    show WBok _ _ WB.noWrite
    have hz : dv' = DataV.d1 x z := by
      unfold filters.cut_y at h
      repeat' first
        | exact (Option.some.inj h).symm
        | exact h.symm
        | exact ⟨_, (Option.some.inj h).symm⟩
        | exact ⟨_, h.symm⟩
        | exact ⟨_, _, (Option.some.inj h).symm⟩
        | exact ⟨_, _, h.symm⟩
        | exact ⟨_, _, _, (Option.some.inj h).symm⟩
        | exact ⟨_, _, _, h.symm⟩
        | obtain ⟨w, hw, h⟩ := h
        | simp only [bind, pure, Option.bind_eq_some, Option.map_eq_some'] at h
        | split at h
        | (simp at h; done)
        | (simp_all; done)
    exact hz
  | d2 x y z =>
    show WBok _ _ WB.lastFresh
    have hz : ∃ z', dv' = DataV.d2 x y z' := by
      unfold filters.cut_y at h
      repeat' first
        | exact (Option.some.inj h).symm
        | exact h.symm
        | exact ⟨_, (Option.some.inj h).symm⟩
        | exact ⟨_, h.symm⟩
        | exact ⟨_, _, (Option.some.inj h).symm⟩
        | exact ⟨_, _, h.symm⟩
        | exact ⟨_, _, _, (Option.some.inj h).symm⟩
        | exact ⟨_, _, _, h.symm⟩
        | obtain ⟨w, hw, h⟩ := h
        | simp only [bind, pure, Option.bind_eq_some, Option.map_eq_some'] at h
        | split at h
        | (simp at h; done)
        | (simp_all; done)
    obtain ⟨z', rfl⟩ := hz
    exact WBok_d2_last _ (Or.inl rfl)

theorem swap_xy_wb (dv : DataV) (m s1 s2 : String) (dv' : DataV)
    (h : filters.swap_xy dv m s1 s2 = some dv') :
    WBok dv dv' (wbMode "Swap XY" m dv.arity) := by
  show WBok _ _ WB.swapRefs
  cases dv with
  | d1 x z =>
    have hz : dv' = DataV.d1 z x := by
      unfold filters.swap_xy at h
      repeat' first
        | exact (Option.some.inj h).symm
        | exact h.symm
        | exact ⟨_, (Option.some.inj h).symm⟩
        | exact ⟨_, h.symm⟩
        | exact ⟨_, _, (Option.some.inj h).symm⟩
        | exact ⟨_, _, h.symm⟩
        | exact ⟨_, _, _, (Option.some.inj h).symm⟩
        | exact ⟨_, _, _, h.symm⟩
        | obtain ⟨w, hw, h⟩ := h
        | simp only [bind, pure, Option.bind_eq_some, Option.map_eq_some'] at h
        | split at h
        | (simp at h; done)
        | (simp_all; done)
    exact hz
  | d2 x y z =>
    have hz : dv' = DataV.d2 y x z := by
      unfold filters.swap_xy at h
      repeat' first
        | exact (Option.some.inj h).symm
        | exact h.symm
        | exact ⟨_, (Option.some.inj h).symm⟩
        | exact ⟨_, h.symm⟩
        | exact ⟨_, _, (Option.some.inj h).symm⟩
        | exact ⟨_, _, h.symm⟩
        | exact ⟨_, _, _, (Option.some.inj h).symm⟩
        | exact ⟨_, _, _, h.symm⟩
        | obtain ⟨w, hw, h⟩ := h
        | simp only [bind, pure, Option.bind_eq_some, Option.map_eq_some'] at h
        | split at h
        | (simp at h; done)
        | (simp_all; done)
    exact hz

theorem flip_wb (dv : DataV) (m s1 s2 : String) (dv' : DataV)
    (h : filters.flip dv m s1 s2 = some dv') :
    WBok dv dv' (wbMode "Flip" m dv.arity) := by
  show WBok _ _ WB.lastFresh
  cases dv with
  | d1 x z =>
    have hz : ∃ z', dv' = DataV.d1 x z' := by
      unfold filters.flip at h
      repeat' first
        | exact (Option.some.inj h).symm
        | exact h.symm
        | exact ⟨_, (Option.some.inj h).symm⟩
        | exact ⟨_, h.symm⟩
        | exact ⟨_, _, (Option.some.inj h).symm⟩
        | exact ⟨_, _, h.symm⟩
        | exact ⟨_, _, _, (Option.some.inj h).symm⟩
        | exact ⟨_, _, _, h.symm⟩
        | obtain ⟨w, hw, h⟩ := h
        | simp only [bind, pure, Option.bind_eq_some, Option.map_eq_some'] at h
        | split at h
        | (simp at h; done)
        | (simp_all; done)
    obtain ⟨z', rfl⟩ := hz
    exact WBok_d1_last _ (Or.inl rfl)
  | d2 x y z =>
    have hz : ∃ z', dv' = DataV.d2 x y z' := by
      unfold filters.flip at h
      repeat' first
        | exact (Option.some.inj h).symm
        | exact h.symm
        | exact ⟨_, (Option.some.inj h).symm⟩
        | exact ⟨_, h.symm⟩
        | exact ⟨_, _, (Option.some.inj h).symm⟩
        | exact ⟨_, _, h.symm⟩
        | exact ⟨_, _, _, (Option.some.inj h).symm⟩
        | exact ⟨_, _, _, h.symm⟩
        | obtain ⟨w, hw, h⟩ := h
        | simp only [bind, pure, Option.bind_eq_some, Option.map_eq_some'] at h
        | split at h
        | (simp at h; done)
        | (simp_all; done)
    obtain ⟨z', rfl⟩ := hz
    exact WBok_d2_last _ (Or.inl rfl)

set_option maxHeartbeats 2000000 in
theorem normalize_wb (dv : DataV) (m s1 s2 : String) (dv' : DataV)
    (h : filters.normalize dv m s1 s2 = some dv') :
    WBok dv dv' (wbMode "Normalize" m dv.arity) := by
  show WBok _ _ WB.lastFresh
  cases dv with
  | d1 x z =>
    have hz : ∃ z', dv' = DataV.d1 x z' := by
      unfold filters.normalize at h
      repeat' first
        | exact (Option.some.inj h).symm
        | exact h.symm
        | exact ⟨_, (Option.some.inj h).symm⟩
        | exact ⟨_, h.symm⟩
        | exact ⟨_, _, (Option.some.inj h).symm⟩
        | exact ⟨_, _, h.symm⟩
        | exact ⟨_, _, _, (Option.some.inj h).symm⟩
        | exact ⟨_, _, _, h.symm⟩
        | obtain ⟨w, hw, h⟩ := h
        | simp only [bind, pure, Option.bind_eq_some, Option.map_eq_some'] at h
        | split at h
        | (simp at h; done)
        | (simp_all; done)
    obtain ⟨z', rfl⟩ := hz
    exact WBok_d1_last _ (Or.inl rfl)
  | d2 x y z =>
    have hz : ∃ z', dv' = DataV.d2 x y z' := by
      unfold filters.normalize at h
      repeat' first
        | exact (Option.some.inj h).symm
        | exact h.symm
        | exact ⟨_, (Option.some.inj h).symm⟩
        | exact ⟨_, h.symm⟩
        | exact ⟨_, _, (Option.some.inj h).symm⟩
        | exact ⟨_, _, h.symm⟩
        | exact ⟨_, _, _, (Option.some.inj h).symm⟩
        | exact ⟨_, _, _, h.symm⟩
        | obtain ⟨w, hw, h⟩ := h
        | simp only [bind, pure, Option.bind_eq_some, Option.map_eq_some'] at h
        | split at h
        | (simp at h; done)
        | (simp_all; done)
    obtain ⟨z', rfl⟩ := hz
    exact WBok_d2_last _ (Or.inl rfl)

theorem absolute_wb (dv : DataV) (m s1 s2 : String) (dv' : DataV)
    (h : filters.absolute dv m s1 s2 = some dv') :
    WBok dv dv' (wbMode "Absolute" m dv.arity) := by
  show WBok _ _ WB.lastFresh
  cases dv with
  | d1 x z =>
    have hz : ∃ z', dv' = DataV.d1 x z' := by
      unfold filters.absolute at h
      repeat' first
        | exact (Option.some.inj h).symm
        | exact h.symm
        | exact ⟨_, (Option.some.inj h).symm⟩
        | exact ⟨_, h.symm⟩
        | exact ⟨_, _, (Option.some.inj h).symm⟩
        | exact ⟨_, _, h.symm⟩
        | exact ⟨_, _, _, (Option.some.inj h).symm⟩
        | exact ⟨_, _, _, h.symm⟩
        | obtain ⟨w, hw, h⟩ := h
        | simp only [bind, pure, Option.bind_eq_some, Option.map_eq_some'] at h
        | split at h
        | (simp at h; done)
        | (simp_all; done)
    obtain ⟨z', rfl⟩ := hz
    exact WBok_d1_last _ (Or.inl rfl)
  | d2 x y z =>
    have hz : ∃ z', dv' = DataV.d2 x y z' := by
      unfold filters.absolute at h
      repeat' first
        | exact (Option.some.inj h).symm
        | exact h.symm
        | exact ⟨_, (Option.some.inj h).symm⟩
        | exact ⟨_, h.symm⟩
        | exact ⟨_, _, (Option.some.inj h).symm⟩
        | exact ⟨_, _, h.symm⟩
        | exact ⟨_, _, _, (Option.some.inj h).symm⟩
        | exact ⟨_, _, _, h.symm⟩
        | obtain ⟨w, hw, h⟩ := h
        | simp only [bind, pure, Option.bind_eq_some, Option.map_eq_some'] at h
        | split at h
        | (simp at h; done)
        | (simp_all; done)
    obtain ⟨z', rfl⟩ := hz
    exact WBok_d2_last _ (Or.inl rfl)

theorem band_cut_wb (dv : DataV) (m s1 s2 : String) (dv' : DataV)
    (h : filters.band_cut dv m s1 s2 = some dv') :
    WBok dv dv' (wbMode "Band cut" m dv.arity) := by
  show WBok _ _ WB.lastFresh
  cases dv with
  | d1 x z =>
    have hz : ∃ z', dv' = DataV.d1 x z' := by
      unfold filters.band_cut at h
      repeat' first
        | exact (Option.some.inj h).symm
        | exact h.symm
        | exact ⟨_, (Option.some.inj h).symm⟩
        | exact ⟨_, h.symm⟩
        | exact ⟨_, _, (Option.some.inj h).symm⟩
        | exact ⟨_, _, h.symm⟩
        | exact ⟨_, _, _, (Option.some.inj h).symm⟩
        | exact ⟨_, _, _, h.symm⟩
        | obtain ⟨w, hw, h⟩ := h
        | simp only [bind, pure, Option.bind_eq_some, Option.map_eq_some'] at h
        | split at h
        | (simp at h; done)
        | (simp_all; done)
    obtain ⟨z', rfl⟩ := hz
    exact WBok_d1_last _ (Or.inl rfl)
  | d2 x y z =>
    have hz : ∃ z', dv' = DataV.d2 x y z' := by
      unfold filters.band_cut at h
      repeat' first
        | exact (Option.some.inj h).symm
        | exact h.symm
        | exact ⟨_, (Option.some.inj h).symm⟩
        | exact ⟨_, h.symm⟩
        | exact ⟨_, _, (Option.some.inj h).symm⟩
        | exact ⟨_, _, h.symm⟩
        | exact ⟨_, _, _, (Option.some.inj h).symm⟩
        | exact ⟨_, _, _, h.symm⟩
        | obtain ⟨w, hw, h⟩ := h
        | simp only [bind, pure, Option.bind_eq_some, Option.map_eq_some'] at h
        | split at h
        | (simp at h; done)
        | (simp_all; done)
    obtain ⟨z', rfl⟩ := hz
    exact WBok_d2_last _ (Or.inl rfl)

theorem slope_wb (dv : DataV) (m s1 s2 : String) (dv' : DataV)
    (h : filters.slope dv m s1 s2 = some dv') :
    WBok dv dv' (wbMode "Slope" m dv.arity) := by
  show WBok _ _ WB.lastInPlace
  cases dv with
  | d1 x z =>
    have hz : ∃ z', dv' = DataV.d1 x z' := by
      unfold filters.slope at h
      repeat' first
        | exact (Option.some.inj h).symm
        | exact h.symm
        | exact ⟨_, (Option.some.inj h).symm⟩
        | exact ⟨_, h.symm⟩
        | exact ⟨_, _, (Option.some.inj h).symm⟩
        | exact ⟨_, _, h.symm⟩
        | exact ⟨_, _, _, (Option.some.inj h).symm⟩
        | exact ⟨_, _, _, h.symm⟩
        | obtain ⟨w, hw, h⟩ := h
        | simp only [bind, pure, Option.bind_eq_some, Option.map_eq_some'] at h
        | split at h
        | (simp at h; done)
        | (simp_all; done)
    obtain ⟨z', rfl⟩ := hz
    exact WBok_d1_last _ (Or.inr rfl)
  | d2 x y z =>
    have hz : ∃ z', dv' = DataV.d2 x y z' := by
      unfold filters.slope at h
      repeat' first
        | exact (Option.some.inj h).symm
        | exact h.symm
        | exact ⟨_, (Option.some.inj h).symm⟩
        | exact ⟨_, h.symm⟩
        | exact ⟨_, _, (Option.some.inj h).symm⟩
        | exact ⟨_, _, h.symm⟩
        | exact ⟨_, _, _, (Option.some.inj h).symm⟩
        | exact ⟨_, _, _, h.symm⟩
        | obtain ⟨w, hw, h⟩ := h
        | simp only [bind, pure, Option.bind_eq_some, Option.map_eq_some'] at h
        | split at h
        | (simp at h; done)
        | (simp_all; done)
    obtain ⟨z', rfl⟩ := hz
    exact WBok_d2_last _ (Or.inr rfl)

set_option maxHeartbeats 2000000 in
theorem interpolate_wb (dv : DataV) (m s1 s2 : String) (dv' : DataV)
    (h : filters.interpolate dv m s1 s2 = some dv') :
    WBok dv dv' (wbMode "Interp" m dv.arity) := by
  show WBok _ _ WB.allFresh
  cases dv with
  | d1 x z =>
    have hz : ∃ X Z, dv' = DataV.d1 X Z := by
      unfold filters.interpolate at h
      repeat' first
        | exact (Option.some.inj h).symm
        | exact h.symm
        | exact ⟨_, (Option.some.inj h).symm⟩
        | exact ⟨_, h.symm⟩
        | exact ⟨_, _, (Option.some.inj h).symm⟩
        | exact ⟨_, _, h.symm⟩
        | exact ⟨_, _, _, (Option.some.inj h).symm⟩
        | exact ⟨_, _, _, h.symm⟩
        | obtain ⟨w, hw, h⟩ := h
        | simp only [bind, pure, Option.bind_eq_some, Option.map_eq_some'] at h
        | split at h
        | (simp at h; done)
        | (simp_all; done)
    obtain ⟨X, Z, rfl⟩ := hz
    exact rfl
  | d2 x y z =>
    have hz : ∃ X Y Z, dv' = DataV.d2 X Y Z := by
      unfold filters.interpolate at h
      repeat' first
        | exact (Option.some.inj h).symm
        | exact h.symm
        | exact ⟨_, (Option.some.inj h).symm⟩
        | exact ⟨_, h.symm⟩
        | exact ⟨_, _, (Option.some.inj h).symm⟩
        | exact ⟨_, _, h.symm⟩
        | exact ⟨_, _, _, (Option.some.inj h).symm⟩
        | exact ⟨_, _, _, h.symm⟩
        | obtain ⟨w, hw, h⟩ := h
        | simp only [bind, pure, Option.bind_eq_some, Option.map_eq_some'] at h
        | split at h
        | (simp at h; done)
        | (simp_all; done)
    obtain ⟨X, Y, Z, rfl⟩ := hz
    exact rfl

theorem offset_wb (dv : DataV) (m s1 s2 : String) (dv' : DataV)
    (h : filters.offset dv m s1 s2 = some dv') :
    WBok dv dv' (wbMode "Offset" m dv.arity) := by
  rcases eq_or_ne m "X" with rfl | hm1
  · cases dv with
    | d1 x z =>
      show WBok _ _ (WB.slotInPlace 0)
      have hz : ∃ x', dv' = DataV.d1 x' z := by
        cases hp : PyStr.parseFloat? s1 with
        | none => simp [filters.offset, filters.offSlot0, filters.offSlot1, filters.offSlot2, DataV.arity, hp] at h
        | some c =>
          simp [filters.offset, filters.offSlot0, filters.offSlot1, filters.offSlot2, DataV.arity, hp] at h
          first
            | exact ⟨_, h.symm⟩
            | exact ⟨_, h⟩
            | simp_all
      obtain ⟨v', rfl⟩ := hz
      exact WBok_d1_slot0
    | d2 x y z =>
      show WBok _ _ (WB.slotInPlace 0)
      have hz : ∃ x', dv' = DataV.d2 x' y z := by
        cases hp : PyStr.parseFloat? s1 with
        | none => simp [filters.offset, filters.offSlot0, filters.offSlot1, filters.offSlot2, DataV.arity, hp] at h
        | some c =>
          simp [filters.offset, filters.offSlot0, filters.offSlot1, filters.offSlot2, DataV.arity, hp] at h
          first
            | exact ⟨_, h.symm⟩
            | exact ⟨_, h⟩
            | simp_all
      obtain ⟨v', rfl⟩ := hz
      exact WBok_d2_slot0
  rcases eq_or_ne m "Y" with rfl | hm2
  · cases dv with
    | d1 x z =>
      show WBok _ _ (WB.slotInPlace 1)
      have hz : ∃ z', dv' = DataV.d1 x z' := by
        cases hp : PyStr.parseFloat? s1 with
        | none => simp [filters.offset, filters.offSlot0, filters.offSlot1, filters.offSlot2, DataV.arity, hp] at h
        | some c =>
          simp [filters.offset, filters.offSlot0, filters.offSlot1, filters.offSlot2, DataV.arity, hp] at h
          first
            | exact ⟨_, h.symm⟩
            | exact ⟨_, h⟩
            | simp_all
      obtain ⟨v', rfl⟩ := hz
      exact WBok_d1_slot1
    | d2 x y z =>
      show WBok _ _ (WB.slotInPlace 1)
      have hz : ∃ y', dv' = DataV.d2 x y' z := by
        cases hp : PyStr.parseFloat? s1 with
        | none => simp [filters.offset, filters.offSlot0, filters.offSlot1, filters.offSlot2, DataV.arity, hp] at h
        | some c =>
          simp [filters.offset, filters.offSlot0, filters.offSlot1, filters.offSlot2, DataV.arity, hp] at h
          first
            | exact ⟨_, h.symm⟩
            | exact ⟨_, h⟩
            | simp_all
      obtain ⟨v', rfl⟩ := hz
      exact WBok_d2_slot1
  rcases eq_or_ne m "Z" with rfl | hm3
  · cases dv with
    | d1 x z =>
      show WBok _ _ WB.noWrite
      have hz : dv' = DataV.d1 x z := by
        simp [filters.offset, filters.offSlot0, filters.offSlot1, filters.offSlot2,
          DataV.arity] at h
        exact h.symm
      exact hz
    | d2 x y z =>
      show WBok _ _ (WB.slotInPlace 2)
      have hz : ∃ z', dv' = DataV.d2 x y z' := by
        cases hp : PyStr.parseFloat? s1 with
        | none => simp [filters.offset, filters.offSlot0, filters.offSlot1, filters.offSlot2, DataV.arity, hp] at h
        | some c =>
          simp [filters.offset, filters.offSlot0, filters.offSlot1, filters.offSlot2, DataV.arity, hp] at h
          first
            | exact ⟨_, h.symm⟩
            | exact ⟨_, h⟩
            | simp_all
      obtain ⟨v', rfl⟩ := hz
      exact WBok_d2_slot2
  · have hwb : wbMode "Offset" m dv.arity = WB.noWrite := by
      simp [wbMode, hm1, hm2, hm3]
    rw [hwb]
    have hz : dv' = dv := by
      simp [filters.offset, hm1, hm2, hm3] at h
      exact h.symm
    exact hz

theorem mulitply_wb (dv : DataV) (m s1 s2 : String) (dv' : DataV)
    (h : filters.mulitply dv m s1 s2 = some dv') :
    WBok dv dv' (wbMode "Multiply" m dv.arity) := by
  rcases eq_or_ne m "X" with rfl | hm1
  · cases dv with
    | d1 x z =>
      show WBok _ _ (WB.slotInPlace 0)
      have hz : ∃ x', dv' = DataV.d1 x' z := by
        cases hp : PyStr.parseFloat? s1 with
        | none => simp [filters.mulitply, filters.axisIdx?, hp] at h
        | some c =>
          simp [filters.mulitply, filters.axisIdx?, hp] at h
          first
            | exact ⟨_, h.symm⟩
            | exact ⟨_, h⟩
            | simp_all
      obtain ⟨v', rfl⟩ := hz
      exact WBok_d1_slot0
    | d2 x y z =>
      show WBok _ _ (WB.slotInPlace 0)
      have hz : ∃ x', dv' = DataV.d2 x' y z := by
        cases hp : PyStr.parseFloat? s1 with
        | none => simp [filters.mulitply, filters.axisIdx?, hp] at h
        | some c =>
          simp [filters.mulitply, filters.axisIdx?, hp] at h
          first
            | exact ⟨_, h.symm⟩
            | exact ⟨_, h⟩
            | simp_all
      obtain ⟨v', rfl⟩ := hz
      exact WBok_d2_slot0
  rcases eq_or_ne m "Y" with rfl | hm2
  · cases dv with
    | d1 x z =>
      show WBok _ _ (WB.slotInPlace 1)
      have hz : ∃ z', dv' = DataV.d1 x z' := by
        cases hp : PyStr.parseFloat? s1 with
        | none => simp [filters.mulitply, filters.axisIdx?, hp] at h
        | some c =>
          simp [filters.mulitply, filters.axisIdx?, hp] at h
          first
            | exact ⟨_, h.symm⟩
            | exact ⟨_, h⟩
            | simp_all
      obtain ⟨v', rfl⟩ := hz
      exact WBok_d1_slot1
    | d2 x y z =>
      show WBok _ _ (WB.slotInPlace 1)
      have hz : ∃ y', dv' = DataV.d2 x y' z := by
        cases hp : PyStr.parseFloat? s1 with
        | none => simp [filters.mulitply, filters.axisIdx?, hp] at h
        | some c =>
          simp [filters.mulitply, filters.axisIdx?, hp] at h
          first
            | exact ⟨_, h.symm⟩
            | exact ⟨_, h⟩
            | simp_all
      obtain ⟨v', rfl⟩ := hz
      exact WBok_d2_slot1
  rcases eq_or_ne m "Z" with rfl | hm3
  · cases dv with
    | d1 x z =>
      show WBok _ _ WB.noWrite
      have hz : dv' = DataV.d1 x z := by
        simp [filters.mulitply, filters.axisIdx?] at h
        exact h.symm
      exact hz
    | d2 x y z =>
      show WBok _ _ (WB.slotInPlace 2)
      have hz : ∃ z', dv' = DataV.d2 x y z' := by
        cases hp : PyStr.parseFloat? s1 with
        | none => simp [filters.mulitply, filters.axisIdx?, hp] at h
        | some c =>
          simp [filters.mulitply, filters.axisIdx?, hp] at h
          first
            | exact ⟨_, h.symm⟩
            | exact ⟨_, h⟩
            | simp_all
      obtain ⟨v', rfl⟩ := hz
      exact WBok_d2_slot2
  · exfalso
    simp [filters.mulitply, filters.axisIdx?, hm1, hm2, hm3] at h

theorem divide_wb (dv : DataV) (m s1 s2 : String) (dv' : DataV)
    (h : filters.divide dv m s1 s2 = some dv') :
    WBok dv dv' (wbMode "Divide" m dv.arity) := by
  rcases eq_or_ne m "X" with rfl | hm1
  · cases dv with
    | d1 x z =>
      show WBok _ _ (WB.slotInPlace 0)
      have hz : ∃ x', dv' = DataV.d1 x' z := by
        cases hp : PyStr.parseFloat? s1 with
        | none => simp [filters.divide, filters.axisIdx?, hp] at h
        | some c =>
          simp [filters.divide, filters.axisIdx?, hp] at h
          first
            | exact ⟨_, h.symm⟩
            | exact ⟨_, h⟩
            | simp_all
      obtain ⟨v', rfl⟩ := hz
      exact WBok_d1_slot0
    | d2 x y z =>
      show WBok _ _ (WB.slotInPlace 0)
      have hz : ∃ x', dv' = DataV.d2 x' y z := by
        cases hp : PyStr.parseFloat? s1 with
        | none => simp [filters.divide, filters.axisIdx?, hp] at h
        | some c =>
          simp [filters.divide, filters.axisIdx?, hp] at h
          first
            | exact ⟨_, h.symm⟩
            | exact ⟨_, h⟩
            | simp_all
      obtain ⟨v', rfl⟩ := hz
      exact WBok_d2_slot0
  rcases eq_or_ne m "Y" with rfl | hm2
  · cases dv with
    | d1 x z =>
      show WBok _ _ (WB.slotInPlace 1)
      have hz : ∃ z', dv' = DataV.d1 x z' := by
        cases hp : PyStr.parseFloat? s1 with
        | none => simp [filters.divide, filters.axisIdx?, hp] at h
        | some c =>
          simp [filters.divide, filters.axisIdx?, hp] at h
          first
            | exact ⟨_, h.symm⟩
            | exact ⟨_, h⟩
            | simp_all
      obtain ⟨v', rfl⟩ := hz
      exact WBok_d1_slot1
    | d2 x y z =>
      show WBok _ _ (WB.slotInPlace 1)
      have hz : ∃ y', dv' = DataV.d2 x y' z := by
        cases hp : PyStr.parseFloat? s1 with
        | none => simp [filters.divide, filters.axisIdx?, hp] at h
        | some c =>
          simp [filters.divide, filters.axisIdx?, hp] at h
          first
            | exact ⟨_, h.symm⟩
            | exact ⟨_, h⟩
            | simp_all
      obtain ⟨v', rfl⟩ := hz
      exact WBok_d2_slot1
  rcases eq_or_ne m "Z" with rfl | hm3
  · cases dv with
    | d1 x z =>
      show WBok _ _ WB.noWrite
      have hz : dv' = DataV.d1 x z := by
        simp [filters.divide, filters.axisIdx?] at h
        exact h.symm
      exact hz
    | d2 x y z =>
      show WBok _ _ (WB.slotInPlace 2)
      have hz : ∃ z', dv' = DataV.d2 x y z' := by
        cases hp : PyStr.parseFloat? s1 with
        | none => simp [filters.divide, filters.axisIdx?, hp] at h
        | some c =>
          simp [filters.divide, filters.axisIdx?, hp] at h
          first
            | exact ⟨_, h.symm⟩
            | exact ⟨_, h⟩
            | simp_all
      obtain ⟨v', rfl⟩ := hz
      exact WBok_d2_slot2
  · exfalso
    simp [filters.divide, filters.axisIdx?, hm1, hm2, hm3] at h

theorem logarithm_wb (dv : DataV) (m s1 s2 : String) (dv' : DataV)
    (h : filters.logarithm dv m s1 s2 = some dv') :
    WBok dv dv' (wbMode "Logarithm" m dv.arity) := by
  rcases eq_or_ne m "Mask" with rfl | hm1
  · show WBok _ _ WB.lastFresh
    cases dv with
    | d1 x z =>
      have hz : ∃ z', dv' = DataV.d1 x z' := by
        unfold filters.logarithm at h
        repeat' first
          | exact (Option.some.inj h).symm
          | exact h.symm
          | exact ⟨_, (Option.some.inj h).symm⟩
          | exact ⟨_, h.symm⟩
          | obtain ⟨w, hw, h⟩ := h
          | simp only [bind, pure, Option.bind_eq_some, Option.map_eq_some'] at h
          | split at h
          | (simp at h; done)
          | (simp_all; done)
      obtain ⟨z', rfl⟩ := hz
      exact WBok_d1_last _ (Or.inl rfl)
    | d2 x y z =>
      have hz : ∃ z', dv' = DataV.d2 x y z' := by
        unfold filters.logarithm at h
        repeat' first
          | exact (Option.some.inj h).symm
          | exact h.symm
          | exact ⟨_, (Option.some.inj h).symm⟩
          | exact ⟨_, h.symm⟩
          | obtain ⟨w, hw, h⟩ := h
          | simp only [bind, pure, Option.bind_eq_some, Option.map_eq_some'] at h
          | split at h
          | (simp at h; done)
          | (simp_all; done)
      obtain ⟨z', rfl⟩ := hz
      exact WBok_d2_last _ (Or.inl rfl)
  rcases eq_or_ne m "Shift" with rfl | hm2
  · show WBok _ _ WB.lastFresh
    cases dv with
    | d1 x z =>
      have hz : ∃ z', dv' = DataV.d1 x z' := by
        unfold filters.logarithm at h
        repeat' first
          | exact (Option.some.inj h).symm
          | exact h.symm
          | exact ⟨_, (Option.some.inj h).symm⟩
          | exact ⟨_, h.symm⟩
          | obtain ⟨w, hw, h⟩ := h
          | simp only [bind, pure, Option.bind_eq_some, Option.map_eq_some'] at h
          | split at h
          | (simp at h; done)
          | (simp_all; done)
      obtain ⟨z', rfl⟩ := hz
      exact WBok_d1_last _ (Or.inl rfl)
    | d2 x y z =>
      have hz : ∃ z', dv' = DataV.d2 x y z' := by
        unfold filters.logarithm at h
        repeat' first
          | exact (Option.some.inj h).symm
          | exact h.symm
          | exact ⟨_, (Option.some.inj h).symm⟩
          | exact ⟨_, h.symm⟩
          | obtain ⟨w, hw, h⟩ := h
          | simp only [bind, pure, Option.bind_eq_some, Option.map_eq_some'] at h
          | split at h
          | (simp at h; done)
          | (simp_all; done)
      obtain ⟨z', rfl⟩ := hz
      exact WBok_d2_last _ (Or.inl rfl)
  rcases eq_or_ne m "Abs" with rfl | hm3
  · show WBok _ _ WB.lastFresh
    cases dv with
    | d1 x z =>
      have hz : ∃ z', dv' = DataV.d1 x z' := by
        unfold filters.logarithm at h
        repeat' first
          | exact (Option.some.inj h).symm
          | exact h.symm
          | exact ⟨_, (Option.some.inj h).symm⟩
          | exact ⟨_, h.symm⟩
          | obtain ⟨w, hw, h⟩ := h
          | simp only [bind, pure, Option.bind_eq_some, Option.map_eq_some'] at h
          | split at h
          | (simp at h; done)
          | (simp_all; done)
      obtain ⟨z', rfl⟩ := hz
      exact WBok_d1_last _ (Or.inl rfl)
    | d2 x y z =>
      have hz : ∃ z', dv' = DataV.d2 x y z' := by
        unfold filters.logarithm at h
        repeat' first
          | exact (Option.some.inj h).symm
          | exact h.symm
          | exact ⟨_, (Option.some.inj h).symm⟩
          | exact ⟨_, h.symm⟩
          | obtain ⟨w, hw, h⟩ := h
          | simp only [bind, pure, Option.bind_eq_some, Option.map_eq_some'] at h
          | split at h
          | (simp at h; done)
          | (simp_all; done)
      obtain ⟨z', rfl⟩ := hz
      exact WBok_d2_last _ (Or.inl rfl)
  · have hwb : wbMode "Logarithm" m dv.arity = WB.noWrite := by
      simp [wbMode, hm1, hm2, hm3]
    rw [hwb]
    unfold filters.logarithm at h
    simp only [if_neg hm1, if_neg hm2, if_neg hm3] at h
    exact (Option.some.inj h).symm

theorem subtract_trace_wb (dv : DataV) (m s1 s2 : String) (dv' : DataV)
    (h : filters.subtract_trace dv m s1 s2 = some dv') :
    WBok dv dv' (wbMode "Subtract" m dv.arity) := by
  cases dv with
  | d1 x z =>
    show WBok _ _ WB.noWrite
    have hz : dv' = DataV.d1 x z := by
      unfold filters.subtract_trace at h
      repeat' first
        | exact (Option.some.inj h).symm
        | exact h.symm
        | exact ⟨_, (Option.some.inj h).symm⟩
        | exact ⟨_, h.symm⟩
        | obtain ⟨w, hw, h⟩ := h
        | simp only [bind, pure, Option.bind_eq_some, Option.map_eq_some'] at h
        | split at h
        | (simp at h; done)
        | (simp_all; done)
    exact hz
  | d2 x y z =>
    rcases eq_or_ne m "Horizontal" with rfl | hm1
    · show WBok _ _ WB.lastInPlace
      have hz : ∃ z', dv' = DataV.d2 x y z' := by
        unfold filters.subtract_trace at h
        repeat' first
          | exact (Option.some.inj h).symm
          | exact h.symm
          | exact ⟨_, (Option.some.inj h).symm⟩
          | exact ⟨_, h.symm⟩
          | obtain ⟨w, hw, h⟩ := h
          | simp only [bind, pure, Option.bind_eq_some, Option.map_eq_some'] at h
          | split at h
          | (simp at h; done)
          | (simp_all; done)
      obtain ⟨z', rfl⟩ := hz
      exact WBok_d2_last _ (Or.inr rfl)
    rcases eq_or_ne m "Vertical" with rfl | hm2
    · show WBok _ _ WB.lastInPlace
      have hz : ∃ z', dv' = DataV.d2 x y z' := by
        unfold filters.subtract_trace at h
        repeat' first
          | exact (Option.some.inj h).symm
          | exact h.symm
          | exact ⟨_, (Option.some.inj h).symm⟩
          | exact ⟨_, h.symm⟩
          | obtain ⟨w, hw, h⟩ := h
          | simp only [bind, pure, Option.bind_eq_some, Option.map_eq_some'] at h
          | split at h
          | (simp at h; done)
          | (simp_all; done)
      obtain ⟨z', rfl⟩ := hz
      exact WBok_d2_last _ (Or.inr rfl)
    · have hwb : wbMode "Subtract" m (DataV.d2 x y z).arity = WB.noWrite := by
        simp [wbMode, hm1, hm2]
      rw [hwb]
      have hz : dv' = DataV.d2 x y z := by
        unfold filters.subtract_trace at h
        simp only [if_neg hm1, if_neg hm2] at h
        repeat' first
          | exact (Option.some.inj h).symm
          | exact h.symm
          | exact ⟨_, (Option.some.inj h).symm⟩
          | exact ⟨_, h.symm⟩
          | obtain ⟨w, hw, h⟩ := h
          | simp only [bind, pure, Option.bind_eq_some, Option.map_eq_some'] at h
          | split at h
          | (simp at h; done)
          | (simp_all; done)
      exact hz

/-! ## The master store-level application lemma -/

/-- A `slotInPlace` write-back mode only arises for a slot the data list
actually has. -/
theorem wbMode_slot_lt (name method : String) (n i : ℕ)
    (h : wbMode name method n = WB.slotInPlace i) : i < 2 ∨ (i = 2 ∧ n = 3) := by
  unfold wbMode at h
  repeat' split at h
  all_goals first
    | exact WB.noConfusion h
    | (injection h with h2; omega)
    | (injection h with h2; simp_all)

/-- Every filter preserves the arity of the tuple. -/
theorem apply_wbOK (dv : DataV) (f : FilterSettings) (dv' : DataV)
    (h : filters.apply dv f = some dv') :
    WBok dv dv' (wbMode f.name f.method dv.arity) := by
  obtain ⟨n, m, s1, s2, ch⟩ := f
  simp only [filters.apply] at h
  split at h
  case _ => exact derivative_wb _ _ _ _ _ h
  case _ => exact smooth_wb _ _ _ _ _ h
  case _ => exact sav_gol_wb _ _ _ _ _ h
  case _ => exact crop_x_wb _ _ _ _ _ h
  case _ => exact crop_y_wb _ _ _ _ _ h
  case _ => exact roll_x_wb _ _ _ _ _ h
  case _ => exact roll_y_wb _ _ _ _ _ h
  case _ => exact cut_x_wb _ _ _ _ _ h
  case _ => exact cut_y_wb _ _ _ _ _ h
  case _ => exact swap_xy_wb _ _ _ _ _ h
  case _ => exact flip_wb _ _ _ _ _ h
  case _ => exact normalize_wb _ _ _ _ _ h
  case _ => exact offset_wb _ _ _ _ _ h
  case _ => exact absolute_wb _ _ _ _ _ h
  case _ => exact mulitply_wb _ _ _ _ _ h
  case _ => exact slope_wb _ _ _ _ _ h
  case _ => exact logarithm_wb _ _ _ _ _ h
  case _ => exact band_cut_wb _ _ _ _ _ h
  case _ => exact interpolate_wb _ _ _ _ _ h
  case _ => exact subtract_trace_wb _ _ _ _ _ h
  case _ => exact divide_wb _ _ _ _ _ h
  case _ => exact absurd h (by simp)

/-- Store-level filter application agrees with value-level application:
failures coincide, and on success the written store reads back as the
value-level result, with all reference bookkeeping preserved. -/
theorem applyS_spec (s : Store) (rs : List ℕ) (f : FilterSettings)
    (hval : ∀ r ∈ rs, r < s.length) (hnd : rs.Nodup)
    (hlen : rs.length = 2 ∨ rs.length = 3) :
    (applyS s rs f = none ↔ filters.apply (readD s rs) f = none) ∧
    ∀ out, applyS s rs f = some out →
      filters.apply (readD s rs) f = some (readD out.1 out.2) ∧
      WBpost s rs (readD out.1 out.2) out := by
  constructor
  · simp [applyS, Option.map_eq_none']
  · intro out hout
    obtain ⟨dv', happ, hrw⟩ := Option.map_eq_some'.mp hout
    have hwok := apply_wbOK (readD s rs) f dv' happ
    rcases hlen with hlen | hlen
    · obtain ⟨a, b, rfl⟩ := List.length_eq_two.mp hlen
      have hab : a ≠ b := by simpa using hnd
      have harity : (readD s [a, b]).arity = 2 := rfl
      rw [harity] at hwok
      have hslot : ∀ i, wbMode f.name f.method 2 = WB.slotInPlace i → i < 2 := by
        intro i hi
        rcases wbMode_slot_lt _ _ _ _ hi with h | ⟨_, h⟩
        · exact h
        · omega
      have hpost := runWB_spec_two s a b (wbMode f.name f.method 2) dv'
        (hval a (by simp)) (hval b (by simp)) hab hslot hwok
      have hrw2 : runWB s [a, b] (wbMode f.name f.method 2) dv' = out := hrw
      rw [hrw2] at hpost
      rw [hpost.read_eq]
      exact ⟨happ, hpost⟩
    · obtain ⟨a, b, c, rfl⟩ := List.length_eq_three.mp hlen
      have hnd' : a ≠ b ∧ a ≠ c ∧ b ≠ c := by
        constructor
        · simp only [List.nodup_cons, List.mem_cons] at hnd
          intro hh
          exact hnd.1 (Or.inl hh)
        constructor
        · simp only [List.nodup_cons, List.mem_cons] at hnd
          intro hh
          exact hnd.1 (Or.inr (Or.inl hh))
        · simp only [List.nodup_cons, List.mem_cons] at hnd
          intro hh
          exact hnd.2.1 (Or.inl hh)
      have harity : (readD s [a, b, c]).arity = 3 := rfl
      rw [harity] at hwok
      have hslot : ∀ i, wbMode f.name f.method 3 = WB.slotInPlace i → i < 3 := by
        intro i hi
        rcases wbMode_slot_lt _ _ _ _ hi with h | ⟨h, _⟩
        · omega
        · omega
      have hpost := runWB_spec_three s a b c (wbMode f.name f.method 3) dv'
        (hval a (by simp)) (hval b (by simp)) (hval c (by simp))
        hnd'.1 hnd'.2.1 hnd'.2.2 hslot hwok
      have hrw2 : runWB s [a, b, c] (wbMode f.name f.method 3) dv' = out := hrw
      rw [hrw2] at hpost
      rw [hpost.read_eq]
      exact ⟨happ, hpost⟩

/-! ## The pipeline lemmas -/

theorem run_spec_fold (fs : List FilterSettings) :
    ∀ o : Option DataV, fs.foldl specStep o = o.bind (fun d => run_spec d fs) := by
  induction fs with
  | nil => intro o; cases o <;> simp [run_spec]
  | cons f fs ih =>
    intro o
    show fs.foldl specStep (specStep o f) = _
    rw [ih (specStep o f)]
    cases o with
    | none => simp [specStep]
    | some d =>
      simp only [specStep, Option.some_bind, Option.bind_eq_bind]
      rw [show run_spec d (f :: fs) = fs.foldl specStep (specStep (some d) f) from rfl]
      rw [ih (specStep (some d) f)]
      simp [specStep]

theorem run_spec_cons (dv : DataV) (f : FilterSettings) (fs : List FilterSettings) :
    run_spec dv (f :: fs) =
      (if f.checked ≠ 0 then filters.apply dv f else some dv).bind (fun d => run_spec d fs) := by
  show fs.foldl specStep (specStep (some dv) f) = _
  rw [run_spec_fold fs (specStep (some dv) f)]
  simp [specStep]

theorem run_spec_unchecked (dv : DataV) (fs : List FilterSettings)
    (h : ∀ f ∈ fs, f.checked = 0) : run_spec dv fs = some dv := by
  induction fs with
  | nil => rfl
  | cons f fs ih =>
    rw [run_spec_cons]
    have h0 := h f (by simp)
    rw [if_neg (by simp [h0]), Option.some_bind]
    exact ih (fun g hg => h g (by simp [hg]))

/-- The filter loop simulates the spec-level left fold and never touches
store entries outside the processed references. -/
theorem runFiltersS_spec (fs : List FilterSettings) : ∀ (s : Store) (rs : List ℕ),
    (∀ r ∈ rs, r < s.length) → rs.Nodup → (rs.length = 2 ∨ rs.length = 3) →
    ((runFiltersS s rs fs).2.map (readD (runFiltersS s rs fs).1) = run_spec (readD s rs) fs)
    ∧ s.length ≤ (runFiltersS s rs fs).1.length
    ∧ ∀ r, r < s.length → r ∉ rs → readA (runFiltersS s rs fs).1 r = readA s r := by
  induction fs with
  | nil =>
    intro s rs hval hnd hlen
    exact ⟨rfl, Nat.le_refl _, fun r _ _ => rfl⟩
  | cons f fs ih =>
    intro s rs hval hnd hlen
    by_cases hch : f.checked = 0
    · have hskip : runFiltersS s rs (f :: fs) = runFiltersS s rs fs := by
        simp [runFiltersS, hch]
      rw [hskip, run_spec_cons]
      have hstep : (if f.checked ≠ 0 then filters.apply (readD s rs) f else some (readD s rs))
          = some (readD s rs) := by simp [hch]
      rw [hstep, Option.some_bind]
      exact ih s rs hval hnd hlen
    · have hrun : runFiltersS s rs (f :: fs) =
          (match applyS s rs f with
           | none => (s, none)
           | some (s', rs') => runFiltersS s' rs' fs) := by
        simp [runFiltersS, hch]
      have hspec := applyS_spec s rs f hval hnd hlen
      rw [run_spec_cons]
      have hstep : (if f.checked ≠ 0 then filters.apply (readD s rs) f else some (readD s rs))
          = filters.apply (readD s rs) f := by simp [hch]
      rw [hstep]
      cases happ : applyS s rs f with
      | none =>
        have : filters.apply (readD s rs) f = none := (hspec.1).mp happ
        rw [hrun, happ, this]
        exact ⟨rfl, Nat.le_refl _, fun r _ _ => rfl⟩
      | some out =>
        obtain ⟨s', rs'⟩ := out
        obtain ⟨happly, hpost⟩ := hspec.2 _ happ
        rw [hrun, happ, happly, Option.some_bind]
        have hih := ih s' rs' hpost.valid hpost.nodup (by rw [hpost.len_eq]; exact hlen)
        rw [hpost.read_eq] at hih
        refine ⟨hih.1, Nat.le_trans hpost.grow hih.2.1, ?_⟩
        intro r hr hnr
        have hr' : r < s'.length := Nat.lt_of_lt_of_le hr hpost.grow
        have hnr' : r ∉ rs' := by
          intro hmem
          rcases hpost.sub r hmem with hin | hge
          · exact hnr hin
          · omega
        rw [hih.2.2 r hr' hnr', hpost.frame r hr hnr]

/-- The copies made by `processed_to_raw` are fresh, distinct, read back as
the raw tuple, and leave the existing store untouched. -/
theorem processed_to_raw_spec (s : Store) (raw : List ℕ)
    (hlen : raw.length = 2 ∨ raw.length = 3) :
    (processed_to_raw s raw).2.length = raw.length ∧
    (∀ r ∈ (processed_to_raw s raw).2, r < (processed_to_raw s raw).1.length) ∧
    (processed_to_raw s raw).2.Nodup ∧
    readD (processed_to_raw s raw).1 (processed_to_raw s raw).2 = readD s raw ∧
    (∀ r, r < s.length → readA (processed_to_raw s raw).1 r = readA s r) ∧
    (∀ r ∈ (processed_to_raw s raw).2, s.length ≤ r) := by
  rcases hlen with hlen | hlen
  · obtain ⟨a, b, rfl⟩ := List.length_eq_two.mp hlen
    refine ⟨rfl, ?_, ?_, ?_, ?_, ?_⟩
    · intro r hr
      show r < (s ++ [readA s a, readA s b]).length
      have hl : (s ++ [readA s a, readA s b]).length = s.length + 2 := by simp
      rw [hl]
      rcases (by simpa using (show r ∈ [s.length + 0, s.length + 1] from hr) :
        r = s.length + 0 ∨ r = s.length + 1) with rfl | rfl <;> omega
    · show List.Nodup [s.length + 0, s.length + 1]
      simp
    · show DataV.d1 (readA (s ++ [readA s a, readA s b]) (s.length + 0)).toV
          (readA (s ++ [readA s a, readA s b]) (s.length + 1)).toV
          = DataV.d1 (readA s a).toV (readA s b).toV
      rw [readA_append_right (Nat.le_add_right _ _), readA_append_right (Nat.le_add_right _ _),
        Nat.add_sub_cancel_left, Nat.add_sub_cancel_left]
      rfl
    · intro r hr
      exact readA_append_left hr
    · intro r hr
      rcases (by simpa using (show r ∈ [s.length + 0, s.length + 1] from hr) :
        r = s.length + 0 ∨ r = s.length + 1) with rfl | rfl <;> omega
  · obtain ⟨a, b, c, rfl⟩ := List.length_eq_three.mp hlen
    refine ⟨rfl, ?_, ?_, ?_, ?_, ?_⟩
    · intro r hr
      show r < (s ++ [readA s a, readA s b, readA s c]).length
      have hl : (s ++ [readA s a, readA s b, readA s c]).length = s.length + 3 := by simp
      rw [hl]
      rcases (by simpa using
          (show r ∈ [s.length + 0, s.length + 1, s.length + 2] from hr) :
        r = s.length + 0 ∨ r = s.length + 1 ∨ r = s.length + 2) with rfl | rfl | rfl <;> omega
    · show List.Nodup [s.length + 0, s.length + 1, s.length + 2]
      simp
    · show DataV.d2 (readA (s ++ [readA s a, readA s b, readA s c]) (s.length + 0)).toM
          (readA (s ++ [readA s a, readA s b, readA s c]) (s.length + 1)).toM
          (readA (s ++ [readA s a, readA s b, readA s c]) (s.length + 2)).toM
          = DataV.d2 (readA s a).toM (readA s b).toM (readA s c).toM
      rw [readA_append_right (Nat.le_add_right _ _), readA_append_right (Nat.le_add_right _ _),
        readA_append_right (Nat.le_add_right _ _),
        Nat.add_sub_cancel_left, Nat.add_sub_cancel_left, Nat.add_sub_cancel_left]
      rfl
    · intro r hr
      exact readA_append_left hr
    · intro r hr
      rcases (by simpa using
          (show r ∈ [s.length + 0, s.length + 1, s.length + 2] from hr) :
        r = s.length + 0 ∨ r = s.length + 1 ∨ r = s.length + 2) with rfl | rfl | rfl <;> omega

/-! ## Pipeline claims -/

/-- C1: with no metadata-driven unit corrections in effect,
`apply_all_filters` computes the processed data as a left fold: it starts
from an element-wise copy of the raw arrays and, for each filter instance
in list order whose `'Checked'` flag is truthy, replaces the working tuple
with that filter's transform output; unchecked instances leave the working
tuple unchanged, and a list in which every filter is disabled yields a copy
of the raw data. -/
theorem C1_apply_all_filters_is_left_fold (s : Store) (raw : List ℕ)
    (fs : List FilterSettings) (hlen : raw.length = 2 ∨ raw.length = 3) :
    run_value s raw fs = run_spec (readD s raw) fs ∧
    ((∀ f ∈ fs, f.checked = 0) → run_value s raw fs = some (readD s raw)) := by
  obtain ⟨hplen, hpval, hpnd, hpread, hpframe, hpfresh⟩ := processed_to_raw_spec s raw hlen
  have hlen2 : (processed_to_raw s raw).2.length = 2 ∨ (processed_to_raw s raw).2.length = 3 := by
    rw [hplen]; exact hlen
  have hr := runFiltersS_spec fs (processed_to_raw s raw).1 (processed_to_raw s raw).2
    hpval hpnd hlen2
  have hdef : apply_all_filters s raw fs =
      runFiltersS (processed_to_raw s raw).1 (processed_to_raw s raw).2 fs := rfl
  have hfold : run_value s raw fs = run_spec (readD s raw) fs := by
    show (apply_all_filters s raw fs).2.map (readD (apply_all_filters s raw fs).1) = _
    rw [hdef]
    rw [hr.1, hpread]
  refine ⟨hfold, ?_⟩
  intro hall
  rw [hfold, run_spec_unchecked _ _ hall]

/-- C2: a full pipeline run leaves the raw data arrays unchanged — the run
works only on the fresh copies made by `processed_to_raw`, so every raw
array reads back identically after the run, including runs in which a
transform application fails partway through the list (the final store is
returned even when the loop aborts with an exception). -/
theorem C2_apply_all_filters_preserves_raw (s : Store) (raw : List ℕ)
    (fs : List FilterSettings) (hlen : raw.length = 2 ∨ raw.length = 3)
    (r : ℕ) (hr : r ∈ raw) (hlt : r < s.length) :
    readA (apply_all_filters s raw fs).1 r = readA s r := by
  obtain ⟨hplen, hpval, hpnd, hpread, hpframe, hpfresh⟩ := processed_to_raw_spec s raw hlen
  have hlen2 : (processed_to_raw s raw).2.length = 2 ∨ (processed_to_raw s raw).2.length = 3 := by
    rw [hplen]; exact hlen
  have hrun := runFiltersS_spec fs (processed_to_raw s raw).1 (processed_to_raw s raw).2
    hpval hpnd hlen2
  have hgrow : s.length ≤ (processed_to_raw s raw).1.length := by
    show s.length ≤ (s ++ (raw.map (readA s))).length
    simp
  have hdef : apply_all_filters s raw fs =
      runFiltersS (processed_to_raw s raw).1 (processed_to_raw s raw).2 fs := rfl
  rw [hdef]
  have hnr : r ∉ (processed_to_raw s raw).2 := by
    intro hm
    have := hpfresh r hm
    omega
  rw [hrun.2.2 r (Nat.lt_of_lt_of_le hlt hgrow) hnr]
  exact hpframe r hlt

/-- Concrete store and filter instances for the pipeline witnesses. -/
def storeW : Store := [Arr.v (plainV [0, 1]), Arr.v (plainV [5, 6])]

def filtW : FilterSettings :=
  { name := "Offset", method := "X", setting1 := "1", setting2 := "", checked := 2 }

def filtWoff : FilterSettings :=
  { name := "Offset", method := "X", setting1 := "1", setting2 := "", checked := 0 }

theorem C1_witness :
    (([0, 1] : List ℕ).length = 2 ∨ ([0, 1] : List ℕ).length = 3) ∧
    run_value storeW [0, 1] [filtW, filtWoff] = run_spec (readD storeW [0, 1]) [filtW, filtWoff] ∧
    run_value storeW [0, 1] [filtW, filtWoff]
      = some (DataV.d1 (plainV [1, 2]) (plainV [5, 6])) :=
  ⟨Or.inl rfl,
   (C1_apply_all_filters_is_left_fold storeW [0, 1] [filtW, filtWoff] (Or.inl rfl)).1,
   by decide⟩

theorem C2_witness :
    ((([0, 1] : List ℕ).length = 2 ∨ ([0, 1] : List ℕ).length = 3) ∧ 0 ∈ [0, 1] ∧
      0 < storeW.length) ∧
    readA (apply_all_filters storeW [0, 1] [filtW]).1 0 = readA storeW 0 :=
  ⟨⟨Or.inl rfl, by decide, by decide⟩,
   C2_apply_all_filters_preserves_raw storeW [0, 1] [filtW] (Or.inl rfl) 0 (by decide) (by decide)⟩

/-! ## Value-level claims -/

/-- C10: on 2-array (1-D) data the filters Roll X, Roll Y, Cut X, Cut Y,
Crop Y and Subtract return the tuple unchanged for every method and all
settings — each is guarded by `len(data) == 3` and, on 1-D data, returns
without even parsing its settings. -/
theorem C10_filters_ignore_1d (x z : Vec) (m s1 s2 : String) :
    filters.roll_x (.d1 x z) m s1 s2 = some (.d1 x z) ∧
    filters.roll_y (.d1 x z) m s1 s2 = some (.d1 x z) ∧
    filters.cut_x (.d1 x z) m s1 s2 = some (.d1 x z) ∧
    filters.cut_y (.d1 x z) m s1 s2 = some (.d1 x z) ∧
    filters.crop_y (.d1 x z) m s1 s2 = some (.d1 x z) ∧
    filters.subtract_trace (.d1 x z) m s1 s2 = some (.d1 x z) :=
  ⟨rfl, rfl, rfl, rfl, rfl, rfl⟩

/-- C8 counterexample: `Offset` with the unparseable setting `"abc"` and
method `'Z'` on a 2-array tuple does not fail — the source's guard
`method == 'Z' and len(data) == 3` short-circuits before `float('abc')` is
evaluated, so the data is returned unchanged.  This refutes the claim that
the failure occurs for every axis tuple and every method. -/
theorem C8_counterexample :
    filters.offset (DataV.d1 (plainV [1]) (plainV [2])) "Z" "abc" "" =
      some (DataV.d1 (plainV [1]) (plainV [2])) := by decide

/-- C8 (amended): `Offset` with the unparseable setting `"abc"` fails (the
parse error surfaces as `none` rather than a silently applied default) for
methods `'X'` and `'Y'` on every tuple and for `'Z'` on every 3-array
tuple; on a 2-array tuple with method `'Z'` the setting is never parsed and
the data is returned unchanged. -/
theorem C8_offset_unparseable (dv : DataV) (s2 : String) :
    filters.offset dv "X" "abc" s2 = none ∧
    filters.offset dv "Y" "abc" s2 = none ∧
    (∀ x y z : Mat, filters.offset (.d2 x y z) "Z" "abc" s2 = none) ∧
    (∀ x z : Vec, filters.offset (.d1 x z) "Z" "abc" s2 = some (.d1 x z)) := by
  refine ⟨rfl, ?_, fun x y z => rfl, fun x z => rfl⟩
  cases dv <;> rfl

/-- The conductance quantum in the source's units:
`0.0258128 = 258128/10^7 = 16133/625000`. -/
def e2hConst : ℚ := Rat.divInt 16133 625000

/-- C7 counterexample: `Multiply` with `setting_1 = "e^2/h"` does not
succeed — no alias resolution exists in `filters.py` or `main.py`, so
`float("e^2/h")` raises and the application fails. -/
theorem C7_counterexample :
    filters.mulitply (DataV.d2 (plainM [[1]]) (plainM [[1]]) (plainM [[2]])) "Z" "e^2/h" "" =
      none := by decide

/-- C7 (amended): `Multiply` with the literal string `"e^2/h"` fails with a
parse error for every method on 3-array tuples and for `'X'`/`'Y'` on
2-array tuples (`'Z'` on a 2-array tuple skips both the parse and the
scaling); the conductance-quantum conversion is instead performed by
`meta_unit_conversion`, which appends a `Multiply` filter whose setting is
the numeric string `'%.6g' % 0.0258128 = "0.0258128"` — and `Multiply`
with that setting scales the selected array by exactly `0.0258128`. -/
theorem C7_multiply_conductance_quantum (s2 : String) :
    (∀ x y z : Mat,
      filters.mulitply (.d2 x y z) "X" "0.0258128" s2 = some (.d2 (matMulC x e2hConst) y z) ∧
      filters.mulitply (.d2 x y z) "Y" "0.0258128" s2 = some (.d2 x (matMulC y e2hConst) z) ∧
      filters.mulitply (.d2 x y z) "Z" "0.0258128" s2 = some (.d2 x y (matMulC z e2hConst)) ∧
      filters.mulitply (.d2 x y z) "X" "e^2/h" s2 = none ∧
      filters.mulitply (.d2 x y z) "Y" "e^2/h" s2 = none ∧
      filters.mulitply (.d2 x y z) "Z" "e^2/h" s2 = none) ∧
    (∀ x z : Vec,
      filters.mulitply (.d1 x z) "X" "0.0258128" s2 = some (.d1 (vecMulC x e2hConst) z) ∧
      filters.mulitply (.d1 x z) "Y" "0.0258128" s2 = some (.d1 x (vecMulC z e2hConst)) ∧
      filters.mulitply (.d1 x z) "Z" "0.0258128" s2 = some (.d1 x z) ∧
      filters.mulitply (.d1 x z) "X" "e^2/h" s2 = none ∧
      filters.mulitply (.d1 x z) "Y" "e^2/h" s2 = none ∧
      filters.mulitply (.d1 x z) "Z" "e^2/h" s2 = some (.d1 x z)) :=
  ⟨fun x y z => ⟨rfl, rfl, rfl, rfl, rfl, rfl⟩,
   fun x z => ⟨rfl, rfl, rfl, rfl, rfl, rfl⟩⟩

/-- C4 counterexample: on `X = [0..5]`, `Z = [0,10,...,50]`, Crop X
`Absolute` with settings `"1"`, `"3"` does not produce the length-3 arrays
`[1,2,3]` / `[10,20,30]` — the 1-D branch of `filters.crop_x` only wraps
both arrays as masked arrays, keeping their full length. -/
theorem C4_counterexample :
    filters.crop_x (DataV.d1 (plainV [0, 1, 2, 3, 4, 5]) (plainV [0, 10, 20, 30, 40, 50]))
        "Absolute" "1" "3"
      ≠ some (DataV.d1 (plainV [1, 2, 3]) (plainV [10, 20, 30])) := by decide

/-- C4 (amended): on that input Crop X `Absolute` `"1"`,`"3"` yields masked
arrays of the original length 6 whose masks flag exactly the samples with
X outside `[1, 3]`; the unmasked (compressed) samples are `[1, 2, 3]` and
`[10, 20, 30]`. -/
theorem C4_crop1d_masks :
    filters.crop_x (DataV.d1 (plainV [0, 1, 2, 3, 4, 5]) (plainV [0, 10, 20, 30, 40, 50]))
        "Absolute" "1" "3"
      = some (DataV.d1
          [(0, true), (1, false), (2, false), (3, false), (4, true), (5, true)]
          [(0, true), (10, false), (20, false), (30, false), (40, true), (50, true)]) ∧
    unmaskedV [((0 : ℚ), true), (1, false), (2, false), (3, false), (4, true), (5, true)]
      = [1, 2, 3] ∧
    unmaskedV [((0 : ℚ), true), (10, false), (20, false), (30, false), (40, true), (50, true)]
      = [10, 20, 30] := by
  refine ⟨by decide, by decide, by decide⟩

/-- C9 counterexample: the transform functions are not pure — `Offset`
with method `'X'` executes `data[0] += float(setting1)`, an in-place numpy
update, so after the call the caller's input array holds different values.
Concretely: with the X array holding `[0]` before the call, it holds `[1]`
after. -/
theorem C9_counterexample :
    applyS [Arr.v (plainV [0]), Arr.v (plainV [5])] [0, 1]
        { name := "Offset", method := "X", setting1 := "1", setting2 := "", checked := 2 }
      = some ([Arr.v (plainV [1]), Arr.v (plainV [5])], [0, 1]) ∧
    readA [Arr.v (plainV [1]), Arr.v (plainV [5])] 0
      ≠ readA [Arr.v (plainV [0]), Arr.v (plainV [5])] 0 := by
  refine ⟨by decide, by decide⟩

/-- C9 (amended): transform functions are deterministic (they are functions
of the tuple, method and settings) but not pure: the in-place arithmetic
filters write through to the arrays of the tuple they receive.  Offset with
method `'X'` on a 2-array tuple adds the parsed constant to the caller's X
buffer itself: the store after the call holds `x + c` at the X reference,
and the references of the data list are unchanged.  The pipeline is
unaffected because every run first copies the raw arrays
(`processed_to_raw`). -/
theorem C9_offset_mutates_in_place (s : Store) (a b : ℕ) (xv zv : Vec) (c : ℚ)
    (s1 s2 : String) (ch : Int)
    (ha : readA s a = Arr.v xv) (hb : readA s b = Arr.v zv)
    (hav : a < s.length) (hp : PyStr.parseFloat? s1 = some c) :
    applyS s [a, b]
        { name := "Offset", method := "X", setting1 := s1, setting2 := s2, checked := ch }
      = some (writeA s a (Arr.v (vecAddC xv c)), [a, b]) ∧
    readA (writeA s a (Arr.v (vecAddC xv c))) a = Arr.v (vecAddC xv c) := by
  constructor
  · have hread : readD s [a, b] = DataV.d1 xv zv := by
      show DataV.d1 (readA s a).toV (readA s b).toV = DataV.d1 xv zv
      rw [ha, hb]
      rfl
    simp only [applyS, hread]
    have happ : filters.apply (DataV.d1 xv zv)
        { name := "Offset", method := "X", setting1 := s1, setting2 := s2, checked := ch }
        = some (DataV.d1 (vecAddC xv c) zv) := by
      show filters.offset (DataV.d1 xv zv) "X" s1 s2 = some (DataV.d1 (vecAddC xv c) zv)
      simp [filters.offset, filters.offSlot0, hp]
    rw [happ]
    rfl
  · exact readA_writeA_self hav

theorem C9_witness :
    (readA [Arr.v (plainV [0]), Arr.v (plainV [5])] 0 = Arr.v (plainV [0]) ∧
     readA [Arr.v (plainV [0]), Arr.v (plainV [5])] 1 = Arr.v (plainV [5]) ∧
     0 < ([Arr.v (plainV [0]), Arr.v (plainV [5])] : Store).length ∧
     PyStr.parseFloat? "1" = some 1) ∧
    applyS [Arr.v (plainV [0]), Arr.v (plainV [5])] [0, 1]
        { name := "Offset", method := "X", setting1 := "1", setting2 := "", checked := 2 }
      = some (writeA [Arr.v (plainV [0]), Arr.v (plainV [5])] 0 (Arr.v (vecAddC (plainV [0]) 1)),
          [0, 1]) :=
  ⟨⟨rfl, rfl, by decide, by decide⟩,
   (C9_offset_mutates_in_place [Arr.v (plainV [0]), Arr.v (plainV [5])] 0 1
      (plainV [0]) (plainV [5]) 1 "1" "" 2 rfl rfl (by decide) (by decide)).1⟩

/-! ## Slice lemmas and the cut claims -/

theorem pyIdx_nonneg (n : ℕ) (i : ℤ) (h0 : 0 ≤ i) : pyIdx n i = min i.toNat n := by
  simp [pyIdx, Int.not_lt.mpr h0]

theorem pySliceTo_nonneg (xs : List α) (l : ℤ) (h0 : 0 ≤ l) (h : l.toNat ≤ xs.length) :
    pySliceTo xs l = xs.take l.toNat := by
  show xs.take (pyIdx xs.length l) = _
  rw [pyIdx_nonneg _ _ h0, Nat.min_eq_left h]

theorem pySliceFrom_nonneg (xs : List α) (a : ℤ) (h0 : 0 ≤ a) (h : a.toNat ≤ xs.length) :
    pySliceFrom xs a = xs.drop a.toNat := by
  show xs.drop (pyIdx xs.length a) = _
  rw [pyIdx_nonneg _ _ h0, Nat.min_eq_left h]

theorem pySlice_nonneg (xs : List α) (l w : ℤ) (h0 : 0 ≤ l) (h1 : 0 ≤ w)
    (h : l.toNat + w.toNat ≤ xs.length) :
    pySlice xs l (l + w) = (xs.drop l.toNat).take w.toNat := by
  show (xs.drop (pyIdx xs.length l)).take (pyIdx xs.length (l + w) - pyIdx xs.length l) = _
  rw [pyIdx_nonneg _ _ h0, pyIdx_nonneg _ _ (by omega)]
  rw [Nat.min_eq_left (by omega), Nat.min_eq_left (by omega)]
  congr 1
  omega

theorem cut_x_eq (x y z : Mat) (mth ls ws : String) (l w : ℤ)
    (hl : PyStr.parseInt? ls = some l) (hw : PyStr.parseInt? ws = some w) :
    filters.cut_x (.d2 x y z) mth ls ws
      = some (.d2 x y (pySliceTo z l ++ pySliceFrom z (l + w) ++ pySlice z l (l + w))) := by
  simp [filters.cut_x, hl, hw]

theorem cut_y_eq (x y z : Mat) (mth ls ws : String) (l w : ℤ)
    (hl : PyStr.parseInt? ls = some l) (hw : PyStr.parseInt? ws = some w) :
    filters.cut_y (.d2 x y z) mth ls ws
      = some (.d2 x y (z.map (fun row =>
          pySliceTo row l ++ pySliceFrom row (l + w) ++ pySlice row l (l + w)))) := by
  simp [filters.cut_y, hl, hw]

/-- C6 counterexample: Cut X does not remove the selected slab and swap the
two remaining pieces.  On the 3-row dependent array `[[10],[11],[12]]` with
start `1` and width `1`, such a removal-plus-swap would give a 2-row result
`[[12],[10]]`; the source (`np.vstack((part1,part3,part2))`) instead keeps
the remaining pieces in order and appends the slab at the end, producing the
3-row array `[[10],[12],[11]]`. -/
theorem C6_counterexample :
    filters.cut_x
        (DataV.d2 (plainM [[0], [1], [2]]) (plainM [[0], [0], [0]]) (plainM [[10], [11], [12]]))
        "Index" "1" "1"
      = some (DataV.d2 (plainM [[0], [1], [2]]) (plainM [[0], [0], [0]])
          (plainM [[10], [12], [11]])) ∧
    (plainM [[10], [12], [11]] : Mat) ≠ plainM [[12], [10]] := by
  exact ⟨by decide, by decide⟩

/-- C6 (amended): on 3-element data, Cut X with parsed start `l ≥ 0` and
width `w ≥ 0` such that `l + w` is within the row count moves the slab of
`w` rows starting at row `l` of the dependent array to the end: the result
is `rows[:l] ++ rows[l+w:] ++ rows[l:l+w]`, the remaining pieces keep their
order, nothing is removed (the row count is preserved), and the coordinate
arrays are unchanged.  Cut Y does the same to the columns, i.e. within each
row. -/
theorem C6_cut_moves_slab (x y z : Mat) (mth ls ws : String) (l w : ℤ)
    (hl : PyStr.parseInt? ls = some l) (hw : PyStr.parseInt? ws = some w)
    (h0 : 0 ≤ l) (h1 : 0 ≤ w) :
    (l.toNat + w.toNat ≤ z.length →
      filters.cut_x (.d2 x y z) mth ls ws =
        some (.d2 x y (z.take l.toNat ++ z.drop (l.toNat + w.toNat)
          ++ (z.drop l.toNat).take w.toNat)) ∧
      (z.take l.toNat ++ z.drop (l.toNat + w.toNat)
          ++ (z.drop l.toNat).take w.toNat).length = z.length) ∧
    ((∀ row ∈ z, l.toNat + w.toNat ≤ row.length) →
      filters.cut_y (.d2 x y z) mth ls ws =
        some (.d2 x y (z.map (fun row => row.take l.toNat ++ row.drop (l.toNat + w.toNat)
          ++ (row.drop l.toNat).take w.toNat)))) := by
  constructor
  · intro hle
    constructor
    · rw [cut_x_eq x y z mth ls ws l w hl hw]
      rw [pySliceTo_nonneg _ _ h0 (by omega), pySliceFrom_nonneg _ _ (by omega) (by omega),
        pySlice_nonneg _ _ _ h0 h1 hle]
      rw [show (l + w).toNat = l.toNat + w.toNat from by omega]
    · simp only [List.length_append, List.length_take, List.length_drop]
      omega
  · intro hrow
    rw [cut_y_eq x y z mth ls ws l w hl hw]
    have hmap : z.map (fun row =>
        pySliceTo row l ++ pySliceFrom row (l + w) ++ pySlice row l (l + w))
        = z.map (fun row => row.take l.toNat ++ row.drop (l.toNat + w.toNat)
          ++ (row.drop l.toNat).take w.toNat) := by
      apply List.map_congr_left
      intro row hr
      have hle := hrow row hr
      rw [pySliceTo_nonneg _ _ h0 (by omega), pySliceFrom_nonneg _ _ (by omega) (by omega),
        pySlice_nonneg _ _ _ h0 h1 hle]
      rw [show (l + w).toNat = l.toNat + w.toNat from by omega]
    rw [hmap]

/-- C6 witness: the amended cut theorem applied at the counterexample input,
with every hypothesis discharged at concrete values. -/
theorem C6_witness :
    filters.cut_x
        (DataV.d2 (plainM [[0], [1], [2]]) (plainM [[0], [0], [0]]) (plainM [[10], [11], [12]]))
        "Index" "1" "1"
      = some (DataV.d2 (plainM [[0], [1], [2]]) (plainM [[0], [0], [0]])
          (plainM [[10], [12], [11]])) := by
  have h := (C6_cut_moves_slab (plainM [[0], [1], [2]]) (plainM [[0], [0], [0]])
      (plainM [[10], [11], [12]]) "Index" "1" "1" 1 1 (by decide) (by decide)
      (by decide) (by decide)).1 (by decide)
  exact h.1.trans (by decide)

/-! ## Shape lemmas for the derivative claim -/

theorem gradCompute_length (xs fs : List ℚ) : (gradCompute xs fs).length = fs.length := by
  simp [gradCompute]

theorem shapeOfL_valsM (m : Mat) : shapeOfL (valsM m) = shapeOfL m := by
  simp [shapeOfL, valsM, valsV, List.map_map, Function.comp]

theorem shapeOfL_plainM (g : List (List ℚ)) : shapeOfL (plainM g) = shapeOfL g := by
  simp [shapeOfL, plainM, plainV, List.map_map, Function.comp]

theorem all_length_map (rs : List (List α)) (L : ℕ) :
    (rs.all fun r => r.length == L) = (rs.map List.length).all (fun l => l == L) := by
  induction rs with
  | nil => rfl
  | cons r rs ih => simp only [List.all_cons, List.map_cons, ih]

theorem rectB_shape (m : List (List α)) :
    rectB m = (shapeOfL m).all (fun l => l == (shapeOfL m).headD 0) := by
  cases m with
  | nil => simp [rectB, shapeOfL]
  | cons r rs =>
    simp only [rectB, shapeOfL, List.all_cons, List.map_cons, List.headD_cons, beq_self_eq_true,
      Bool.true_and]
    exact all_length_map rs r.length

theorem rectB_of_shape (a : List (List α)) (b : List (List β))
    (h : shapeOfL a = shapeOfL b) : rectB a = rectB b := by
  rw [rectB_shape, rectB_shape, h]

theorem rectB_forall (m : List (List α)) (h : rectB m = true) :
    ∀ j, j < m.length → (m.getD j []).length = (m.headD []).length := by
  intro j hj
  rw [List.getD_eq_getElem _ _ hj]
  have hmem : m[j] ∈ m := List.getElem_mem hj
  have := (List.all_eq_true.mp h) _ hmem
  simpa using this

theorem gradientAxis1?_shape (yc : List ℚ) (z g : List (List ℚ))
    (h : gradientAxis1? yc z = some g) : shapeOfL g = shapeOfL z := by
  unfold gradientAxis1? at h
  split at h
  · simp at h
  · injection h with h
    subst h
    simp only [shapeOfL, List.map_map]
    apply List.map_congr_left
    intro r hr
    exact gradCompute_length yc r

theorem gradientAxis0?_shape (xc : List ℚ) (z g : List (List ℚ))
    (hrect : rectB z = true) (h : gradientAxis0? xc z = some g) :
    shapeOfL g = shapeOfL z := by
  unfold gradientAxis0? at h
  dsimp only at h
  split at h
  · simp at h
  next hcond =>
  push_neg at hcond
  obtain ⟨hn2, hxlen⟩ := hcond
  injection h with h
  subst h
  have hL := rectB_forall z hrect
  apply List.ext_getElem
  · simp [shapeOfL]
  · intro i h1 h2
    have hi : i < z.length := by simpa [shapeOfL] using h2
    simp only [shapeOfL, List.getElem_map, List.getElem_range]
    have hzi : z[i].length = (z.headD []).length := by
      rw [← List.getD_eq_getElem z [] hi]
      exact hL i hi
    rw [hzi]
    by_cases h0 : i = 0
    · rw [if_pos h0]
      rw [List.length_zipWith, hL 0 (by omega), hL 1 (by omega)]
      omega
    · rw [if_neg h0]
      by_cases hlast : i = z.length - 1
      · rw [if_pos hlast]
        rw [List.length_zipWith, hL (z.length - 2) (by omega), hL (z.length - 1) (by omega)]
        omega
      · rw [if_neg hlast]
        rw [List.length_zipWith, List.length_zip,
          hL (i - 1) (by omega), hL i hi, hL (i + 1) (by omega)]
        omega

theorem gradientNU?_length (xs fs gs : List ℚ) (h : gradientNU? xs fs = some gs) :
    gs.length = fs.length := by
  unfold gradientNU? at h
  split at h
  · simp at h
  · injection h with h
    subst h
    exact gradCompute_length xs fs

theorem iterOpt_pres (P : α → Prop) (f : α → Option α)
    (hf : ∀ a b, P a → f a = some b → P b) :
    ∀ k a b, P a → iterOpt k f a = some b → P b := by
  intro k
  induction k with
  | zero =>
    intro a b hP h
    simp only [iterOpt] at h
    injection h with h
    exact h ▸ hP
  | succ k ih =>
    intro a b hP h
    simp only [iterOpt] at h
    cases hfa : f a with
    | none => rw [hfa] at h; simp at h
    | some a' =>
      rw [hfa] at h
      exact ih a' b (hf a a' hP hfa) h

theorem deriv2_stepX_shape (x zz zz' : Mat)
    (h : (do let xc ← col0? x
             (gradientAxis0? xc (valsM zz)).map plainM) = some zz')
    (hrect : rectB zz = true) :
    shapeOfL zz' = shapeOfL zz := by
  simp only [bind, Option.bind_eq_some, Option.map_eq_some'] at h
  obtain ⟨xc, hxc, g, hg, hz⟩ := h
  subst hz
  have hr : rectB (valsM zz) = true := by
    rw [rectB_of_shape (valsM zz) zz (shapeOfL_valsM zz)]
    exact hrect
  rw [shapeOfL_plainM, gradientAxis0?_shape xc (valsM zz) g hr hg, shapeOfL_valsM]

theorem deriv2_stepY_shape (y zz zz' : Mat)
    (h : (do let yc ← row0? y
             (gradientAxis1? yc (valsM zz)).map plainM) = some zz') :
    shapeOfL zz' = shapeOfL zz := by
  simp only [bind, Option.bind_eq_some, Option.map_eq_some'] at h
  obtain ⟨yc, hyc, g, hg, hz⟩ := h
  subst hz
  rw [shapeOfL_plainM, gradientAxis1?_shape yc (valsM zz) g hg, shapeOfL_valsM]

theorem derivative2_shape (x y z : Mat) (tx ty : ℤ) (zf : Mat)
    (hrect : rectB z = true) (h : filters.derivative2 x y z tx ty = some zf) :
    shapeOfL zf = shapeOfL z := by
  simp only [filters.derivative2, bind, Option.bind_eq_some] at h
  obtain ⟨z1, h1, h2⟩ := h
  have hstep1 : ∀ a b : Mat, shapeOfL a = shapeOfL z →
      (do let xc ← col0? x
          (gradientAxis0? xc (valsM a)).map plainM) = some b → shapeOfL b = shapeOfL z := by
    intro a b ha hb
    have hra : rectB a = true := by rw [rectB_of_shape a z ha]; exact hrect
    rw [deriv2_stepX_shape x a b hb hra]
    exact ha
  have h1' := iterOpt_pres (fun zz => shapeOfL zz = shapeOfL z) _ hstep1 tx.toNat z z1 rfl h1
  have hstep2 : ∀ a b : Mat, shapeOfL a = shapeOfL z →
      (do let yc ← row0? y
          (gradientAxis1? yc (valsM a)).map plainM) = some b → shapeOfL b = shapeOfL z := by
    intro a b ha hb
    rw [deriv2_stepY_shape y a b hb]
    exact ha
  exact iterOpt_pres (fun zz => shapeOfL zz = shapeOfL z) _ hstep2 ty.toNat z1 zf h1' h2

theorem derivative1_length (x : Vec) (ty : ℤ) (z zf : Vec)
    (h : iterOpt ty.toNat (fun zz => (gradientNU? (valsV x) (valsV zz)).map plainV) z = some zf) :
    zf.length = z.length := by
  have hstep : ∀ a b : Vec, a.length = z.length →
      (gradientNU? (valsV x) (valsV a)).map plainV = some b → b.length = z.length := by
    intro a b ha hb
    simp only [Option.map_eq_some'] at hb
    obtain ⟨g, hg, hb⟩ := hb
    subst hb
    have hgl := gradientNU?_length (valsV x) (valsV a) g hg
    calc (plainV g).length = g.length := by simp [plainV]
      _ = (valsV a).length := hgl
      _ = a.length := by simp [valsV]
      _ = z.length := ha
  exact iterOpt_pres (fun zz => zz.length = z.length) _ hstep ty.toNat z zf rfl h

/-- C5 counterexample: the Derivative filter does not trim any samples.  On
the 2×2 tuple with `x = [[0,0],[1,1]]`, `y = [[0,1],[0,1]]`,
`z = [[0,0],[2,2]]` and settings `times_x = 1`, `times_y = 0`, the output
dependent array is `[[2,2],[2,2]]` — the gradient of `z` along X — with
exactly the shape of the input, not strictly shorter along the
differentiated axis. -/
theorem C5_counterexample :
    filters.derivative
        (DataV.d2 (plainM [[0,0],[1,1]]) (plainM [[0,1],[0,1]]) (plainM [[0,0],[2,2]]))
        "Midpoint" "1" "0"
      = some (DataV.d2 (plainM [[0,0],[1,1]]) (plainM [[0,1],[0,1]]) (plainM [[2,2],[2,2]]))
    ∧ shapeOfL (plainM [[2,2],[2,2]] : Mat) = shapeOfL (plainM [[0,0],[2,2]] : Mat) := by
  exact ⟨by decide, by decide⟩

/-- C5 (amended): the Derivative filter differentiates the dependent array
with `np.gradient` (`times_x` times along axis 0 against `x[:,0]`, then
`times_y` times along axis 1 against `y[0,:]`; in the 2-array case
`times_y` times against `x`), dividing by the local coordinate spacing
through numpy's nonuniform-gradient formula.  Nothing is trimmed: whenever
the filter returns, the coordinate arrays are unchanged and the dependent
array keeps exactly its input shape (for rectangular 2-D input) resp. its
input length (1-D case). -/
theorem C5_derivative_preserves_shape (mth sx sy : String) :
    (∀ (x y z : Mat) (dv' : DataV), rectB z = true →
      filters.derivative (.d2 x y z) mth sx sy = some dv' →
      ∃ z', dv' = .d2 x y z' ∧ shapeOfL z' = shapeOfL z) ∧
    (∀ (x z : Vec) (dv' : DataV),
      filters.derivative (.d1 x z) mth sx sy = some dv' →
      ∃ z', dv' = .d1 x z' ∧ z'.length = z.length) := by
  constructor
  · intro x y z dv' hrect h
    simp only [filters.derivative, bind, Option.bind_eq_some, Option.map_eq_some'] at h
    obtain ⟨tx, htx, ty, hty, zf, hzf, hdv⟩ := h
    exact ⟨zf, hdv.symm, derivative2_shape x y z tx ty zf hrect hzf⟩
  · intro x z dv' h
    simp only [filters.derivative, bind, Option.bind_eq_some, Option.map_eq_some'] at h
    obtain ⟨tx, htx, ty, hty, zf, hzf, hdv⟩ := h
    exact ⟨zf, hdv.symm, derivative1_length x ty z zf hzf⟩

/-- C5 witness: the amended derivative theorem applied at the
counterexample's concrete 2×2 input, every hypothesis discharged there. -/
theorem C5_witness :
    ∃ z', (DataV.d2 (plainM [[0,0],[1,1]]) (plainM [[0,1],[0,1]]) (plainM [[2,2],[2,2]]))
        = DataV.d2 (plainM [[0,0],[1,1]]) (plainM [[0,1],[0,1]]) z'
      ∧ shapeOfL z' = shapeOfL (plainM [[0,0],[2,2]] : Mat) :=
  (C5_derivative_preserves_shape "Midpoint" "1" "0").1
    (plainM [[0,0],[1,1]]) (plainM [[0,1],[0,1]]) (plainM [[0,0],[2,2]])
    (DataV.d2 (plainM [[0,0],[1,1]]) (plainM [[0,1],[0,1]]) (plainM [[2,2],[2,2]]))
    (by decide) (by decide)

/-! ## Shape-consistency lemmas for crop, cut and interpolate -/

theorem maskWithV_length (r : Vec) (mr : List Bool) :
    (maskWithV r mr).length = min r.length mr.length := by
  simp [maskWithV]

theorem maskWithV_any (r : Vec) (mr : List Bool) (hr : ∀ c ∈ r, c.2 = false) :
    (maskWithV r mr).any (·.2) = (mr.take r.length).any id := by
  induction r generalizing mr with
  | nil => simp [maskWithV]
  | cons c cs ih =>
    cases mr with
    | nil => simp [maskWithV]
    | cons bm bs =>
      simp only [maskWithV, List.zipWith_cons_cons, List.any_cons, List.take_cons,
        hr c (by simp), Bool.false_or]
      rw [← maskWithV, ih bs (fun c' hc' => hr c' (by simp [hc']))]
      rfl

theorem compressRows_shape_eq (a b : Mat) (mask : List (List Bool))
    (hab : shapeOfL a = shapeOfL b)
    (hna : ∀ r ∈ a, ∀ c ∈ r, c.2 = false) (hnb : ∀ r ∈ b, ∀ c ∈ r, c.2 = false) :
    shapeOfL (compressRows (maskWithM a mask)) = shapeOfL (compressRows (maskWithM b mask)) := by
  induction a generalizing b mask with
  | nil =>
    have hb : b = [] := by cases b <;> simp_all [shapeOfL]
    subst hb
    rfl
  | cons ra as ih =>
    cases b with
    | nil => simp [shapeOfL] at hab
    | cons rb bs =>
      simp only [shapeOfL, List.map_cons, List.cons.injEq] at hab
      obtain ⟨hlen, habs⟩ := hab
      cases mask with
      | nil => rfl
      | cons mr ms =>
        have hany : (maskWithV ra mr).any (·.2) = (maskWithV rb mr).any (·.2) := by
          rw [maskWithV_any ra mr (fun c hc => hna ra (by simp) c hc),
            maskWithV_any rb mr (fun c hc => hnb rb (by simp) c hc), hlen]
        have ihr := ih bs ms habs
          (fun r hr c hc => hna r (by simp [hr]) c hc)
          (fun r hr c hc => hnb r (by simp [hr]) c hc)
        show shapeOfL ((maskWithV ra mr :: maskWithM as ms).filter (fun row => !row.any (·.2)))
          = shapeOfL ((maskWithV rb mr :: maskWithM bs ms).filter (fun row => !row.any (·.2)))
        have hcond : (!(maskWithV rb mr).any (·.2)) = (!(maskWithV ra mr).any (·.2)) := by
          rw [hany]
        simp only [List.filter_cons, hcond]
        cases hk : (!(maskWithV ra mr).any (·.2)) with
        | false =>
          rw [if_neg Bool.false_ne_true, if_neg Bool.false_ne_true]
          exact ihr
        | true =>
          rw [if_pos rfl, if_pos rfl]
          show (maskWithV ra mr).length :: shapeOfL (compressRows (maskWithM as ms))
            = (maskWithV rb mr).length :: shapeOfL (compressRows (maskWithM bs ms))
          rw [show (maskWithV ra mr).length = (maskWithV rb mr).length from by
            rw [maskWithV_length, maskWithV_length, hlen]]
          exact congrArg (List.cons (maskWithV rb mr).length) ihr

theorem maskWithV_getD_snd (r : Vec) (mr : List Bool) (hr : ∀ c ∈ r, c.2 = false) (j : ℕ) :
    ((maskWithV r mr).getD j ((0 : ℚ), false)).2
      = (decide (j < min r.length mr.length) && mr.getD j false) := by
  induction r generalizing mr j with
  | nil => simp [maskWithV]
  | cons c cs ih =>
    cases mr with
    | nil => simp [maskWithV]
    | cons bm bs =>
      cases j with
      | zero =>
        simp [maskWithV, hr c (by simp)]
      | succ j =>
        simp only [maskWithV, List.zipWith_cons_cons, List.getD_cons_succ]
        rw [← maskWithV, ih bs (fun c' hc' => hr c' (by simp [hc'])) j]
        simp only [List.length_cons, List.getD_cons_succ, Nat.succ_min_succ,
          Nat.succ_lt_succ_iff]

theorem maskWithM_bad_eq (a b : Mat) (mask : List (List Bool))
    (hab : shapeOfL a = shapeOfL b)
    (hna : ∀ r ∈ a, ∀ c ∈ r, c.2 = false) (hnb : ∀ r ∈ b, ∀ c ∈ r, c.2 = false) (j : ℕ) :
    (maskWithM a mask).any (fun row => (row.getD j ((0 : ℚ), false)).2)
      = (maskWithM b mask).any (fun row => (row.getD j ((0 : ℚ), false)).2) := by
  induction a generalizing b mask with
  | nil =>
    have hb : b = [] := by cases b <;> simp_all [shapeOfL]
    subst hb
    rfl
  | cons ra as ih =>
    cases b with
    | nil => simp [shapeOfL] at hab
    | cons rb bs =>
      simp only [shapeOfL, List.map_cons, List.cons.injEq] at hab
      obtain ⟨hlen, habs⟩ := hab
      cases mask with
      | nil => rfl
      | cons mr ms =>
        show ((maskWithV ra mr :: maskWithM as ms).any _) = ((maskWithV rb mr :: maskWithM bs ms).any _)
        simp only [List.any_cons]
        rw [maskWithV_getD_snd ra mr (fun c hc => hna ra (by simp) c hc) j,
          maskWithV_getD_snd rb mr (fun c hc => hnb rb (by simp) c hc) j, hlen,
          ih bs ms habs (fun r hr c hc => hna r (by simp [hr]) c hc)
            (fun r hr c hc => hnb r (by simp [hr]) c hc)]

theorem maskWithM_shape_eq (a b : Mat) (mask : List (List Bool))
    (hab : shapeOfL a = shapeOfL b) :
    shapeOfL (maskWithM a mask) = shapeOfL (maskWithM b mask) := by
  induction a generalizing b mask with
  | nil =>
    have hb : b = [] := by cases b <;> simp_all [shapeOfL]
    subst hb
    rfl
  | cons ra as ih =>
    cases b with
    | nil => simp [shapeOfL] at hab
    | cons rb bs =>
      simp only [shapeOfL, List.map_cons, List.cons.injEq] at hab
      obtain ⟨hlen, habs⟩ := hab
      cases mask with
      | nil => rfl
      | cons mr ms =>
        show (maskWithV ra mr).length :: shapeOfL (maskWithM as ms)
          = (maskWithV rb mr).length :: shapeOfL (maskWithM bs ms)
        rw [maskWithV_length, maskWithV_length, hlen, ih bs ms habs]

theorem compressCols_shape (m : Mat) :
    shapeOfL (compressCols m) = m.map (fun row =>
      ((List.range row.length).filter
        (fun j => !(m.any (fun row => (row.getD j ((0 : ℚ), false)).2)))).length) := by
  simp only [compressCols, shapeOfL, List.map_map]
  apply List.map_congr_left
  intro r hr
  simp [List.length_map]

theorem compressCols_shape_eq (a b : Mat) (mask : List (List Bool))
    (hab : shapeOfL a = shapeOfL b)
    (hna : ∀ r ∈ a, ∀ c ∈ r, c.2 = false) (hnb : ∀ r ∈ b, ∀ c ∈ r, c.2 = false) :
    shapeOfL (compressCols (maskWithM a mask)) = shapeOfL (compressCols (maskWithM b mask)) := by
  have hbad := maskWithM_bad_eq a b mask hab hna hnb
  have hshape := maskWithM_shape_eq a b mask hab
  rw [compressCols_shape, compressCols_shape]
  apply List.ext_getElem
  · have := congrArg List.length hshape
    simpa [shapeOfL] using this
  · intro i h1 h2
    have hia : i < (maskWithM a mask).length := by simpa using h1
    have hib : i < (maskWithM b mask).length := by simpa using h2
    simp only [List.getElem_map]
    have h3 := List.getElem_of_eq hshape (show i < (shapeOfL (maskWithM a mask)).length by
      simpa [shapeOfL] using hia)
    have hrl : (maskWithM a mask)[i].length = (maskWithM b mask)[i].length := by
      simpa [shapeOfL] using h3
    rw [hrl]
    congr 1
    apply List.filter_congr
    intro j hj
    rw [hbad j]

theorem rectB_shapeOfL_replicate (m : List (List α)) (h : rectB m = true) :
    shapeOfL m = List.replicate m.length (m.headD []).length := by
  apply List.ext_getElem
  · simp [shapeOfL]
  · intro i h1 h2
    have hi : i < m.length := by simpa [shapeOfL] using h1
    simp only [shapeOfL, List.getElem_map, List.getElem_replicate]
    rw [← List.getD_eq_getElem m [] hi]
    exact rectB_forall m h i hi

theorem replicate_cut (n a b : ℕ) (x : α) (h : a + b ≤ n) :
    (List.replicate n x).take a ++ (List.replicate n x).drop (a + b)
      ++ ((List.replicate n x).drop a).take b = List.replicate n x := by
  rw [List.take_replicate, List.drop_replicate, List.drop_replicate, List.take_replicate]
  rw [← List.replicate_add, ← List.replicate_add]
  congr 1
  omega

theorem cut_shape_rect (z : Mat) (a b : ℕ) (h : a + b ≤ z.length) (hrect : rectB z = true) :
    shapeOfL (z.take a ++ z.drop (a + b) ++ (z.drop a).take b) = shapeOfL z := by
  have hz := rectB_shapeOfL_replicate z hrect
  show (z.take a ++ z.drop (a + b) ++ (z.drop a).take b).map List.length = _
  simp only [List.map_append, List.map_take, List.map_drop]
  show (shapeOfL z).take a ++ (shapeOfL z).drop (a + b) ++ ((shapeOfL z).drop a).take b
    = shapeOfL z
  rw [hz]
  exact replicate_cut z.length a b _ (by simpa [shapeOfL] using h)

/-- C3 counterexample: Cut X with a negative width breaks the shape
invariant.  On the mutually consistent 3×1 tuple below, settings `left = 1`,
`width = -1` make the python slices `z[:1]`, `z[0:]`, `z[1:0]` overlap, and
`np.vstack` produces a 4-row dependent array next to 3-row coordinate
arrays. -/
theorem C3_counterexample :
    (DataV.d2 (plainM [[0], [1], [2]]) (plainM [[0], [0], [0]])
        (plainM [[10], [11], [12]])).consistentB = true ∧
    filters.cut_x
        (DataV.d2 (plainM [[0], [1], [2]]) (plainM [[0], [0], [0]]) (plainM [[10], [11], [12]]))
        "Index" "1" "-1"
      = some (DataV.d2 (plainM [[0], [1], [2]]) (plainM [[0], [0], [0]])
          (plainM [[10], [10], [11], [12]])) ∧
    (DataV.d2 (plainM [[0], [1], [2]]) (plainM [[0], [0], [0]])
        (plainM [[10], [10], [11], [12]])).consistentB = false := by
  exact ⟨by decide, by decide, by decide⟩

theorem noMaskB_d2_parts (x y z : Mat) (h : (DataV.d2 x y z).noMaskB = true) :
    (∀ r ∈ x, ∀ c ∈ r, c.2 = false) ∧ (∀ r ∈ y, ∀ c ∈ r, c.2 = false)
      ∧ (∀ r ∈ z, ∀ c ∈ r, c.2 = false) := by
  simp only [DataV.noMaskB, Bool.and_eq_true, List.all_eq_true] at h
  refine ⟨fun r hr c hc => ?_, fun r hr c hc => ?_, fun r hr c hc => ?_⟩
  · simpa using h.1.1 r hr c hc
  · simpa using h.1.2 r hr c hc
  · simpa using h.2 r hr c hc

theorem crop_x_consistent (d dv' : DataV) (mth s1 s2 : String)
    (hnm : d.noMaskB = true) (hcons : d.consistentB = true)
    (h : filters.crop_x d mth s1 s2 = some dv') : dv'.consistentB = true := by
  cases d with
  | d2 x y z =>
    obtain ⟨hnx, hny, hnz⟩ := noMaskB_d2_parts x y z hnm
    simp only [filters.crop_x, bind, Option.bind_eq_some] at h
    obtain ⟨mn, hmn, mx, hmx, l, hl, r, hr, h⟩ := h
    split at h
    · simp only [Option.bind_eq_some] at h
      obtain ⟨mask, hmask, h⟩ := h
      split at h
      next hgate =>
        injection h with h
        subst h
        simp only [Bool.and_eq_true, beq_iff_eq] at hgate
        obtain ⟨hyx, hzx⟩ := hgate
        have e1 := compressRows_shape_eq x y mask hyx.symm hnx hny
        have e2 := compressRows_shape_eq y z mask (hyx.trans hzx.symm) hny hnz
        simp [DataV.consistentB, e1, e2]
      · simp at h
    · injection h with h
      subst h
      exact hcons
  | d1 x z =>
    simp only [filters.crop_x, bind, Option.bind_eq_some] at h
    obtain ⟨mn, hmn, mx, hmx, l, hl, r, hr, h⟩ := h
    split at h
    · simp only [Option.bind_eq_some] at h
      obtain ⟨mask, hmask, h⟩ := h
      split at h
      next hgate =>
        injection h with h
        subst h
        simp only [beq_iff_eq] at hgate
        simp [DataV.consistentB, maskWithV_length, hgate]
      · simp at h
    · injection h with h
      subst h
      exact hcons

theorem crop_y_consistent (d dv' : DataV) (mth s1 s2 : String)
    (hnm : d.noMaskB = true) (hcons : d.consistentB = true)
    (h : filters.crop_y d mth s1 s2 = some dv') : dv'.consistentB = true := by
  cases d with
  | d2 x y z =>
    obtain ⟨hnx, hny, hnz⟩ := noMaskB_d2_parts x y z hnm
    simp only [filters.crop_y, bind, Option.bind_eq_some] at h
    obtain ⟨mn, hmn, mx, hmx, b, hb, t, ht, h⟩ := h
    split at h
    · simp only [Option.bind_eq_some] at h
      obtain ⟨mask, hmask, h⟩ := h
      split at h
      next hgate =>
        injection h with h
        subst h
        simp only [Bool.and_eq_true, beq_iff_eq] at hgate
        obtain ⟨hxy, hzy⟩ := hgate
        have e1 := compressCols_shape_eq x y mask hxy hnx hny
        have e2 := compressCols_shape_eq y z mask hzy.symm hny hnz
        simp [DataV.consistentB, e1, e2]
      · simp at h
    · injection h with h
      subst h
      exact hcons
  | d1 x z =>
    simp only [filters.crop_y] at h
    injection h with h
    subst h
    exact hcons

theorem interpolate_consistent (d dv' : DataV) (mth s1 s2 : String)
    (h : filters.interpolate d mth s1 s2 = some dv') : dv'.consistentB = true := by
  unfold filters.interpolate at h
  split at h
  · cases d with
    | d2 x y z =>
      simp only [bind, Option.bind_eq_some] at h
      obtain ⟨xc, hxc, yr, hyr, nx, hnx, ny, hny, h⟩ := h
      split at h
      · simp at h
      · simp only [Option.bind_eq_some] at h
        obtain ⟨mnx, h1, mxx, h2, mny, h3, mxy, h4, h⟩ := h
        injection h with h
        subst h
        simp [DataV.consistentB, shapeOfL, plainM, plainV, List.map_map, Function.comp_def]
    | d1 x z =>
      simp only [bind, Option.bind_eq_some] at h
      obtain ⟨nx, hnx, h⟩ := h
      split at h
      · simp at h
      · simp only [Option.bind_eq_some] at h
        obtain ⟨mn, h1, mx, h2, h⟩ := h
        injection h with h
        subst h
        simp [DataV.consistentB, plainV]
  · simp at h

theorem cut_x_consistent (x y z : Mat) (dv' : DataV) (mth s1 s2 : String) (l w : ℤ)
    (hl : PyStr.parseInt? s1 = some l) (hw : PyStr.parseInt? s2 = some w)
    (h0 : 0 ≤ l) (h1 : 0 ≤ w) (hle : l.toNat + w.toNat ≤ z.length) (hrect : rectB z = true)
    (hcons : (DataV.d2 x y z).consistentB = true)
    (h : filters.cut_x (.d2 x y z) mth s1 s2 = some dv') : dv'.consistentB = true := by
  rw [cut_x_eq x y z mth s1 s2 l w hl hw] at h
  injection h with h
  subst h
  have hsh : shapeOfL (pySliceTo z l ++ pySliceFrom z (l + w) ++ pySlice z l (l + w))
      = shapeOfL z := by
    rw [pySliceTo_nonneg _ _ h0 (by omega), pySliceFrom_nonneg _ _ (by omega) (by omega),
      pySlice_nonneg _ _ _ h0 h1 hle,
      show (l + w).toNat = l.toNat + w.toNat from by omega]
    exact cut_shape_rect z l.toNat w.toNat hle hrect
  simp only [DataV.consistentB, hsh] at hcons ⊢
  exact hcons

theorem cut_y_consistent (x y z : Mat) (dv' : DataV) (mth s1 s2 : String) (l w : ℤ)
    (hl : PyStr.parseInt? s1 = some l) (hw : PyStr.parseInt? s2 = some w)
    (h0 : 0 ≤ l) (h1 : 0 ≤ w) (hrow : ∀ row ∈ z, l.toNat + w.toNat ≤ row.length)
    (hcons : (DataV.d2 x y z).consistentB = true)
    (h : filters.cut_y (.d2 x y z) mth s1 s2 = some dv') : dv'.consistentB = true := by
  rw [cut_y_eq x y z mth s1 s2 l w hl hw] at h
  injection h with h
  subst h
  have hsh : shapeOfL (z.map (fun row =>
      pySliceTo row l ++ pySliceFrom row (l + w) ++ pySlice row l (l + w))) = shapeOfL z := by
    simp only [shapeOfL, List.map_map]
    apply List.map_congr_left
    intro row hr
    have hb := hrow row hr
    show (pySliceTo row l ++ pySliceFrom row (l + w) ++ pySlice row l (l + w)).length
      = row.length
    rw [pySliceTo_nonneg _ _ h0 (by omega), pySliceFrom_nonneg _ _ (by omega) (by omega),
      pySlice_nonneg _ _ _ h0 h1 hb]
    simp only [List.length_append, List.length_take, List.length_drop]
    omega
  simp only [DataV.consistentB, hsh] at hcons ⊢
  exact hcons

/-- C3 (amended): the shape invariant holds for the shape-changing filters
under the conditions the GUI normally supplies.  Crop X and Crop Y preserve
mutual shape consistency on unmasked input (the same crop mask drives every
array); Interp always returns a mutually consistent tuple (a fresh regular
grid); Cut X and Cut Y preserve consistency when the parsed start and width
are nonnegative and the selected slab lies inside the dependent array
(rectangular in the Cut X case).  Cut with settings outside this range
breaks the invariant, as the counterexample shows. -/
theorem C3_shape_invariant (mth s1 s2 : String) :
    (∀ d dv' : DataV, d.noMaskB = true → d.consistentB = true →
      filters.crop_x d mth s1 s2 = some dv' → dv'.consistentB = true) ∧
    (∀ d dv' : DataV, d.noMaskB = true → d.consistentB = true →
      filters.crop_y d mth s1 s2 = some dv' → dv'.consistentB = true) ∧
    (∀ d dv' : DataV, filters.interpolate d mth s1 s2 = some dv' →
      dv'.consistentB = true) ∧
    (∀ (x y z : Mat) (dv' : DataV) (l w : ℤ),
      PyStr.parseInt? s1 = some l → PyStr.parseInt? s2 = some w →
      0 ≤ l → 0 ≤ w → l.toNat + w.toNat ≤ z.length → rectB z = true →
      (DataV.d2 x y z).consistentB = true →
      filters.cut_x (.d2 x y z) mth s1 s2 = some dv' → dv'.consistentB = true) ∧
    (∀ (x y z : Mat) (dv' : DataV) (l w : ℤ),
      PyStr.parseInt? s1 = some l → PyStr.parseInt? s2 = some w →
      0 ≤ l → 0 ≤ w → (∀ row ∈ z, l.toNat + w.toNat ≤ row.length) →
      (DataV.d2 x y z).consistentB = true →
      filters.cut_y (.d2 x y z) mth s1 s2 = some dv' → dv'.consistentB = true) :=
  ⟨fun d dv' hnm hc h => crop_x_consistent d dv' mth s1 s2 hnm hc h,
   fun d dv' hnm hc h => crop_y_consistent d dv' mth s1 s2 hnm hc h,
   fun d dv' h => interpolate_consistent d dv' mth s1 s2 h,
   fun x y z dv' l w hl hw h0 h1 hle hrect hc h =>
     cut_x_consistent x y z dv' mth s1 s2 l w hl hw h0 h1 hle hrect hc h,
   fun x y z dv' l w hl hw h0 h1 hrow hc h =>
     cut_y_consistent x y z dv' mth s1 s2 l w hl hw h0 h1 hrow hc h⟩

/-- C3 witness: the cut-x component of the amended shape-invariant theorem
applied on a concrete consistent 3×1 tuple with start 1 and width 1, every
hypothesis discharged at the concrete input. -/
theorem C3_witness :
    (DataV.d2 (plainM [[0], [1], [2]]) (plainM [[0], [0], [0]])
        (plainM [[10], [12], [11]])).consistentB = true :=
  (C3_shape_invariant "Index" "1" "1").2.2.2.1
    (plainM [[0], [1], [2]]) (plainM [[0], [0], [0]]) (plainM [[10], [11], [12]])
    (DataV.d2 (plainM [[0], [1], [2]]) (plainM [[0], [0], [0]]) (plainM [[10], [12], [11]]))
    1 1 (by decide) (by decide) (by decide) (by decide) (by decide) (by decide) (by decide)
    (by decide)
